import Mathlib

set_option linter.unusedSectionVars false

/-!
# Tape-based adjoint differentiation (`AAD.h`)

A shallow embedding of the recording scalar `Number`, the global `tape` and the
backward sweep `calculateAdjoints` of `src/AAD.h`.

* `double` is an arbitrary carrier `α`. The recording operations only use the
  arithmetic symbols of the source (`+ - * /`, unary `-`, the literals `0`, `1`,
  `0.5`), so their definitions ask for nothing but those symbols; theorems about
  exact arithmetic ask for a `Semiring`, or for a `Field` where a division is
  involved.
* `log`, `exp`, `sqrt` on `double` come from `<cmath>`, `normalDens` and
  `normalCdf` from `gaussians.h`; neither is part of the sources, so they are
  taken as a parameter (`DoubleFns`).
* The global `vector<Node> tape` is threaded explicitly: every recording
  operation takes the tape and returns the result together with the new tape.
* `int` indices are natural numbers: every index the code writes is
  `tape.size() - 1` right after a `push_back`, hence a tape position.
* `operator[]` on a `vector` outside its bounds is undefined behaviour; the
  backward sweep is therefore embedded in `Option`, and `none` stands for an
  access outside the bounds.
-/

namespace AAD

/-! ## Data model -/

/-- Tape record, `struct Node`. -/
structure Node (α : Type) where
  /-- number of arguments: 0, 1 or 2 -/
  numArg : Nat
  /-- index of first argument on tape -/
  idx1 : Nat
  /-- index of second argument on tape -/
  idx2 : Nat
  /-- partial derivative to first argument -/
  der1 : α
  /-- partial derivative to second argument -/
  der2 : α
deriving DecidableEq

/-- Recording scalar, `struct Number`. -/
structure Number (α : Type) where
  value : α
  idx : Nat
deriving DecidableEq

/-- The tape, `vector<Node>`. -/
abbrev Tape (α : Type) := List (Node α)

/-- Functions on `double` the header calls but does not define: `log`, `exp`,
`sqrt` of `<cmath>` and `normalDens`, `normalCdf` of `gaussians.h`. -/
structure DoubleFns (α : Type) where
  log : α → α
  exp : α → α
  sqrt : α → α
  normalDens : α → α
  normalCdf : α → α

section Recording

variable {α : Type}

/-- Value-initialised record, `Node()`: every field is zero. -/
def Node.blank [Zero α] : Node α :=
  { numArg := 0, idx1 := 0, idx2 := 0, der1 := 0, der2 := 0 }

/-- Constructor `Number(const double& x)`: pushes a record, stores its position,
sets `numArg = 0`. -/
def Number.ofDouble [Zero α] (x : α) (tape : Tape α) : Number α × Tape α :=
  let node : Node α := Node.blank
  let size := tape.length + 1
  let idx := size - 1
  let node : Node α := { node with numArg := 0 }
  ({ value := x, idx := idx }, tape ++ [node])

/-- Binary `operator+`. -/
def Number.add [Zero α] [One α] [Add α] (lhs rhs : Number α) (tape : Tape α) :
    Number α × Tape α :=
  let node : Node α := Node.blank
  let size := tape.length + 1
  let value := lhs.value + rhs.value
  let idx := size - 1
  let node : Node α := { node with numArg := 2, idx1 := lhs.idx, idx2 := rhs.idx }
  let node : Node α := { node with der1 := 1, der2 := 1 }
  ({ value := value, idx := idx }, tape ++ [node])

/-- Binary `operator-`. -/
def Number.sub [Zero α] [One α] [Sub α] [Neg α] (lhs rhs : Number α) (tape : Tape α) :
    Number α × Tape α :=
  let node : Node α := Node.blank
  let size := tape.length + 1
  let value := lhs.value - rhs.value
  let idx := size - 1
  let node : Node α := { node with numArg := 2, idx1 := lhs.idx, idx2 := rhs.idx }
  let node : Node α := { node with der1 := 1, der2 := -1 }
  ({ value := value, idx := idx }, tape ++ [node])

/-- Binary `operator*`. -/
def Number.mul [Zero α] [Mul α] (lhs rhs : Number α) (tape : Tape α) :
    Number α × Tape α :=
  let node : Node α := Node.blank
  let size := tape.length + 1
  let value := lhs.value * rhs.value
  let idx := size - 1
  let node : Node α := { node with numArg := 2, idx1 := lhs.idx, idx2 := rhs.idx }
  let node : Node α := { node with der1 := rhs.value, der2 := lhs.value }
  ({ value := value, idx := idx }, tape ++ [node])

/-- Binary `operator/`. -/
def Number.div [Zero α] [One α] [Mul α] [Div α] [Neg α] (lhs rhs : Number α)
    (tape : Tape α) : Number α × Tape α :=
  let node : Node α := Node.blank
  let size := tape.length + 1
  let value := lhs.value / rhs.value
  let idx := size - 1
  let node : Node α := { node with numArg := 2, idx1 := lhs.idx, idx2 := rhs.idx }
  let node : Node α := { node with der1 := 1 / rhs.value }
  let node : Node α := { node with der2 := -lhs.value / (rhs.value * rhs.value) }
  ({ value := value, idx := idx }, tape ++ [node])

/-- Unary `operator-`: `Number(0.0) - *this`. The temporary `Number(0.0)` is
built first, then the subtraction is recorded. -/
def Number.neg [Zero α] [One α] [Sub α] [Neg α] (self : Number α) (tape : Tape α) :
    Number α × Tape α :=
  let (zero, tape) := Number.ofDouble 0 tape
  Number.sub zero self tape

/-- Compound `operator+=`: `*this = *this + rhs`; returns the new `*this`. -/
def Number.addAssign [Zero α] [One α] [Add α] (self rhs : Number α) (tape : Tape α) :
    Number α × Tape α :=
  let (sum, tape) := Number.add self rhs tape
  let self := sum
  (self, tape)

/-- Compound `operator-=`: `*this = *this - rhs`; returns the new `*this`. -/
def Number.subAssign [Zero α] [One α] [Sub α] [Neg α] (self rhs : Number α)
    (tape : Tape α) : Number α × Tape α :=
  let (diff, tape) := Number.sub self rhs tape
  let self := diff
  (self, tape)

/-- Compound `operator*=`: `*this = *this * rhs`; returns the new `*this`. -/
def Number.mulAssign [Zero α] [Mul α] (self rhs : Number α) (tape : Tape α) :
    Number α × Tape α :=
  let (prod, tape) := Number.mul self rhs tape
  let self := prod
  (self, tape)

/-- Compound `operator/=`: `*this = *this / rhs`; returns the new `*this`. -/
def Number.divAssign [Zero α] [One α] [Mul α] [Div α] [Neg α] (self rhs : Number α)
    (tape : Tape α) : Number α × Tape α :=
  let (quot, tape) := Number.div self rhs tape
  let self := quot
  (self, tape)

/-- Friend `log`. -/
def Number.log [Zero α] [One α] [Div α] (F : DoubleFns α) (arg : Number α)
    (tape : Tape α) : Number α × Tape α :=
  let node : Node α := Node.blank
  let size := tape.length + 1
  let value := F.log arg.value
  let idx := size - 1
  let node : Node α := { node with numArg := 1, idx1 := arg.idx }
  let node : Node α := { node with der1 := 1 / arg.value }
  ({ value := value, idx := idx }, tape ++ [node])

/-- Friend `exp`. -/
def Number.exp [Zero α] (F : DoubleFns α) (arg : Number α) (tape : Tape α) :
    Number α × Tape α :=
  let node : Node α := Node.blank
  let size := tape.length + 1
  let value := F.exp arg.value
  let idx := size - 1
  let node : Node α := { node with numArg := 1, idx1 := arg.idx }
  let node : Node α := { node with der1 := value }
  ({ value := value, idx := idx }, tape ++ [node])

/-- Friend `sqrt`. -/
def Number.sqrt [Zero α] [Div α] [OfScientific α] (F : DoubleFns α) (arg : Number α)
    (tape : Tape α) : Number α × Tape α :=
  let node : Node α := Node.blank
  let size := tape.length + 1
  let value := F.sqrt arg.value
  let idx := size - 1
  let node : Node α := { node with numArg := 1, idx1 := arg.idx }
  let node : Node α := { node with der1 := 0.5 / value }
  ({ value := value, idx := idx }, tape ++ [node])

/-- Friend `normalDens`. -/
def Number.normalDens [Zero α] [Mul α] [Neg α] (F : DoubleFns α) (arg : Number α)
    (tape : Tape α) : Number α × Tape α :=
  let node : Node α := Node.blank
  let size := tape.length + 1
  let value := F.normalDens arg.value
  let idx := size - 1
  let node : Node α := { node with numArg := 1, idx1 := arg.idx }
  let node : Node α := { node with der1 := -value * arg.value }
  ({ value := value, idx := idx }, tape ++ [node])

/-- Friend `normalCdf`. -/
def Number.normalCdf [Zero α] (F : DoubleFns α) (arg : Number α) (tape : Tape α) :
    Number α × Tape α :=
  let node : Node α := Node.blank
  let size := tape.length + 1
  let value := F.normalCdf arg.value
  let idx := size - 1
  let node : Node α := { node with numArg := 1, idx1 := arg.idx }
  let node : Node α := { node with der1 := F.normalDens arg.value }
  ({ value := value, idx := idx }, tape ++ [node])

end Recording

/-! ## Backward sweep -/

section Adjoints

variable {α : Type}

/-- Body of the loop of `calculateAdjoints` at index `j`: reads `tape[j]` and, as
its `numArg` says, adds `adjoints[j] * der` to the adjoints of the arguments.
`none` when one of the indexed accesses is outside its vector. -/
def propagate [Add α] [Mul α] (tape : Tape α) (j : Nat) (adjoints : List α) :
    Option (List α) := do
  let node ← tape[j]?
  if node.numArg > 0 then
    let aj ← adjoints[j]?
    let a1 ← adjoints[node.idx1]?
    let adjoints := adjoints.set node.idx1 (a1 + aj * node.der1)
    if node.numArg > 1 then
      let aj ← adjoints[j]?
      let a2 ← adjoints[node.idx2]?
      pure (adjoints.set node.idx2 (a2 + aj * node.der2))
    else
      pure adjoints
  else
    pure adjoints

/-- Loop `for (int j = N; j > 0; --j)` of `calculateAdjoints`, started at `j`. -/
def backward [Add α] [Mul α] (tape : Tape α) : Nat → List α → Option (List α)
  | 0, adjoints => some adjoints
  | j + 1, adjoints => do
    let adjoints ← propagate tape (j + 1) adjoints
    backward tape j adjoints

/-- Function `calculateAdjoints(Number& result)` on the tape `tape`. -/
def calculateAdjoints [Zero α] [One α] [Add α] [Mul α] (tape : Tape α)
    (result : Number α) : Option (List α) :=
  let adjoints : List α := List.replicate tape.length 0
  let N := result.idx
  if N < adjoints.length then
    backward tape N (adjoints.set N 1)
  else
    none

end Adjoints

/-! ## Well-formed tapes, dependencies, tangents -/

section Predicates

variable {α : Type}

/-- A record at position `k` is well formed: `numArg` is 0, 1 or 2 and every
argument index it uses is strictly below `k`. -/
def Node.WellFormed (k : Nat) (node : Node α) : Prop :=
  node.numArg ≤ 2 ∧ (0 < node.numArg → node.idx1 < k) ∧ (1 < node.numArg → node.idx2 < k)

instance (k : Nat) (node : Node α) : Decidable (node.WellFormed k) := by
  unfold Node.WellFormed; infer_instance

/-- A tape is well formed when each of its records is, at its own position. -/
def WellFormed (tape : Tape α) : Prop :=
  ∀ k (h : k < tape.length), (tape[k]).WellFormed k

instance (tape : Tape α) : Decidable (WellFormed tape) := by
  unfold WellFormed; infer_instance

/-- Position `s` holds a record of arity 0 (a source). -/
def IsSource (tape : Tape α) (s : Nat) : Prop :=
  (tape[s]?).map Node.numArg = some 0

instance (tape : Tape α) (s : Nat) : Decidable (IsSource tape s) := by
  unfold IsSource; infer_instance

/-- Tangents `t` obey the forward recurrence of the tape: at a record of arity 1
`t k = der1 * t idx1`, at a record of arity 2
`t k = der1 * t idx1 + der2 * t idx2`; at sources `t` is free. -/
def IsTangent [Add α] [Mul α] (tape : Tape α) (t : Nat → α) : Prop :=
  ∀ k (h : k < tape.length),
    ((tape[k]).numArg = 1 → t k = (tape[k]).der1 * t (tape[k]).idx1) ∧
    ((tape[k]).numArg = 2 →
      t k = (tape[k]).der1 * t (tape[k]).idx1 + (tape[k]).der2 * t (tape[k]).idx2)

end Predicates

/-! ## Programs over the recording scalar -/

section Programs

variable {α : Type}

/-- The four binary operators. -/
inductive BinOp where
  | add | sub | mul | div
deriving DecidableEq

/-- The five elementary functions. -/
inductive UnFn where
  | log | exp | sqrt | normalDens | normalCdf
deriving DecidableEq

/-- One statement of a program that records on the tape. Variables are named by
their position in the store. -/
inductive Instr (α : Type) where
  /-- declare a variable constructed from a double -/
  | ofDouble (x : α)
  /-- declare a variable holding `vars[i] op vars[j]` -/
  | binary (op : BinOp) (i j : Nat)
  /-- declare a variable holding `-vars[i]` -/
  | neg (i : Nat)
  /-- compound assignment `vars[i] op= vars[j]` -/
  | assign (op : BinOp) (i j : Nat)
  /-- declare a variable holding `f(vars[i])` -/
  | apply (f : UnFn) (i : Nat)
  /-- wipe the tape, `tape.clear()`; the Numbers recorded on it go out of use -/
  | clear
deriving DecidableEq

/-- The tape together with the Numbers in use that were created on it. -/
structure State (α : Type) where
  tape : Tape α
  vars : List (Number α)
deriving DecidableEq

/-- Empty tape, no variable. -/
def State.init : State α := { tape := [], vars := [] }

variable [Zero α] [One α] [Add α] [Sub α] [Mul α] [Div α] [Neg α] [OfScientific α]

/-- Dispatch of a binary operator to its overload. -/
def BinOp.run : BinOp → Number α → Number α → Tape α → Number α × Tape α
  | .add => Number.add
  | .sub => Number.sub
  | .mul => Number.mul
  | .div => Number.div

/-- Dispatch of a compound assignment to its overload. -/
def BinOp.runAssign : BinOp → Number α → Number α → Tape α → Number α × Tape α
  | .add => Number.addAssign
  | .sub => Number.subAssign
  | .mul => Number.mulAssign
  | .div => Number.divAssign

/-- Dispatch of an elementary function to its overload. -/
def UnFn.run (F : DoubleFns α) : UnFn → Number α → Tape α → Number α × Tape α
  | .log => Number.log F
  | .exp => Number.exp F
  | .sqrt => Number.sqrt F
  | .normalDens => Number.normalDens F
  | .normalCdf => Number.normalCdf F

/-- Execution of one statement. `none` when the statement names a variable that
does not exist. -/
def State.step (F : DoubleFns α) (s : State α) : Instr α → Option (State α)
  | .ofDouble x =>
    let (v, tape) := Number.ofDouble x s.tape
    some { tape := tape, vars := s.vars ++ [v] }
  | .binary op i j => do
    let lhs ← s.vars[i]?
    let rhs ← s.vars[j]?
    let (v, tape) := op.run lhs rhs s.tape
    some { tape := tape, vars := s.vars ++ [v] }
  | .neg i => do
    let a ← s.vars[i]?
    let (v, tape) := Number.neg a s.tape
    some { tape := tape, vars := s.vars ++ [v] }
  | .assign op i j => do
    let self ← s.vars[i]?
    let rhs ← s.vars[j]?
    let (self, tape) := op.runAssign self rhs s.tape
    some { tape := tape, vars := s.vars.set i self }
  | .apply f i => do
    let arg ← s.vars[i]?
    let (v, tape) := f.run F arg s.tape
    some { tape := tape, vars := s.vars ++ [v] }
  | .clear => some { tape := [], vars := [] }

/-- Execution of a sequence of statements, left to right. -/
def State.run (F : DoubleFns α) (s : State α) : List (Instr α) → Option (State α)
  | [] => some s
  | instr :: rest => do
    let s ← s.step F instr
    s.run F rest

end Programs

/-! ## Auxiliary definitions for the statements and proofs -/

section Auxiliary

variable {α : Type}

/-- Weight of the tangent of node `k` once the backward loop has handled every
record above `j`: nodes up to `j` and all sources still count. -/
def weight [Zero α] (tape : Tape α) (t : Nat → α) (j k : Nat) : α :=
  if k ≤ j ∨ IsSource tape k then t k else 0

/-- Invariant of recording: the tape is well formed and every Number in use
points into it. -/
def State.Inv (s : State α) : Prop :=
  WellFormed s.tape ∧ ∀ v ∈ s.vars, v.idx < s.tape.length

/-- The operation grew `tape` by exactly one record, found at the position the
result stores, of arity 2 with the given operands and local derivatives. -/
def RecordsBinary (tape : Tape α) (out : Number α × Tape α) (lhs rhs : Number α)
    (der1 der2 : α) : Prop :=
  ∃ node, out.2 = tape ++ [node] ∧ out.2[out.1.idx]? = some node ∧
    node.numArg = 2 ∧ node.idx1 = lhs.idx ∧ node.idx2 = rhs.idx ∧
    node.der1 = der1 ∧ node.der2 = der2

/-- The operation grew `tape` by exactly one record, found at the position the
result stores, of arity 1 with the given operand and local derivative. -/
def RecordsUnary (tape : Tape α) (out : Number α × Tape α) (arg : Number α)
    (der1 : α) : Prop :=
  ∃ node, out.2 = tape ++ [node] ∧ out.2[out.1.idx]? = some node ∧
    node.numArg = 1 ∧ node.idx1 = arg.idx ∧ node.der1 = der1

/-- Two distinct sources recorded on a fresh tape: `Number a = x, b = y;`. -/
def twoSources [Zero α] (x y : α) : Number α × Number α × Tape α :=
  let (a, tape) := Number.ofDouble x []
  let (b, tape) := Number.ofDouble y tape
  (a, b, tape)

/-- What every recording operation does to the tape: one record is appended, at
the position the result stores, and it is well formed as soon as the operands
point into the tape. -/
def Appends (tape : Tape α) (args : List (Number α)) (out : Number α × Tape α) : Prop :=
  ∃ node, out.2 = tape ++ [node] ∧ out.1.idx = tape.length ∧
    ((∀ a ∈ args, a.idx < tape.length) → node.WellFormed tape.length)

end Auxiliary

/-! ## Concrete inputs -/

section Examples

/-- Rational stand-ins for the double functions, to run the embedding on
concrete inputs. -/
def ratFns : DoubleFns ℚ :=
  { log := fun x => x - 1
    exp := fun x => 1 + x
    sqrt := fun x => (1 + x) / 2
    normalDens := fun _ => 2 / 5
    normalCdf := fun x => 1 / 2 + 2 * x / 5 }

/-- Program `Number x = 3, y = 5; Number z = x * y; Number w = log(z);`. -/
def exampleProg : List (Instr ℚ) :=
  [Instr.ofDouble 3, Instr.ofDouble 5, Instr.binary BinOp.mul 0 1, Instr.apply UnFn.log 2]

/-- Tape recorded by `exampleProg`. -/
def exampleTape : Tape ℚ :=
  [ { numArg := 0, idx1 := 0, idx2 := 0, der1 := 0, der2 := 0 },
    { numArg := 0, idx1 := 0, idx2 := 0, der1 := 0, der2 := 0 },
    { numArg := 2, idx1 := 0, idx2 := 1, der1 := 5, der2 := 3 },
    { numArg := 1, idx1 := 2, idx2 := 0, der1 := 1 / 15, der2 := 0 } ]

/-- State reached by `exampleProg` from the empty state. -/
def exampleState : State ℚ :=
  { tape := exampleTape
    vars := [⟨3, 0⟩, ⟨5, 1⟩, ⟨15, 2⟩, ⟨14, 3⟩] }

/-- State after the two declarations `Number x = 3, y = 5;`. -/
def twoVars : State ℚ :=
  { tape := [ { numArg := 0, idx1 := 0, idx2 := 0, der1 := 0, der2 := 0 },
              { numArg := 0, idx1 := 0, idx2 := 0, der1 := 0, der2 := 0 } ]
    vars := [⟨3, 0⟩, ⟨5, 1⟩] }

/-- Tangents on `exampleTape` seeded with `1` and `2` at the two sources. -/
def exampleTangent (k : Nat) : ℚ :=
  ([1, 2, 11, 11 / 15] : List ℚ).getD k 0

/-- State after the declaration `Number x = 3;`. -/
def oneVar : State ℚ :=
  { tape := [ { numArg := 0, idx1 := 0, idx2 := 0, der1 := 0, der2 := 0 } ]
    vars := [⟨3, 0⟩] }

/-- Statements `Number y = 5; Number z = x * y;`. -/
def exampleTail : List (Instr ℚ) :=
  [Instr.ofDouble 5, Instr.binary BinOp.mul 0 1]

/-- State after `Number x = 3, y = 5; Number z = x * y;`. -/
def threeVars : State ℚ :=
  { tape := [ { numArg := 0, idx1 := 0, idx2 := 0, der1 := 0, der2 := 0 },
              { numArg := 0, idx1 := 0, idx2 := 0, der1 := 0, der2 := 0 },
              { numArg := 2, idx1 := 0, idx2 := 1, der1 := 5, der2 := 3 } ]
    vars := [⟨3, 0⟩, ⟨5, 1⟩, ⟨15, 2⟩] }

end Examples

/-! ## Machine integers

`int` is a 32-bit two's-complement integer. The value of an `int` is an integer
of Lean; an arithmetic operation on `int` whose exact result leaves the range
`[-2^31, 2^31)` wraps around. Signed overflow is undefined behaviour in C++;
the wrap is what the compiled addition, subtraction and multiplication do.
-/

section MachineInt

/-- Result of an `int` operation whose exact result is `x`. -/
def wrapInt32 (x : Int) : Int :=
  (x + 2147483648) % 4294967296 - 2147483648

end MachineInt

/-! ## The pricing kernel (`dupireBarrier.h`)

`dupireBarrierMCBatch` is a template over the scalar type `T`. The embedding
is written once over the operations the template uses on `T` (`Scalar`) and
instantiated for `double` and for `Number`. The operations thread a state `σ`:
the tape for `Number`, nothing for `double`. Operands of an expression are
evaluated left to right; where the language leaves the order open, another
order moves records on the tape and changes no value.

`random.h`, `interp.h` and `matrix.h` are not part of the sources: the generator
is modelled from its contract, `interp2D` is a parameter, and a matrix is the
row-major list of its entries. A negative `Nt` makes `vector<double>(Nt)` throw
before any simulation, so `Nt` is a natural number; path indices are `int`s.
The loop over the paths of a batch runs once for each `i` with
`firstPath <= i < lastPath`; the difference `lastPath - firstPath` the sum is
divided by is computed in `int`.
-/

section Kernel

/-- Modelled from the spec: the generator of `random.h`, which is not part of
the sources. `gauss k j` is component `j` of the `k`-th vector draw; `skipTo k`
positions at draw `k`, `nextG` returns the draw at the current position and
advances, `clone` is an independent copy in the same state. -/
structure RNG (D : Type) where
  gauss : Int → Nat → D
  dim : Nat
  pos : Int

variable {T σ D : Type}

/-- Call `random.init(dim)`. -/
def RNG.init (random : RNG D) (dim : Nat) : RNG D :=
  { random with dim := dim }

/-- Call `random.skipTo(k)`. -/
def RNG.skipTo (random : RNG D) (k : Int) : RNG D :=
  { random with pos := k }

/-- Call `random.nextG(buf)` on a buffer of `len` doubles. -/
def RNG.nextG (random : RNG D) (len : Nat) : List D × RNG D :=
  ((List.range len).map (random.gauss random.pos), { random with pos := random.pos + 1 })

/-- Call `random.clone()`. -/
def RNG.clone (random : RNG D) : RNG D := random

/-- Operations the kernel template uses on its scalar type `T`: conversion from
`double`, arithmetic, compound assignment, `exp`, `sqrt` and the two
comparisons. -/
structure Scalar (T σ D : Type) where
  ofDouble : D → σ → T × σ
  add : T → T → σ → T × σ
  sub : T → T → σ → T × σ
  mul : T → T → σ → T × σ
  div : T → T → σ → T × σ
  addAssign : T → T → σ → T × σ
  mulAssign : T → T → σ → T × σ
  exp : T → σ → T × σ
  sqrt : T → σ → T × σ
  gt : T → T → Bool
  lt : T → T → Bool

/-- Type of `interp2D(spots, times, vols, spot, time)` at scalar `T`. -/
abbrev Interp2D (T σ : Type) := List T → List T → List T → T → T → σ → T × σ

/-- Instance of the template at `T = double`. -/
def doubleScalar [Add D] [Sub D] [Mul D] [Div D] [LT D]
    [DecidableRel (fun (a b : D) => a < b)] (F : DoubleFns D) : Scalar D Unit D :=
  { ofDouble := fun x st => (x, st)
    add := fun a b st => (a + b, st)
    sub := fun a b st => (a - b, st)
    mul := fun a b st => (a * b, st)
    div := fun a b st => (a / b, st)
    addAssign := fun a b st => (a + b, st)
    mulAssign := fun a b st => (a * b, st)
    exp := fun a st => (F.exp a, st)
    sqrt := fun a st => (F.sqrt a, st)
    gt := fun a b => decide (b < a)
    lt := fun a b => decide (a < b) }

/-- Instance of the template at `T = Number`. Modelled from the spec: the
comparisons of two Numbers are not declared in `AAD.h`; they compare the
`value` fields and record nothing. -/
def numberScalar [Zero D] [One D] [Add D] [Sub D] [Mul D] [Div D] [Neg D] [OfScientific D]
    [LT D] [DecidableRel (fun (a b : D) => a < b)] (F : DoubleFns D) :
    Scalar (Number D) (Tape D) D :=
  { ofDouble := Number.ofDouble
    add := Number.add
    sub := Number.sub
    mul := Number.mul
    div := Number.div
    addAssign := Number.addAssign
    mulAssign := Number.mulAssign
    exp := Number.exp F
    sqrt := Number.sqrt F
    gt := fun a b => decide (b.value < a.value)
    lt := fun a b => decide (a.value < b.value) }

variable [Zero D] [One D] [OfNat D 2] [Neg D] [OfScientific D] [NatCast D] [IntCast D]

/-- One Euler step, lines 55-60: interpolate the volatility,
`spot *= exp(-0.5 * vol * vol * dt + vol * sdt * g)`, `time += dt`. -/
def simulateStep (S : Scalar T σ D) (interp2D : Interp2D T σ) (spots times vols : List T)
    (dt sdt : T) (g : D) (spot time : T) (st : σ) : (T × T) × σ :=
  let (vol, st) := interp2D spots times vols spot time st
  let (mhalf, st) := S.ofDouble (-0.5) st
  let (a, st) := S.mul mhalf vol st
  let (a, st) := S.mul a vol st
  let (a, st) := S.mul a dt st
  let (b, st) := S.mul vol sdt st
  let (gn, st) := S.ofDouble g st
  let (b, st) := S.mul b gn st
  let (arg, st) := S.add a b st
  let (ret, st) := S.exp arg st
  let (spot, st) := S.mulAssign spot ret st
  let (time, st) := S.addAssign time dt st
  ((spot, time), st)

/-- Barrier monitoring, lines 62-65. Returns the new `notionalAlive` and
whether the step loop is left by `break`. -/
def monitor (S : Scalar T σ D) (barrier epsilon spot notionalAlive : T) (st : σ) :
    (T × Bool) × σ :=
  let (up, st) := S.add barrier epsilon st
  if S.gt spot up then
    let (dead, st) := S.ofDouble 0 st
    ((dead, true), st)
  else
    let (down, st) := S.sub barrier epsilon st
    if S.lt spot down then
      ((notionalAlive, false), st)
    else
      let (one, st) := S.ofDouble 1 st
      let (num, st) := S.sub spot barrier st
      let (num, st) := S.add num epsilon st
      let (two, st) := S.ofDouble 2 st
      let (den, st) := S.mul two epsilon st
      let (slope, st) := S.div num den st
      let (factor, st) := S.sub one slope st
      let (notionalAlive, st) := S.mulAssign notionalAlive factor st
      ((notionalAlive, false), st)

/-- Step loop `for (int j = 0; j < Nt; ++j)`, lines 53-66, over the Gaussian
increments of the path. Returns `spot`, `time` and `notionalAlive`. -/
def stepLoop (S : Scalar T σ D) (interp2D : Interp2D T σ) (spots times vols : List T)
    (barrier epsilon dt sdt : T) : List D → T → T → T → σ → (T × T × T) × σ
  | [], spot, time, notionalAlive, st => ((spot, time, notionalAlive), st)
  | g :: gs, spot, time, notionalAlive, st =>
    let ((spot, time), st) := simulateStep S interp2D spots times vols dt sdt g spot time st
    let ((notionalAlive, stop), st) := monitor S barrier epsilon spot notionalAlive st
    if stop then
      ((spot, time, notionalAlive), st)
    else
      stepLoop S interp2D spots times vols barrier epsilon dt sdt gs spot time notionalAlive st

/-- Body of the loop over paths for given increments, lines 48-69: initialise
the path, run the steps, add the payoff to `result`. -/
def simulatePath (S : Scalar T σ D) (interp2D : Interp2D T σ) (S0 : T) (spots times vols : List T)
    (strike barrier epsilon dt sdt : T) (gs : List D) (result : T) (st : σ) : T × σ :=
  let spot := S0
  let (time, st) := S.ofDouble 0 st
  let (notionalAlive, st) := S.ofDouble 1 st
  let ((spot, _, notionalAlive), st) :=
    stepLoop S interp2D spots times vols barrier epsilon dt sdt gs spot time notionalAlive st
  if S.gt spot strike then
    let (gain, st) := S.sub spot strike st
    let (gain, st) := S.mul notionalAlive gain st
    S.addAssign result gain st
  else
    (result, st)

/-- Loop `for (int i = firstPath; i < lastPath; ++i)`, lines 43-70, with `n`
paths left. -/
def pathLoop (S : Scalar T σ D) (interp2D : Interp2D T σ) (S0 : T) (spots times vols : List T)
    (strike barrier epsilon dt sdt : T) (Nt : Nat) : Nat → T → RNG D → σ → (T × RNG D) × σ
  | 0, result, random, st => ((result, random), st)
  | n + 1, result, random, st =>
    let (gs, random) := random.nextG Nt
    let (result, st) :=
      simulatePath S interp2D S0 spots times vols strike barrier epsilon dt sdt gs result st
    pathLoop S interp2D S0 spots times vols strike barrier epsilon dt sdt Nt n result random st

/-- Template `dupireBarrierMCBatch`, lines 10-73. -/
def dupireBarrierMCBatch (S : Scalar T σ D) (interp2D : Interp2D T σ) (S0 : T)
    (spots times vols : List T) (maturity strike barrier : T) (firstPath lastPath : Int)
    (Nt : Nat) (epsilon : T) (random : RNG D) (st : σ) : (T × RNG D) × σ :=
  let (result, st) := S.ofDouble 0 st
  let random := random.skipTo firstPath
  let (steps, st) := S.ofDouble (Nt : D) st
  let (dt, st) := S.div maturity steps st
  let (sdt, st) := S.sqrt dt st
  let ((result, random), st) :=
    pathLoop S interp2D S0 spots times vols strike barrier epsilon dt sdt Nt
      (lastPath - firstPath).toNat result random st
  let (count, st) := S.ofDouble ((wrapInt32 (lastPath - firstPath) : Int) : D) st
  let (mean, st) := S.div result count st
  ((mean, random), st)

end Kernel

/-! ## The drivers (`dupireBarrier.h`)

The serial drivers loop `while (firstPath < Np)`; the loop is embedded with a
fuel, `none` standing for a loop that has not finished (or for undefined
behaviour in its body). The counts `Np`, `Nb` and the path indices are `int`s
and their sums, products and differences are taken in `int`. The parallel drivers run their loop body once per batch
index, each on its own clone of the generator and writing its own slot, so the
loop is embedded as a map over the batch indices.
-/

section Drivers

variable {D β : Type}

/-- Loop skeleton shared by `dupireBarrierPricer` (lines 101-120) and
`dupireBarrierRisks` (lines 171-225):
`while (firstPath < Np) { lastPath = min(firstPath + Nb, Np); body; firstPath = lastPath; }`. -/
def batchLoop (Np Nb : Int) (body : Int → Int → β → Option β) : Nat → Int → β → Option β
  | 0, firstPath, acc => if firstPath < Np then none else some acc
  | fuel + 1, firstPath, acc =>
    if firstPath < Np then
      let lastPath := wrapInt32 (firstPath + Nb)
      let lastPath := min lastPath Np
      match body firstPath lastPath acc with
      | none => none
      | some acc => batchLoop Np Nb body fuel lastPath acc
    else
      some acc

/-- Number of batches of the parallel drivers, `int((Np - 1) / Nb) + 1`; `none`
for the divisions that trap (by zero, and `INT_MIN / -1`) and for a negative
size of the result vectors. -/
def numBatches (Np Nb : Int) : Option Nat :=
  if Nb = 0 ∨ (wrapInt32 (Np - 1) = -2147483648 ∧ Nb = -1) then none
  else
    let n := wrapInt32 (Int.tdiv (wrapInt32 (Np - 1)) Nb + 1)
    if n < 0 then none else some n.toNat

/-- Batch `batch` of the parallel drivers: `firstPath = batch * Nb`,
`lastPath = min(firstPath + Nb, Np)`. -/
def batchBounds (Np Nb : Int) (batch : Nat) : Int × Int :=
  let firstPath := wrapInt32 ((batch : Int) * Nb)
  let lastPath := min (wrapInt32 (firstPath + Nb)) Np
  (firstPath, lastPath)

variable [Zero D] [One D] [OfNat D 2] [Neg D] [OfScientific D] [NatCast D] [IntCast D]
variable [Add D] [Sub D] [Mul D] [Div D] [LT D] [DecidableRel (fun (a b : D) => a < b)]

/-- Body of the loop of `dupireBarrierPricer`, lines 103-119, on the running
`result` and the generator, with the function called on lines 105-117 as the
parameter `batch`. The function threads a state `τ` of its own: nothing for the
kernel as it is, the list of the calls made when the calls are counted. -/
def pricerBodyWith {τ : Type} (batch : Int → Int → RNG D → τ → (D × RNG D) × τ) (Np : Int)
    (firstPath lastPath : Int) (acc : (D × RNG D) × τ) : Option ((D × RNG D) × τ) :=
  let ((batchPrice, random), t) := batch firstPath lastPath acc.1.2 acc.2
  some ((acc.1.1 + batchPrice * ((wrapInt32 (lastPath - firstPath) : Int) : D)
    / ((Np : Int) : D), random), t)

/-- Body of the loop of `dupireBarrierPricer`, lines 103-119: the function called
is `dupireBarrierMCBatch` at `T = double`. -/
def pricerBody (F : DoubleFns D) (interp2D : Interp2D D Unit) (S0 : D)
    (spots times vols : List D) (maturity strike barrier : D) (Np : Int) (Nt : Nat)
    (epsilon : D) (firstPath lastPath : Int) (acc : D × RNG D) : Option (D × RNG D) :=
  (pricerBodyWith
    (fun firstPath lastPath random st =>
      dupireBarrierMCBatch (doubleScalar F) interp2D S0 spots times vols maturity strike
        barrier firstPath lastPath Nt epsilon random st)
    Np firstPath lastPath (acc, ())).map Prod.fst

/-- Function `dupireBarrierPricer`, lines 75-123. -/
def dupireBarrierPricer (F : DoubleFns D) (interp2D : Interp2D D Unit) (S0 : D)
    (spots times vols : List D) (maturity strike barrier : D) (Np Nb : Int) (Nt : Nat)
    (epsilon : D) (random : RNG D) (fuel : Nat) : Option D :=
  let random := random.init Nt
  let out := batchLoop Np Nb
    (pricerBody F interp2D S0 spots times vols maturity strike barrier Np Nt epsilon)
    fuel 0 (0, random)
  out.map Prod.fst

/-- Function `dupireBarrierPricerMT`, lines 228-286. -/
def dupireBarrierPricerMT (F : DoubleFns D) (interp2D : Interp2D D Unit) (S0 : D)
    (spots times vols : List D) (maturity strike barrier : D) (Np Nb : Int) (Nt : Nat)
    (epsilon : D) (random : RNG D) : Option D :=
  match numBatches Np Nb with
  | none => none
  | some n =>
    let random := random.init Nt
    let batchResults := (List.range n).map fun batch =>
      let (firstPath, lastPath) := batchBounds Np Nb batch
      let cRandom := random.clone
      ((wrapInt32 (lastPath - firstPath) : Int) : D) *
        (dupireBarrierMCBatch (doubleScalar F) interp2D S0 spots times vols maturity strike
          barrier firstPath lastPath Nt epsilon cRandom ()).1.1
    some (batchResults.foldl (fun sum x => sum + x) 0 / ((Np : Int) : D))

/-- Assignment of doubles to a range of Numbers,
`copy(xs.begin(), xs.end(), nXs.begin())`: one construction per element, in order. -/
def copyToTape : List D → Tape D → List (Number D) × Tape D
  | [], tape => ([], tape)
  | x :: xs, tape =>
    let (n, tape) := Number.ofDouble x tape
    let (ns, tape) := copyToTape xs tape
    (n :: ns, tape)

/-- What a risk driver holds after recording one batch and propagating. -/
structure BatchRecord (D : Type) where
  nS0 : Number D
  nVols : List (Number D)
  nBatchPrice : Number D
  tape : Tape D
  adjoints : List D
  random : RNG D

/-- Recording of one batch, the statements common to `dupireBarrierRisks` (lines
176-207) and `dupireBarrierRisksMT` (lines 337-378): wipe the tape, put the
parameters on tape, run the kernel on Numbers, propagate the adjoints. -/
def recordBatch (F : DoubleFns D) (interp2D : Interp2D (Number D) (Tape D)) (S0 : D)
    (spots times vols : List D) (maturity strike barrier : D) (firstPath lastPath : Int)
    (Nt : Nat) (epsilon : D) (random : RNG D) : Option (BatchRecord D) :=
  let tape : Tape D := []
  let (nS0, tape) := Number.ofDouble S0 tape
  let (nMaturity, tape) := Number.ofDouble maturity tape
  let (nStrike, tape) := Number.ofDouble strike tape
  let (nBarrier, tape) := Number.ofDouble barrier tape
  let (nEpsilon, tape) := Number.ofDouble epsilon tape
  let (nSpots, tape) := copyToTape spots tape
  let (nTimes, tape) := copyToTape times tape
  let (nVols, tape) := copyToTape vols tape
  let ((nBatchPrice, random), tape) :=
    dupireBarrierMCBatch (numberScalar F) interp2D nS0 nSpots nTimes nVols nMaturity nStrike
      nBarrier firstPath lastPath Nt nEpsilon random tape
  match calculateAdjoints tape nBatchPrice with
  | none => none
  | some adjoints =>
    some { nS0 := nS0, nVols := nVols, nBatchPrice := nBatchPrice, tape := tape,
           adjoints := adjoints, random := random }

/-- Output of `transform(xs.begin(), xs.end(), buf.begin(), f)` with the values
`ys` of `f`: they overwrite the front of `buf`; writing past its end is undefined. -/
def writeInto (buf ys : List D) : Option (List D) :=
  if ys.length ≤ buf.length then some (ys ++ buf.drop ys.length) else none

/-- Results of a risk driver: `price`, `delta` and the row-major `vegas`. -/
structure Risks (D : Type) where
  price : D
  delta : D
  vegas : List D

/-- Loop state of `dupireBarrierRisks`: the results so far, the buffer
`batchVegas` and the generator. -/
structure RisksState (D : Type) where
  price : D
  delta : D
  vegas : List D
  batchVegas : List D
  random : RNG D

/-- Body of the loop of `dupireBarrierRisks`, lines 173-224. -/
def risksBody (F : DoubleFns D) (interp2D : Interp2D (Number D) (Tape D)) (S0 : D)
    (spots times vols : List D) (maturity strike barrier : D) (Np : Int) (Nt : Nat)
    (epsilon : D) (firstPath lastPath : Int) (acc : RisksState D) : Option (RisksState D) := do
  let rec1 ← recordBatch F interp2D S0 spots times vols maturity strike barrier firstPath
    lastPath Nt epsilon acc.random
  let batchPrice := rec1.nBatchPrice.value
  let batchDelta ← rec1.adjoints[rec1.nS0.idx]?
  let picks ← rec1.nVols.mapM fun vol => rec1.adjoints[vol.idx]?
  let batchVegas ← writeInto acc.batchVegas picks
  let paths := wrapInt32 (lastPath - firstPath)
  let w := ((paths : Int) : D) / ((Np : Int) : D)
  some { price := acc.price + batchPrice * w
         delta := acc.delta + batchDelta * w
         vegas := List.zipWith (fun vega batchVega => vega + batchVega * w) acc.vegas batchVegas
         batchVegas := batchVegas
         random := rec1.random }

/-- Function `dupireBarrierRisks`, lines 125-226. -/
def dupireBarrierRisks (F : DoubleFns D) (interp2D : Interp2D (Number D) (Tape D)) (S0 : D)
    (spots times vols : List D) (maturity strike barrier : D) (Np Nb : Int) (Nt : Nat)
    (epsilon : D) (random : RNG D) (fuel : Nat) : Option (Risks D) :=
  let cells := spots.length * times.length
  let init : RisksState D :=
    { price := 0, delta := 0, vegas := List.replicate cells 0,
      batchVegas := List.replicate cells 0, random := random.init Nt }
  let out := batchLoop Np Nb
    (risksBody F interp2D S0 spots times vols maturity strike barrier Np Nt epsilon)
    fuel 0 init
  out.map fun acc => { price := acc.price, delta := acc.delta, vegas := acc.vegas }

/-- Body of the parallel loop of `dupireBarrierRisksMT`, lines 331-385, for one
batch: the slots `batchPrices[batch]`, `batchDeltas[batch]`, `batchVegas[batch]`. -/
def risksBodyMT (F : DoubleFns D) (interp2D : Interp2D (Number D) (Tape D)) (S0 : D)
    (spots times vols : List D) (maturity strike barrier : D) (Np Nb : Int) (Nt : Nat)
    (epsilon : D) (random : RNG D) (batch : Nat) : Option (Risks D) := do
  let (firstPath, lastPath) := batchBounds Np Nb batch
  let cRandom := random.clone
  let rec1 ← recordBatch F interp2D S0 spots times vols maturity strike barrier firstPath
    lastPath Nt epsilon cRandom
  let paths := wrapInt32 (lastPath - firstPath)
  let batchDelta ← rec1.adjoints[rec1.nS0.idx]?
  let picks ← rec1.nVols.mapM fun vol =>
    (rec1.adjoints[vol.idx]?).map fun a => a * ((paths : Int) : D)
  let batchVegas ← writeInto (List.replicate (spots.length * times.length) 0) picks
  some { price := rec1.nBatchPrice.value * ((paths : Int) : D)
         delta := batchDelta * ((paths : Int) : D)
         vegas := batchVegas }

/-- Function `dupireBarrierRisksMT`, lines 288-407. -/
def dupireBarrierRisksMT (F : DoubleFns D) (interp2D : Interp2D (Number D) (Tape D)) (S0 : D)
    (spots times vols : List D) (maturity strike barrier : D) (Np Nb : Int) (Nt : Nat)
    (epsilon : D) (random : RNG D) : Option (Risks D) := do
  let n ← numBatches Np Nb
  let random := random.init Nt
  let slots ← (List.range n).mapM
    (risksBodyMT F interp2D S0 spots times vols maturity strike barrier Np Nb Nt epsilon random)
  let price := (slots.map Risks.price).foldl (fun sum x => sum + x) 0 / ((Np : Int) : D)
  let delta := (slots.map Risks.delta).foldl (fun sum x => sum + x) 0 / ((Np : Int) : D)
  let vegas ← (List.range (spots.length * times.length)).mapM fun cell => do
    let total ← slots.foldlM (fun sum slot => (slot.vegas[cell]?).map fun v => sum + v) (0 : D)
    some (total / ((Np : Int) : D))
  some { price := price, delta := delta, vegas := vegas }

end Drivers

/-! ## The spreadsheet entry points (`xlExport.cpp`)

The entry points are embedded up to the call of a driver: the outcome is the
error value or the driver that is called with its three integer counts. The
helpers of `xlOper.h` and the generators are not part of the sources and play
no part in this. `int(x)` truncates toward zero; the dimensions of an `FP12`
are `INT32` fields and their products are taken in `int`, one multiplication
after the other.
-/

section EntryPoints

variable {D : Type}

/-- Dimensions of an `FP12` array argument, two `INT32` fields. -/
structure FP12 where
  rows : Int
  columns : Int
deriving DecidableEq

/-- The four drivers of `dupireBarrier.h`. -/
inductive Driver where
  | pricer | pricerMT | risks | risksMT
deriving DecidableEq

/-- What an entry point does: return its error value, or call `driver` with the
counts `Np`, `Nb`, `Nt`. -/
inductive Outcome where
  | error
  | call (driver : Driver) (Np Nb Nt : Int)
deriving DecidableEq

variable [LinearOrderedField D] [FloorRing D]

/-- Conversion `int(x)` of a double: truncation toward zero. For a value whose
truncation is outside the range of `int` the conversion is undefined; the result
taken is `INT_MIN`, what the conversion instruction of x86 returns. -/
def toInt (x : D) : Int :=
  if -2147483649 < x ∧ x < 2147483648 then
    if 0 ≤ x then ⌊x⌋ else ⌈x⌉
  else -2147483648

/-- Product `spots->rows * spots->columns * times->rows * times->columns` of the
guards on lines 101 and 148. -/
def gridSize (spots times : FP12) : Int :=
  wrapInt32 (wrapInt32 (wrapInt32 (spots.rows * spots.columns) * times.rows) * times.columns)

/-- Product `vols->rows * vols->columns` of the guards on lines 101 and 148. -/
def volsSize (vols : FP12) : Int :=
  wrapInt32 (vols.rows * vols.columns)

/-- Function `xDupireBarrierPricer`, lines 76-120. -/
def xDupireBarrierPricer (spots times vols : FP12) (paths batchSize steps parallel : D) :
    Outcome :=
  if paths ≤ 0 ∨ steps ≤ 0 then Outcome.error
  else if gridSize spots times ≠ volsSize vols then
    Outcome.error
  else if parallel > 0.5 then
    Outcome.call Driver.pricerMT (toInt paths) (toInt batchSize) (toInt steps)
  else
    Outcome.call Driver.pricer (toInt paths) (toInt batchSize) (toInt steps)

/-- Function `xDupireBarrierRisks`, lines 123-191. On line 144 the error value
built for `paths <= 0.0 || steps <= 0.0` is not returned: the statement has no
effect on what follows. -/
def xDupireBarrierRisks (spots times vols : FP12) (paths batchSize steps parallel : D) :
    Outcome :=
  let _dropped : Option Outcome := if paths ≤ 0 ∨ steps ≤ 0 then some Outcome.error else none
  if gridSize spots times ≠ volsSize vols then
    Outcome.error
  else if parallel > 0.5 then
    Outcome.call Driver.risksMT (toInt paths) (toInt batchSize) (toInt steps)
  else
    Outcome.call Driver.risks (toInt paths) (toInt batchSize) (toInt steps)

end EntryPoints

/-! ## Doubles with a value that is not a number

In a field `x / 0` is a convention. Where the code divides by zero the claims
are settled on `Dbl`, whose `nan` marks a result that is not a finite number;
`nan` propagates through arithmetic and compares false, as NaN does.
-/

section Doubles

/-- A double: a finite number of `α`, or not a number. -/
inductive Dbl (α : Type) where
  | fin (x : α)
  | nan
deriving DecidableEq

variable {α : Type}

/-- Lift of a binary operation: `nan` when an operand is. -/
def Dbl.map₂ (f : α → α → α) : Dbl α → Dbl α → Dbl α
  | Dbl.fin x, Dbl.fin y => Dbl.fin (f x y)
  | _, _ => Dbl.nan

/-- Lift of a unary operation: `nan` on `nan`. -/
def Dbl.map (f : α → α) : Dbl α → Dbl α
  | Dbl.fin x => Dbl.fin (f x)
  | Dbl.nan => Dbl.nan

/-- Division: `nan` when the divisor is zero. -/
def Dbl.div [Zero α] [DecidableEq α] [Div α] : Dbl α → Dbl α → Dbl α
  | Dbl.fin x, Dbl.fin y => if y = 0 then Dbl.nan else Dbl.fin (x / y)
  | _, _ => Dbl.nan

/-- Order: only finite values compare. -/
def Dbl.lt [LT α] : Dbl α → Dbl α → Prop
  | Dbl.fin x, Dbl.fin y => x < y
  | _, _ => False

instance [Zero α] : Zero (Dbl α) := ⟨Dbl.fin 0⟩

instance [One α] : One (Dbl α) := ⟨Dbl.fin 1⟩

instance [OfNat α 2] : OfNat (Dbl α) 2 := ⟨Dbl.fin 2⟩

instance [Add α] : Add (Dbl α) := ⟨Dbl.map₂ (fun x y => x + y)⟩

instance [Sub α] : Sub (Dbl α) := ⟨Dbl.map₂ (fun x y => x - y)⟩

instance [Mul α] : Mul (Dbl α) := ⟨Dbl.map₂ (fun x y => x * y)⟩

instance [Neg α] : Neg (Dbl α) := ⟨Dbl.map (fun x => -x)⟩

instance [Zero α] [DecidableEq α] [Div α] : Div (Dbl α) := ⟨Dbl.div⟩

instance [LT α] : LT (Dbl α) := ⟨Dbl.lt⟩

instance [LT α] [DecidableRel (fun (a b : α) => a < b)] :
    DecidableRel (fun (a b : Dbl α) => a < b) := fun a b =>
  match a, b with
  | Dbl.fin x, Dbl.fin y => inferInstanceAs (Decidable (x < y))
  | Dbl.fin _, Dbl.nan => isFalse (fun h => h)
  | Dbl.nan, _ => isFalse (fun h => h)

/-- The double functions on `Dbl`, from those on `α`. -/
def DoubleFns.lift (F : DoubleFns α) : DoubleFns (Dbl α) :=
  { log := Dbl.map F.log
    exp := Dbl.map F.exp
    sqrt := Dbl.map F.sqrt
    normalDens := Dbl.map F.normalDens
    normalCdf := Dbl.map F.normalCdf }

end Doubles

/-! ## IEEE 754 binary64

The type `double` with its rounding: a finite double is `(-1)^neg * m * 2^e`
with `m < 2^53`, kept normalised (`2^52 <= m`, or `e = -1074` for a subnormal;
zero is `m = 0`, `e = 0`, with its sign); the other doubles are the two
infinities and not-a-number. Every operation returns the double nearest to the
exact result, ties to the even mantissa, as the default rounding mode does.
The claims that fail on doubles are refuted on this type.
-/

section Binary64

/-- A double. -/
inductive F64 where
  | fin (neg : Bool) (m : Nat) (e : Int)
  | inf (neg : Bool)
  | nan
deriving DecidableEq

/-- Number of binary digits of `n`, by halving at most `fuel` times. -/
def F64.bitsAux : Nat → Nat → Nat
  | 0, _ => 0
  | fuel + 1, n => if n = 0 then 0 else F64.bitsAux fuel (n / 2) + 1

/-- Number of binary digits of `n`. -/
def F64.bits (n : Nat) : Nat := F64.bitsAux n n

/-- The double nearest to `p / q` (for `q > 0`), ties to even, with the sign
`neg`: overflow gives an infinity, underflow a subnormal or zero. -/
def F64.round (neg : Bool) (p q : Nat) : F64 :=
  if p = 0 then F64.fin neg 0 0
  else
    -- `2^g <= p / q < 2^(g + 1)`
    let d : Int := (F64.bits p : Int) - (F64.bits q : Int)
    let above : Bool :=
      if 0 ≤ d then decide (q * 2 ^ d.toNat ≤ p) else decide (q ≤ p * 2 ^ (-d).toNat)
    let g : Int := if above then d else d - 1
    -- exponent of the last place
    let e : Int := max (g - 52) (-1074)
    let num : Nat := if 0 ≤ e then p else p * 2 ^ (-e).toNat
    let den : Nat := if 0 ≤ e then q * 2 ^ e.toNat else q
    let m : Nat := num / den
    let r : Nat := num % den
    let m : Nat := if den < 2 * r ∨ (2 * r = den ∧ m % 2 = 1) then m + 1 else m
    let e : Int := if m = 2 ^ 53 then e + 1 else e
    let m : Nat := if m = 2 ^ 53 then 2 ^ 52 else m
    if 971 < e then F64.inf neg
    else if m = 0 then F64.fin neg 0 0
    else F64.fin neg m e

/-- Signed numerator of a finite double over the common denominator `2^(-e)`. -/
def F64.scaled (neg : Bool) (m : Nat) (e e0 : Int) : Int :=
  (if neg then -1 else 1) * ((m * 2 ^ (e - e0).toNat : Nat) : Int)

/-- Rounding of the exact value `t * 2^e`. -/
def F64.roundInt (t : Int) (e : Int) : F64 :=
  if 0 ≤ e then F64.round (decide (t < 0)) (t.natAbs * 2 ^ e.toNat) 1
  else F64.round (decide (t < 0)) t.natAbs (2 ^ (-e).toNat)

/-- Addition. -/
def F64.add : F64 → F64 → F64
  | F64.nan, _ => F64.nan
  | _, F64.nan => F64.nan
  | F64.inf a, F64.inf b => if a = b then F64.inf a else F64.nan
  | F64.inf a, F64.fin _ _ _ => F64.inf a
  | F64.fin _ _ _, F64.inf b => F64.inf b
  | F64.fin s1 m1 e1, F64.fin s2 m2 e2 =>
    if m1 = 0 ∧ m2 = 0 then F64.fin (s1 && s2) 0 0
    else if m1 = 0 then F64.fin s2 m2 e2
    else if m2 = 0 then F64.fin s1 m1 e1
    else
      let e := min e1 e2
      let t := F64.scaled s1 m1 e1 e + F64.scaled s2 m2 e2 e
      if t = 0 then F64.fin false 0 0 else F64.roundInt t e

/-- Unary minus. -/
def F64.neg : F64 → F64
  | F64.nan => F64.nan
  | F64.inf a => F64.inf (!a)
  | F64.fin s m e => F64.fin (!s) m e

/-- Multiplication. -/
def F64.mul : F64 → F64 → F64
  | F64.nan, _ => F64.nan
  | _, F64.nan => F64.nan
  | F64.inf a, F64.inf b => F64.inf (xor a b)
  | F64.inf a, F64.fin s m _ => if m = 0 then F64.nan else F64.inf (xor a s)
  | F64.fin s m _, F64.inf b => if m = 0 then F64.nan else F64.inf (xor s b)
  | F64.fin s1 m1 e1, F64.fin s2 m2 e2 =>
    if m1 = 0 ∨ m2 = 0 then F64.fin (xor s1 s2) 0 0
    else
      let e := e1 + e2
      if 0 ≤ e then F64.round (xor s1 s2) (m1 * m2 * 2 ^ e.toNat) 1
      else F64.round (xor s1 s2) (m1 * m2) (2 ^ (-e).toNat)

/-- Division. -/
def F64.div : F64 → F64 → F64
  | F64.nan, _ => F64.nan
  | _, F64.nan => F64.nan
  | F64.inf _, F64.inf _ => F64.nan
  | F64.inf a, F64.fin s _ _ => F64.inf (xor a s)
  | F64.fin s _ _, F64.inf b => F64.fin (xor s b) 0 0
  | F64.fin s1 m1 e1, F64.fin s2 m2 e2 =>
    if m2 = 0 then (if m1 = 0 then F64.nan else F64.inf (xor s1 s2))
    else if m1 = 0 then F64.fin (xor s1 s2) 0 0
    else
      let e := e1 - e2
      if 0 ≤ e then F64.round (xor s1 s2) (m1 * 2 ^ e.toNat) m2
      else F64.round (xor s1 s2) m1 (m2 * 2 ^ (-e).toNat)

/-- Comparison `<`: false when an operand is not a number; the two zeros are
equal. -/
def F64.blt : F64 → F64 → Bool
  | F64.nan, _ => false
  | _, F64.nan => false
  | F64.inf a, F64.inf b => a && !b
  | F64.inf a, F64.fin _ _ _ => a
  | F64.fin _ _ _, F64.inf b => !b
  | F64.fin s1 m1 e1, F64.fin s2 m2 e2 =>
    decide (F64.scaled s1 m1 e1 (min e1 e2) < F64.scaled s2 m2 e2 (min e1 e2))

/-- Conversion of a natural number. -/
def F64.ofNat (n : Nat) : F64 := F64.round false n 1

/-- Conversion of an `int`. -/
def F64.ofInt (i : Int) : F64 := F64.round (decide (i < 0)) i.natAbs 1

/-- The double a decimal literal `m * 10^(-e)` or `m * 10^e` denotes. -/
def F64.ofDecimal (m : Nat) (negExp : Bool) (e : Nat) : F64 :=
  if negExp then F64.round false m (10 ^ e) else F64.round false (m * 10 ^ e) 1

instance : Zero F64 := ⟨F64.fin false 0 0⟩

instance : One F64 := ⟨F64.ofNat 1⟩

instance : NatCast F64 := ⟨F64.ofNat⟩

instance : IntCast F64 := ⟨F64.ofInt⟩

instance : OfScientific F64 := ⟨F64.ofDecimal⟩

instance : Add F64 := ⟨F64.add⟩

instance : Neg F64 := ⟨F64.neg⟩

instance : Sub F64 := ⟨fun a b => F64.add a (F64.neg b)⟩

instance : Mul F64 := ⟨F64.mul⟩

instance : Div F64 := ⟨F64.div⟩

instance : LT F64 := ⟨fun a b => F64.blt a b = true⟩

instance : DecidableRel (fun (a b : F64) => a < b) := fun a b =>
  inferInstanceAs (Decidable (F64.blt a b = true))

end Binary64

/-! ## Concrete inputs on doubles -/

section ExamplesBinary64

/-- The library functions at the arguments the examples reach: `exp` of either
zero is 1, `sqrt(1)` is 1, `log(1)` is 0 and `log` of `+0` is minus infinity;
elsewhere the stand-in returns not-a-number, so that a run reaching another
argument shows. -/
def f64Fns : DoubleFns F64 :=
  { log := fun x =>
      if x = F64.fin false 0 0 then F64.inf true else if x = 1 then 0 else F64.nan
    exp := fun x =>
      match x with
      | F64.fin _ 0 _ => 1
      | _ => F64.nan
    sqrt := fun x => if x = 1 then 1 else F64.nan
    normalDens := fun _ => F64.nan
    normalCdf := fun _ => F64.nan }

/-- Volatility surface that is zero everywhere, as `interp2D` on doubles. -/
def zeroVol64 : Interp2D F64 Unit := fun _ _ _ _ _ st => (0, st)

/-- Volatility surface that is zero everywhere, as `interp2D` on Numbers: the
constant is converted to a Number. -/
def zeroVolN64 : Interp2D (Number F64) (Tape F64) := fun _ _ _ _ _ tape =>
  Number.ofDouble 0 tape

/-- Generator whose draws are all zero. -/
def zeroRNG64 : RNG F64 :=
  { gauss := fun _ _ => 0, dim := 0, pos := 0 }

end ExamplesBinary64

/-! ## Further definitions for the statements -/

section Auxiliary2

variable {α D : Type}

/-- Call of `calculateAdjoints` on the variable in slot `i`; returns the
adjoints and the state it leaves. The function reads `tape` and writes only its
local vector. -/
def State.adjoints [Zero α] [One α] [Add α] [Mul α] (s : State α) (i : Nat) :
    Option (List α × State α) :=
  match s.vars[i]? with
  | none => none
  | some result =>
    match calculateAdjoints s.tape result with
    | none => none
    | some adjoints => some (adjoints, s)

/-- The Numbers of `vs` all point into `tape`. -/
def PointInto (tape : Tape α) (vs : List (Number α)) : Prop :=
  ∀ v ∈ vs, v.idx < tape.length

/-- A recording computation started on `tape` kept it in order: the tape it
leaves is well formed and no shorter, and the Number it returns points into it. -/
def Keeps (tape : Tape α) (out : Number α × Tape α) : Prop :=
  WellFormed out.2 ∧ tape.length ≤ out.2.length ∧ out.1.idx < out.2.length

/-- Modelled from the spec: `interp.h` is not part of the sources. On Numbers
`interp2D` computes with the recording operations, so from a well-formed tape
that holds its arguments it leaves a well-formed tape, drops no record, and
returns a Number on the tape. -/
def InterpRecords (interp2D : Interp2D (Number α) (Tape α)) : Prop :=
  ∀ (spots times vols : List (Number α)) (spot time : Number α) (tape : Tape α),
    WellFormed tape → PointInto tape (spot :: time :: (spots ++ times ++ vols)) →
    Keeps tape (interp2D spots times vols spot time tape)

/-- Modelled from the spec: `interp2D` on Numbers returns a Number whose value
is what `interp2D` on doubles returns on the values. -/
def InterpValue (interpN : Interp2D (Number α) (Tape α)) (interpD : Interp2D α Unit) : Prop :=
  ∀ (spots times vols : List (Number α)) (spot time : Number α) (tape : Tape α),
    (interpN spots times vols spot time tape).1.value
      = (interpD (spots.map Number.value) (times.map Number.value) (vols.map Number.value)
          spot.value time.value ()).1

/-- Entry `adjoints[nS0.idx]` of a recorded batch. -/
def BatchRecord.delta [Zero α] (r : BatchRecord α) : α :=
  (r.adjoints[r.nS0.idx]?).getD 0

/-- Entries `adjoints[vol.idx]` of a recorded batch, over `nVols` in order. -/
def BatchRecord.vegas [Zero α] (r : BatchRecord α) : List α :=
  r.nVols.map fun vol => (r.adjoints[vol.idx]?).getD 0

variable [Zero D] [One D] [OfNat D 2] [Neg D] [OfScientific D] [NatCast D] [IntCast D]
variable [Add D] [Sub D] [Mul D] [Div D] [LT D] [DecidableRel (fun (a b : D) => a < b)]

/-- Payoff of the path with Gaussian increments `gs` in the kernel on doubles:
what the body of the loop over paths adds to `result`. -/
def pathPayoff (F : DoubleFns D) (interp2D : Interp2D D Unit) (S0 : D)
    (spots times vols : List D) (maturity strike barrier : D) (Nt : Nat) (epsilon : D)
    (gs : List D) : D :=
  (simulatePath (doubleScalar F) interp2D S0 spots times vols strike barrier epsilon
    (maturity / (Nt : D)) (F.sqrt (maturity / (Nt : D))) gs 0 ()).1

/-- Value returned by the kernel, without the generator and the state. -/
def batchValue {T σ : Type} (out : (T × RNG D) × σ) : T := out.1.1

/-- Final `spot` of the step loop. -/
def finalSpot {T σ : Type} (out : (T × T × T) × σ) : T := out.1.1

/-- Final `notionalAlive` of barrier monitoring. -/
def monitoredNotional {T σ : Type} (out : (T × Bool) × σ) : T := out.1.1

/-- Whether barrier monitoring leaves the step loop. -/
def monitoredStop {T σ : Type} (out : (T × Bool) × σ) : Bool := out.1.2

/-- Gaussian increments of path `i`: the `i`-th draw of `Nt` normals. -/
def RNG.draw (random : RNG D) (Nt : Nat) (i : Int) : List D :=
  (List.range Nt).map (random.gauss i)

end Auxiliary2

/-! ## Concrete inputs for the kernel -/

section Examples2

/-- Volatility surface that is zero everywhere, as `interp2D` on doubles. -/
def zeroVol : Interp2D ℚ Unit := fun _ _ _ _ _ st => (0, st)

/-- Generator whose `k`-th draw has components `(k - j) / 4`. -/
def exampleRNG : RNG ℚ :=
  { gauss := fun k j => ((k : ℚ) - (j : ℚ)) / 4, dim := 0, pos := 0 }

/-- Volatility surface that is flat at its first entry, as `interp2D` on
doubles. -/
def flatVol : Interp2D ℚ Unit := fun _ _ vols _ _ st => (vols.headD 0, st)

/-- Volatility surface that is flat at its first entry, as `interp2D` on
Numbers: it returns the Number of the first entry and records nothing; with no
entry it records the constant zero. -/
def flatVolN : Interp2D (Number ℚ) (Tape ℚ) := fun _ _ vols _ _ tape =>
  match vols with
  | [] => Number.ofDouble 0 tape
  | vol :: _ => (vol, tape)

end Examples2

/-! ## The recurrence of the specification for the adjoints

The specification of the adjoint engine gives the returned vector by a
recurrence over every `k <= N`. It is written here from its words, next to
`calculateAdjoints`, to compare the two.
-/

section SpecAdjoints

variable {α : Type}

/-- Following the specification: the recorded arguments of a node, each with its
local derivative: none at arity 0, `(idx1, der1)` at arity 1, then also
`(idx2, der2)` at arity 2. -/
def Node.recordedArgs (node : Node α) : List (Nat × α) :=
  match node.numArg with
  | 0 => []
  | 1 => [(node.idx1, node.der1)]
  | _ => [(node.idx1, node.der1), (node.idx2, node.der2)]

/-- Following the specification: `a[m] += a[k] * d` for the argument `m` with
local derivative `d`. -/
def specAccumulate [Add α] [Mul α] (k : Nat) (a : List α) (arg : Nat × α) :
    Option (List α) := do
  let ak ← a[k]?
  let am ← a[arg.1]?
  pure (a.set arg.1 (am + ak * arg.2))

/-- Following the specification: "for each recorded argument `m` of node `k` with
local derivative `d`: `a[m] += a[k] * d`". -/
def specUpdate [Add α] [Mul α] (tape : Tape α) (k : Nat) (a : List α) : Option (List α) := do
  let node ← tape[k]?
  node.recordedArgs.foldlM (specAccumulate k) a

/-- Following the specification: the updates "for every `k <= N` in descending
order", `k = 0` included. -/
def specSweep [Add α] [Mul α] (tape : Tape α) : Nat → List α → Option (List α)
  | 0, a => specUpdate tape 0 a
  | k + 1, a => do
    let a ← specUpdate tape (k + 1) a
    specSweep tape k a

/-- Following the specification: the vector of length `|T|` that starts from zeros
with `a[N] = 1` and goes through the updates of every `k <= N`. -/
def specAdjoints [Zero α] [One α] [Add α] [Mul α] (tape : Tape α) (N : Nat) :
    Option (List α) :=
  if N < tape.length then
    specSweep tape N ((List.replicate tape.length 0).set N 1)
  else
    none

end SpecAdjoints

/-! ## Calls of the batch loop -/

section Counted

variable {D : Type}

/-- A function called by a batch loop, made to count its calls: it returns what
`batch` returns and appends its arguments `(firstPath, lastPath)` to the list of
the calls made so far. -/
def counted (batch : Int → Int → RNG D → Unit → (D × RNG D) × Unit) (firstPath lastPath : Int)
    (random : RNG D) (calls : List (Int × Int)) : (D × RNG D) × List (Int × Int) :=
  ((batch firstPath lastPath random ()).1, calls ++ [(firstPath, lastPath)])

/-- Following the specification: batch `k` of `[0, Np)` in batches of `Nb` is
`[k * Nb, min(k * Nb + Nb, Np))`, over the integers. -/
def specBounds (Np Nb : Int) (k : Nat) : Int × Int :=
  ((k : Int) * Nb, min ((k : Int) * Nb + Nb) Np)

end Counted

/-! ## Further definitions for the statements on the barrier -/

section Barrier

variable {D : Type}

/-- Factor of the smoothing branch of barrier monitoring, line 65:
`1.0 - (spot - barrier + epsilon) / (2 * epsilon)`. -/
def smoothingFactor [One D] [OfNat D 2] [Add D] [Sub D] [Mul D] [Div D]
    (barrier epsilon spot : D) : D :=
  1 - (spot - barrier + epsilon) / (2 * epsilon)

/-- Final `notionalAlive` of the step loop. -/
def finalNotional {T σ : Type} (out : (T × T × T) × σ) : T := out.1.2.2

/-- The `spot` a step leaves. -/
def steppedSpot {T σ : Type} (out : (T × T) × σ) : T := out.1.1

/-- The `time` a step leaves. -/
def steppedTime {T σ : Type} (out : (T × T) × σ) : T := out.1.2

end Barrier

/-! ## Threads of the parallel loops

`AAD.h` declares the tape once, at namespace scope (line 20:
`vector<Node> tape;`), and the loop body of `dupireBarrierRisksMT` keeps its
Numbers in `static thread_local` variables. The threads of
`#pragma omp parallel for` therefore have their own Numbers and share the one
tape. Their statements take effect in some order; each acts on the shared tape
and on the Numbers of its own thread. The embedding of the parallel drivers as a
map over the batch indices is the loop with its batches run one after the other.
-/

section Threads

variable {α : Type}

/-- State of two threads: the global tape and the Numbers of each thread. -/
structure Threads (α : Type) where
  tape : Tape α
  vars : Bool → List (Number α)

/-- Empty tape, no Number in either thread. -/
def Threads.init : Threads α := { tape := [], vars := fun _ => [] }

variable [Zero α] [One α] [Add α] [Sub α] [Mul α] [Div α] [Neg α] [OfScientific α]

/-- Statement `instr` run by thread `w`: it acts on the global tape and on the
Numbers of `w`; the Numbers of the other thread stay as they are. -/
def Threads.step (F : DoubleFns α) (s : Threads α) (w : Bool) (instr : Instr α) :
    Option (Threads α) :=
  (State.step F { tape := s.tape, vars := s.vars w } instr).map fun s' =>
    { tape := s'.tape, vars := fun v => if v = w then s'.vars else s.vars v }

/-- Execution of a schedule: statements, each with the thread that runs it, in
the order in which they take effect. -/
def Threads.run (F : DoubleFns α) (s : Threads α) : List (Bool × Instr α) → Option (Threads α)
  | [] => some s
  | (w, instr) :: rest => do
    let s ← s.step F w instr
    Threads.run F s rest

end Threads

/-! ## Concrete schedule of two threads -/

section ExampleThreads

/-- First statements of the loop body of `dupireBarrierRisksMT` in one thread:
`tape.clear(); nS0 = S0; nMaturity = maturity;` and the first product of two
Numbers that follows. -/
def bodyStart : List (Instr ℚ) :=
  [Instr.clear, Instr.ofDouble 100, Instr.ofDouble 2, Instr.binary BinOp.mul 0 1]

/-- Schedule of two threads: the first runs `bodyStart`, and the `tape.clear()`
of the second takes effect before the product of the first. -/
def raceSchedule : List (Bool × Instr ℚ) :=
  [(false, Instr.clear), (false, Instr.ofDouble 100), (false, Instr.ofDouble 2),
   (true, Instr.clear), (false, Instr.binary BinOp.mul 0 1)]

end ExampleThreads

/-! ## The Black-Scholes smoke test (`BlackScholes.h`, `AAD.h`)

`blackScholes` is a template over the scalar type; `differentiateBlackScholes`
instantiates it at `Number`, and this is the instance embedded here. The
operands of an expression are evaluated left to right; where the language
leaves the order open, another order moves records on the tape and changes no
value and no adjoint of an input.
-/

section BlackScholes

variable {α : Type}
variable [Zero α] [One α] [Add α] [Sub α] [Mul α] [Div α] [Neg α] [OfScientific α] [NatCast α]

/-- Template `blackScholes` at `T = Number`, `BlackScholes.h` lines 24-40. The
constants `0.5` are converted by the constructor `Number(const double&)`. -/
def blackScholes (F : DoubleFns α) (spot rate yield vol strike mat : Number α)
    (tape : Tape α) : Number α × Tape α :=
  -- auto df = exp(-rate * mat)
  let (minusRate, tape) := Number.neg rate tape
  let (x, tape) := Number.mul minusRate mat tape
  let (df, tape) := Number.exp F x tape
  -- fwd = spot * exp((rate - yield) * mat)
  let (x, tape) := Number.sub rate yield tape
  let (x, tape) := Number.mul x mat tape
  let (x, tape) := Number.exp F x tape
  let (fwd, tape) := Number.mul spot x tape
  -- std = vol * sqrt(mat)
  let (x, tape) := Number.sqrt F mat tape
  let (std, tape) := Number.mul vol x tape
  -- auto d = log(fwd / strike) / std
  let (x, tape) := Number.div fwd strike tape
  let (x, tape) := Number.log F x tape
  let (d, tape) := Number.div x std tape
  -- auto d1 = d + 0.5 * std
  let (half, tape) := Number.ofDouble 0.5 tape
  let (x, tape) := Number.mul half std tape
  let (d1, tape) := Number.add d x tape
  -- d2 = d - 0.5 * std
  let (half, tape) := Number.ofDouble 0.5 tape
  let (x, tape) := Number.mul half std tape
  let (d2, tape) := Number.sub d x tape
  -- auto p1 = normalCdf(d1), p2 = normalCdf(d2)
  let (p1, tape) := Number.normalCdf F d1 tape
  let (p2, tape) := Number.normalCdf F d2 tape
  -- return df * (fwd * p1 - strike * p2)
  let (a, tape) := Number.mul fwd p1 tape
  let (b, tape) := Number.mul strike p2 tape
  let (x, tape) := Number.sub a b tape
  Number.mul df x tape

/-- What `differentiateBlackScholes` prints: the value and the adjoints of the
six inputs. -/
structure Printed (α : Type) where
  value : α
  toSpot : α
  toRate : α
  toYield : α
  toVol : α
  toStrike : α
  toMat : α

/-- Function `differentiateBlackScholes`, `AAD.h` lines 293-331, started on the
tape `tape` (empty when nothing was recorded before): the numbers it prints, or
`none` when an access to `adjoints` is out of bounds. -/
def differentiateBlackScholes (F : DoubleFns α) (tape : Tape α) : Option (Printed α) :=
  let (spot, tape) := Number.ofDouble 100 tape
  let (rate, tape) := Number.ofDouble 0.02 tape
  let (yield, tape) := Number.ofDouble 0.05 tape
  let (vol, tape) := Number.ofDouble 0.2 tape
  let (strike, tape) := Number.ofDouble 110 tape
  let (mat, tape) := Number.ofDouble 2 tape
  let (result, tape) := blackScholes F spot rate yield vol strike mat tape
  match calculateAdjoints tape result with
  | none => none
  | some adjoints => do
    let toSpot ← adjoints[spot.idx]?
    let toRate ← adjoints[rate.idx]?
    let toYield ← adjoints[yield.idx]?
    let toVol ← adjoints[vol.idx]?
    let toStrike ← adjoints[strike.idx]?
    let toMat ← adjoints[mat.idx]?
    some { value := result.value, toSpot := toSpot, toRate := toRate, toYield := toYield,
           toVol := toVol, toStrike := toStrike, toMat := toMat }

end BlackScholes

section ClosedForm

variable {D : Type} [Field D]

/-- Straight-line form of the numbers printed by `differentiateBlackScholes` on
the empty tape, in the values returned by the library calls of the run:
`e1 = exp(-rate * mat)`, `e2 = exp((rate - yield) * mat)`, `s = sqrt(mat)`,
`l = log(fwd / strike)`, `p1`, `p2` the values of `normalCdf` and `n1`, `n2` the
values of `normalDens` at `d1` and `d2`. The names `a7` .. `a18` are the adjoints
of the records at these positions of the tape. Lemma
`differentiateBlackScholes_closedForm` proves it equal to the run of the
embedding of the source. -/
def closedForm (e1 e2 s l p1 p2 n1 n2 : D) : Printed D :=
  let fwd := 100 * e2
  let std := 0.2 * s
  let q := fwd / 110
  let fp := fwd * p1
  let kp := 110 * p2
  let x := fp - kp
  let value := e1 * x
  let fn := fwd * n1
  let kn := 110 * n2
  let g := fn - kn
  let a18 := e1 * g
  let sq := std * q
  let a16 := a18 / sq
  let b13 := a16 / 110
  let ep := e1 * p1
  let a13 := ep + b13
  let toSpot := a13 * e2
  let a12 := a13 * fwd
  let a10 := 2 * a12
  let a7 := 2 * value
  let toRate := a10 - a7
  let toYield := -a10
  let hk := e1 * kn
  let hf := e1 * fn
  let sumh := hk + hf
  let half := 0.5 * sumh
  let ss := std * std
  let ls := l / ss
  let c := a18 * ls
  let a15 := half - c
  let toVol := a15 * s
  let ep2 := e1 * p2
  let nep2 := -ep2
  let fk := fwd / 12100
  let b4 := a16 * fk
  let toStrike := nep2 - b4
  let a14 := 0.2 * a15
  let hs := 0.5 / s
  let m1 := a14 * hs
  let m2 := a12 * (-0.03)
  let m3 := value * (-0.02)
  let m12 := m1 + m2
  let toMat := m12 + m3
  { value := value, toSpot := toSpot, toRate := toRate, toYield := toYield,
    toVol := toVol, toStrike := toStrike, toMat := toMat }

end ClosedForm

section ExampleBlackScholes

/-- Rational stand-ins for the double functions that take, at the arguments
reached by `differentiateBlackScholes`, the values of the library functions
rounded to eight decimals. -/
def smokeFns : DoubleFns ℚ :=
  { log := fun _ => -0.15531015
    exp := fun x => if x < -0.05 then 0.94176453 else 0.96078944
    sqrt := fun _ => 1.41421356
    normalDens := fun x => if x < -0.5 then 0.31431757 else 0.36712927
    normalCdf := fun x => if x < -0.5 then 0.24493181 else 0.34175319 }

end ExampleBlackScholes

/-! ## Lemmas on the backward sweep -/

section SweepLemmas

variable {α : Type}

theorem getD_set_eq [Zero α] (l : List α) (i k : Nat) (v : α) (hi : i < l.length) :
    ((l.set i v)[k]?).getD 0 = if k = i then v else (l[k]?).getD 0 := by
  rw [List.getElem?_set]
  by_cases h : i = k
  · subst h; simp [hi]
  · have h' : ¬ k = i := fun e => h e.symm
    simp [h, h']

theorem propagate_spec [Semiring α] (tape : Tape α) (j : Nat) (adj : List α) (node : Node α)
    (hnode : tape[j]? = some node) (hwf : node.WellFormed j) (hj : j < adj.length) :
    ∃ adj', propagate tape j adj = some adj' ∧ adj'.length = adj.length ∧
      ∀ k, (adj'[k]?).getD 0 = (adj[k]?).getD 0
        + (if 0 < node.numArg ∧ k = node.idx1 then (adj[j]?).getD 0 * node.der1 else 0)
        + (if 1 < node.numArg ∧ k = node.idx2 then (adj[j]?).getD 0 * node.der2 else 0) := by
  obtain ⟨_, h1, h2⟩ := hwf
  unfold propagate
  simp only [hnode, Option.bind_eq_bind, Option.some_bind, gt_iff_lt]
  by_cases h0 : 0 < node.numArg
  · have hi1 : node.idx1 < adj.length := lt_trans (h1 h0) hj
    have hne1 : j ≠ node.idx1 := (Nat.ne_of_lt (h1 h0)).symm
    simp only [h0, if_true, List.getElem?_eq_getElem hj, List.getElem?_eq_getElem hi1,
      Option.some_bind, true_and, Option.getD_some]
    by_cases h1' : 1 < node.numArg
    · have hi2 : node.idx2 < adj.length := lt_trans (h2 h1') hj
      have hne2 : j ≠ node.idx2 := (Nat.ne_of_lt (h2 h1')).symm
      have hj' : j < (adj.set node.idx1 (adj[node.idx1] + adj[j] * node.der1)).length := by
        simpa using hj
      have hi2' : node.idx2 < (adj.set node.idx1 (adj[node.idx1] + adj[j] * node.der1)).length := by
        simpa using hi2
      simp only [h1', if_true, List.getElem?_eq_getElem hj', List.getElem?_eq_getElem hi2',
        Option.some_bind, true_and]
      refine ⟨_, rfl, by simp, ?_⟩
      intro k
      rw [getD_set_eq _ _ _ _ hi2']
      have e1 : (adj.set node.idx1 (adj[node.idx1] + adj[j] * node.der1))[j] = adj[j] := by
        rw [List.getElem_set_ne hne1.symm]
      have e2 : (adj.set node.idx1 (adj[node.idx1] + adj[j] * node.der1))[node.idx2]
          = ((adj.set node.idx1 (adj[node.idx1] + adj[j] * node.der1))[node.idx2]?).getD 0 := by
        rw [List.getElem?_eq_getElem hi2']; rfl
      rw [e1, e2, getD_set_eq _ _ _ _ hi1, getD_set_eq _ _ _ _ hi1]
      by_cases hk2 : k = node.idx2
      · subst hk2
        by_cases hk1 : node.idx2 = node.idx1
        · simp [hk1, List.getElem?_eq_getElem hi1]
        · simp [hk1, List.getElem?_eq_getElem hi2]
      · by_cases hk1 : k = node.idx1
        · subst hk1; simp [hk2, List.getElem?_eq_getElem hi1]
        · simp [hk1, hk2]
    · simp only [h1', if_false, false_and, add_zero]
      refine ⟨_, rfl, by simp, ?_⟩
      intro k
      rw [getD_set_eq _ _ _ _ hi1]
      by_cases hk1 : k = node.idx1
      · subst hk1; simp [List.getElem?_eq_getElem hi1]
      · simp [hk1]
  · have h1' : ¬ 1 < node.numArg := by omega
    simp only [h0, h1', if_false, false_and, add_zero]
    exact ⟨_, rfl, rfl, fun _ => rfl⟩

/-- Induction over the backward loop on a well-formed tape: the loop started at
`j` returns, keeps the length, and carries any property that each record's
update preserves from index `j` down to index `0`. -/
theorem backward_induct [Semiring α] (tape : Tape α) (hwf : WellFormed tape)
    (P : Nat → List α → Prop)
    (hstep : ∀ (j : Nat) (hj : j + 1 < tape.length) (adj adj' : List α),
      adj.length = tape.length → adj'.length = tape.length →
      (∀ k, (adj'[k]?).getD 0 = (adj[k]?).getD 0
        + (if 0 < (tape[j + 1]).numArg ∧ k = (tape[j + 1]).idx1
            then (adj[j + 1]?).getD 0 * (tape[j + 1]).der1 else 0)
        + (if 1 < (tape[j + 1]).numArg ∧ k = (tape[j + 1]).idx2
            then (adj[j + 1]?).getD 0 * (tape[j + 1]).der2 else 0)) →
      P (j + 1) adj → P j adj') :
    ∀ (j : Nat) (adj : List α), j < tape.length → adj.length = tape.length → P j adj →
      ∃ adj', backward tape j adj = some adj' ∧ adj'.length = tape.length ∧ P 0 adj' := by
  intro j
  induction j with
  | zero =>
    intro adj _ hlen hP
    exact ⟨adj, rfl, hlen, hP⟩
  | succ j ih =>
    intro adj hj hlen hP
    obtain ⟨adj1, hprop, hlen1, hval⟩ :=
      propagate_spec tape (j + 1) adj tape[j + 1] (List.getElem?_eq_getElem hj)
        (hwf (j + 1) hj) (hlen ▸ hj)
    have hP1 : P j adj1 := hstep j hj adj adj1 hlen (hlen1.trans hlen) hval hP
    obtain ⟨adj2, hback, hlen2, hP2⟩ := ih adj1 (Nat.lt_of_succ_lt hj) (hlen1.trans hlen) hP1
    refine ⟨adj2, ?_, hlen2, hP2⟩
    simp only [backward, hprop, Option.bind_eq_bind, Option.some_bind, hback]

/-- Wrapper of `backward_induct` for `calculateAdjoints`: on a well-formed tape
with a valid output index the call returns a vector of the tape's length, and a
property established by the seeded vector and preserved by every update holds
of the returned vector at index `0`. -/
theorem calculateAdjoints_induct [Semiring α] (tape : Tape α) (result : Number α)
    (hwf : WellFormed tape) (hN : result.idx < tape.length) (P : Nat → List α → Prop)
    (hinit : ∀ adj : List α, adj.length = tape.length →
      (∀ k, (adj[k]?).getD 0 = if k = result.idx then 1 else 0) → P result.idx adj)
    (hstep : ∀ (j : Nat) (hj : j + 1 < tape.length) (adj adj' : List α),
      adj.length = tape.length → adj'.length = tape.length →
      (∀ k, (adj'[k]?).getD 0 = (adj[k]?).getD 0
        + (if 0 < (tape[j + 1]).numArg ∧ k = (tape[j + 1]).idx1
            then (adj[j + 1]?).getD 0 * (tape[j + 1]).der1 else 0)
        + (if 1 < (tape[j + 1]).numArg ∧ k = (tape[j + 1]).idx2
            then (adj[j + 1]?).getD 0 * (tape[j + 1]).der2 else 0)) →
      P (j + 1) adj → P j adj') :
    ∃ a, calculateAdjoints tape result = some a ∧ a.length = tape.length ∧ P 0 a := by
  have hlen0 : ((List.replicate tape.length (0 : α)).set result.idx 1).length = tape.length := by
    simp
  have hval0 : ∀ k, ((((List.replicate tape.length (0 : α)).set result.idx 1))[k]?).getD 0
      = if k = result.idx then 1 else 0 := by
    intro k
    rw [getD_set_eq _ _ _ _ (by simpa using hN)]
    by_cases hk : k = result.idx
    · simp [hk]
    · simp only [hk, if_false]
      by_cases hkn : k < tape.length
      · simp [List.getElem?_replicate, hkn]
      · simp [List.getElem?_replicate, hkn]
  obtain ⟨a, ha, hlen, hP⟩ := backward_induct tape hwf P hstep result.idx _ hN hlen0
    (hinit _ hlen0 hval0)
  refine ⟨a, ?_, hlen, hP⟩
  unfold calculateAdjoints
  simp only [List.length_replicate, hN, if_true]
  exact ha

theorem sum_single_mul [Semiring α] (n i : Nat) (hi : i < n) (c : α) (w : Nat → α) :
    ∑ k in Finset.range n, (if k = i then c else 0) * w k = c * w i := by
  rw [Finset.sum_eq_single i]
  · simp
  · intro b _ hb
    simp [hb]
  · intro h
    exact absurd (Finset.mem_range.2 hi) h

theorem isSource_iff (tape : Tape α) (k : Nat) (hk : k < tape.length) :
    IsSource tape k ↔ (tape[k]).numArg = 0 := by
  unfold IsSource
  rw [List.getElem?_eq_getElem hk]
  simp

theorem weight_succ [Semiring α] (tape : Tape α) (t : Nat → α) (j k : Nat)
    (hj : j + 1 < tape.length) :
    weight tape t (j + 1) k
      = weight tape t j k + (if k = j + 1 then (if (tape[j + 1]).numArg = 0 then 0 else t (j + 1)) else 0) := by
  unfold weight
  by_cases hk : k = j + 1
  · subst hk
    have h1 : ¬ (j + 1 ≤ j) := by omega
    simp only [le_refl, true_or, if_true, h1, false_or, isSource_iff tape (j + 1) hj]
    by_cases h0 : (tape[j + 1]).numArg = 0
    · simp [h0]
    · simp [h0]
  · simp only [hk, if_false, add_zero]
    by_cases hs : IsSource tape k
    · simp [hs]
    · have : k ≤ j + 1 ↔ k ≤ j := by omega
      simp [hs, this]

theorem getElem?_concat_self (l : List α) (a : α) : (l ++ [a])[l.length]? = some a := by
  simp

theorem wellFormed_nil : WellFormed ([] : Tape α) := by
  intro k h
  exact absurd h (Nat.not_lt_zero k)

theorem wellFormed_append (tape : Tape α) (node : Node α) (hwf : WellFormed tape)
    (hnode : node.WellFormed tape.length) : WellFormed (tape ++ [node]) := by
  intro k hk
  by_cases h : k < tape.length
  · rw [List.getElem_append_left h]
    exact hwf k h
  · have e : k = tape.length := by
      simp at hk
      omega
    subst e
    simpa using hnode

theorem inv_push (tape : Tape α) (vars : List (Number α)) (node : Node α) (v : Number α)
    (hinv : State.Inv ⟨tape, vars⟩) (hnode : node.WellFormed tape.length)
    (hv : v.idx = tape.length) :
    State.Inv ⟨tape ++ [node], vars ++ [v]⟩ ∧ ∀ i, State.Inv ⟨tape ++ [node], vars.set i v⟩ := by
  obtain ⟨hwf, hvars⟩ := hinv
  have hwf' := wellFormed_append tape node hwf hnode
  refine ⟨⟨hwf', ?_⟩, fun i => ⟨hwf', ?_⟩⟩
  · intro u hu
    simp only [List.mem_append, List.mem_singleton] at hu
    simp only [List.length_append, List.length_singleton]
    rcases hu with hu | hu
    · exact Nat.lt_succ_of_lt (hvars u hu)
    · subst hu; omega
  · intro u hu
    simp only [List.length_append, List.length_singleton]
    rcases List.mem_or_eq_of_mem_set hu with hu | hu
    · exact Nat.lt_succ_of_lt (hvars u hu)
    · subst hu; omega

/-- On a well-formed tape the update of record `j` returns and keeps the length,
in any arithmetic. -/
theorem propagate_returns [Add α] [Mul α] (tape : Tape α) (j : Nat) (adj : List α)
    (node : Node α) (hnode : tape[j]? = some node) (hwf : node.WellFormed j)
    (hj : j < adj.length) :
    ∃ adj', propagate tape j adj = some adj' ∧ adj'.length = adj.length := by
  obtain ⟨_, h1, h2⟩ := hwf
  unfold propagate
  simp only [hnode, Option.bind_eq_bind, Option.some_bind, gt_iff_lt]
  by_cases h0 : 0 < node.numArg
  · have hi1 : node.idx1 < adj.length := lt_trans (h1 h0) hj
    simp only [h0, if_true, List.getElem?_eq_getElem hj, List.getElem?_eq_getElem hi1,
      Option.some_bind]
    by_cases h1' : 1 < node.numArg
    · have hi2 : node.idx2 < adj.length := lt_trans (h2 h1') hj
      have hj' : j < (adj.set node.idx1 (adj[node.idx1] + adj[j] * node.der1)).length := by
        simpa using hj
      have hi2' : node.idx2
          < (adj.set node.idx1 (adj[node.idx1] + adj[j] * node.der1)).length := by
        simpa using hi2
      simp only [h1', if_true, List.getElem?_eq_getElem hj', List.getElem?_eq_getElem hi2',
        Option.some_bind]
      exact ⟨_, rfl, by simp⟩
    · simp only [h1', if_false]
      exact ⟨_, rfl, by simp⟩
  · simp only [h0, if_false]
    exact ⟨_, rfl, rfl⟩

theorem backward_returns [Add α] [Mul α] (tape : Tape α) (hwf : WellFormed tape) :
    ∀ (j : Nat) (adj : List α), j < tape.length → adj.length = tape.length →
      ∃ adj', backward tape j adj = some adj' ∧ adj'.length = tape.length := by
  intro j
  induction j with
  | zero =>
    intro adj _ hlen
    exact ⟨adj, rfl, hlen⟩
  | succ j ih =>
    intro adj hj hlen
    obtain ⟨adj1, hprop, hlen1⟩ := propagate_returns tape (j + 1) adj tape[j + 1]
      (List.getElem?_eq_getElem hj) (hwf (j + 1) hj) (hlen ▸ hj)
    obtain ⟨adj2, hback, hlen2⟩ := ih adj1 (Nat.lt_of_succ_lt hj) (hlen1.trans hlen)
    refine ⟨adj2, ?_, hlen2⟩
    simp only [backward, hprop, Option.bind_eq_bind, Option.some_bind, hback]

/-- On a well-formed tape with a valid output index `calculateAdjoints` returns
a vector of the tape's length, in any arithmetic. -/
theorem calculateAdjoints_returns [Zero α] [One α] [Add α] [Mul α] (tape : Tape α)
    (result : Number α) (hwf : WellFormed tape) (hN : result.idx < tape.length) :
    ∃ a, calculateAdjoints tape result = some a ∧ a.length = tape.length := by
  obtain ⟨a, ha, hlen⟩ := backward_returns tape hwf result.idx
    ((List.replicate tape.length (0 : α)).set result.idx 1) hN (by simp)
  refine ⟨a, ?_, hlen⟩
  unfold calculateAdjoints
  simp only [List.length_replicate, hN, if_true]
  exact ha

end SweepLemmas

/-! ## Lemmas on recording -/

section RecordingLemmas

variable {α : Type}
variable [Zero α] [One α] [Add α] [Sub α] [Mul α] [Div α] [Neg α] [OfScientific α]

theorem ofDouble_appends (x : α) (tape : Tape α) :
    Appends tape [] (Number.ofDouble x tape) :=
  ⟨_, rfl, rfl, fun _ => ⟨Nat.zero_le 2, fun h => absurd h (Nat.lt_irrefl 0),
    fun h => absurd h (Nat.not_lt_zero 1)⟩⟩

theorem binOp_appends (op : BinOp) (lhs rhs : Number α) (tape : Tape α) :
    Appends tape [lhs, rhs] (op.run lhs rhs tape) := by
  cases op <;>
  exact ⟨_, rfl, rfl, fun h => ⟨le_refl 2, fun _ => h lhs (by simp), fun _ => h rhs (by simp)⟩⟩

theorem binOp_runAssign (op : BinOp) (lhs rhs : Number α) (tape : Tape α) :
    op.runAssign lhs rhs tape = op.run lhs rhs tape := by
  cases op <;> rfl

theorem unFn_appends (F : DoubleFns α) (f : UnFn) (arg : Number α) (tape : Tape α) :
    Appends tape [arg] (f.run F arg tape) := by
  cases f <;>
  exact ⟨_, rfl, rfl, fun h => ⟨Nat.le_succ 1, fun _ => h arg (by simp),
    fun h => absurd h (Nat.lt_irrefl 1)⟩⟩

theorem inv_appends (tape : Tape α) (vars : List (Number α)) (args : List (Number α))
    (out : Number α × Tape α) (hinv : State.Inv ⟨tape, vars⟩) (hargs : ∀ a ∈ args, a ∈ vars)
    (hout : Appends tape args out) :
    State.Inv ⟨out.2, vars ++ [out.1]⟩ ∧ ∀ i, State.Inv ⟨out.2, vars.set i out.1⟩ := by
  obtain ⟨node, h2, h1, hnode⟩ := hout
  rw [h2]
  exact inv_push tape vars node out.1 hinv (hnode fun a ha => hinv.2 a (hargs a ha)) h1

theorem step_inv (F : DoubleFns α) (s s' : State α) (instr : Instr α) (hinv : s.Inv)
    (hstep : s.step F instr = some s') : s'.Inv := by
  cases instr with
  | ofDouble x =>
    simp only [State.step, Option.some.injEq] at hstep
    subst hstep
    exact (inv_appends s.tape s.vars [] _ hinv (by simp) (ofDouble_appends x s.tape)).1
  | binary op i j =>
    simp only [State.step, Option.bind_eq_bind, Option.bind_eq_some] at hstep
    obtain ⟨lhs, hl, rhs, hr, h⟩ := hstep
    simp only [Option.some.injEq] at h
    subst h
    refine (inv_appends s.tape s.vars [lhs, rhs] _ hinv ?_ (binOp_appends op lhs rhs s.tape)).1
    intro a ha
    simp only [List.mem_cons, List.mem_singleton, List.not_mem_nil, or_false] at ha
    rcases ha with rfl | rfl
    · exact List.getElem?_mem hl
    · exact List.getElem?_mem hr
  | neg i =>
    simp only [State.step, Option.bind_eq_bind, Option.bind_eq_some] at hstep
    obtain ⟨a, ha, h⟩ := hstep
    simp only [Option.some.injEq] at h
    subst h
    have h1 := (inv_appends s.tape s.vars [] _ hinv (by simp) (ofDouble_appends 0 s.tape)).1
    have h2 := (inv_appends _ _ [(Number.ofDouble 0 s.tape).1, a] _ h1 (by
      intro b hb
      simp only [List.mem_cons, List.mem_singleton, List.not_mem_nil, or_false] at hb
      rcases hb with rfl | rfl
      · simp
      · exact List.mem_append_left _ (List.getElem?_mem ha))
      (binOp_appends BinOp.sub (Number.ofDouble 0 s.tape).1 a (Number.ofDouble 0 s.tape).2)).1
    refine ⟨h2.1, fun v hv => ?_⟩
    apply h2.2
    simp only [List.mem_append, List.mem_singleton] at hv ⊢
    rcases hv with hv | hv
    · exact Or.inl (Or.inl hv)
    · exact Or.inr hv
  | assign op i j =>
    simp only [State.step, Option.bind_eq_bind, Option.bind_eq_some] at hstep
    obtain ⟨lhs, hl, rhs, hr, h⟩ := hstep
    simp only [Option.some.injEq] at h
    subst h
    rw [binOp_runAssign]
    refine (inv_appends s.tape s.vars [lhs, rhs] _ hinv ?_ (binOp_appends op lhs rhs s.tape)).2 i
    intro a ha
    simp only [List.mem_cons, List.mem_singleton, List.not_mem_nil, or_false] at ha
    rcases ha with rfl | rfl
    · exact List.getElem?_mem hl
    · exact List.getElem?_mem hr
  | apply f i =>
    simp only [State.step, Option.bind_eq_bind, Option.bind_eq_some] at hstep
    obtain ⟨arg, ha, h⟩ := hstep
    simp only [Option.some.injEq] at h
    subst h
    refine (inv_appends s.tape s.vars [arg] _ hinv ?_ (unFn_appends F f arg s.tape)).1
    intro a ha'
    simp only [List.mem_singleton] at ha'
    subst ha'
    exact List.getElem?_mem ha
  | clear =>
    simp only [State.step, Option.some.injEq] at hstep
    subst hstep
    exact ⟨wellFormed_nil, fun v hv => absurd hv (List.not_mem_nil v)⟩

theorem run_inv (F : DoubleFns α) (prog : List (Instr α)) :
    ∀ (s s' : State α), s.Inv → s.run F prog = some s' → s'.Inv := by
  induction prog with
  | nil =>
    intro s s' hinv hrun
    simp only [State.run, Option.some.injEq] at hrun
    exact hrun ▸ hinv
  | cons instr rest ih =>
    intro s s' hinv hrun
    simp only [State.run, Option.bind_eq_bind, Option.bind_eq_some] at hrun
    obtain ⟨s1, h1, h2⟩ := hrun
    exact ih s1 s' (step_inv F s s1 instr hinv h1) h2

theorem step_length_lt (F : DoubleFns α) (s s' : State α) (instr : Instr α)
    (hne : instr ≠ Instr.clear) (hstep : s.step F instr = some s') :
    s.tape.length < s'.tape.length := by
  cases instr with
  | ofDouble x =>
    simp only [State.step, Option.some.injEq] at hstep
    subst hstep
    simp [Number.ofDouble]
  | binary op i j =>
    simp only [State.step, Option.bind_eq_bind, Option.bind_eq_some] at hstep
    obtain ⟨lhs, _, rhs, _, h⟩ := hstep
    simp only [Option.some.injEq] at h
    subst h
    obtain ⟨node, h2, _⟩ := binOp_appends op lhs rhs s.tape
    simp [h2]
  | neg i =>
    simp only [State.step, Option.bind_eq_bind, Option.bind_eq_some] at hstep
    obtain ⟨a, _, h⟩ := hstep
    simp only [Option.some.injEq] at h
    subst h
    simp [Number.neg, Number.sub, Number.ofDouble]
  | assign op i j =>
    simp only [State.step, Option.bind_eq_bind, Option.bind_eq_some] at hstep
    obtain ⟨lhs, _, rhs, _, h⟩ := hstep
    simp only [Option.some.injEq] at h
    subst h
    obtain ⟨node, h2, _⟩ := binOp_appends op lhs rhs s.tape
    simp [binOp_runAssign, h2]
  | apply f i =>
    simp only [State.step, Option.bind_eq_bind, Option.bind_eq_some] at hstep
    obtain ⟨arg, _, h⟩ := hstep
    simp only [Option.some.injEq] at h
    subst h
    obtain ⟨node, h2, _⟩ := unFn_appends F f arg s.tape
    simp [h2]
  | clear => exact absurd rfl hne

theorem run_length_le (F : DoubleFns α) (prog : List (Instr α)) :
    ∀ (s s' : State α), (∀ instr ∈ prog, instr ≠ Instr.clear) → s.run F prog = some s' →
      s.tape.length ≤ s'.tape.length := by
  induction prog with
  | nil =>
    intro s s' _ hrun
    simp only [State.run, Option.some.injEq] at hrun
    exact hrun ▸ le_refl _
  | cons instr rest ih =>
    intro s s' hne hrun
    simp only [State.run, Option.bind_eq_bind, Option.bind_eq_some] at hrun
    obtain ⟨s1, h1, h2⟩ := hrun
    have hlt := step_length_lt F s s1 instr (hne instr (List.mem_cons_self _ _)) h1
    have hle := ih s1 s' (fun i hi => hne i (List.mem_cons_of_mem _ hi)) h2
    omega

end RecordingLemmas

/-! ## Facts about the concrete inputs -/

section ExampleLemmas

theorem exampleTape_wf : WellFormed exampleTape := by decide

theorem exampleTangent_ok : IsTangent exampleTape exampleTangent := by
  intro k h
  have hk : k < 4 := h
  interval_cases k <;> simp [exampleTape, exampleTangent] <;> norm_num

theorem exampleProg_run : State.init.run ratFns exampleProg = some exampleState := by
  simp [State.run, State.step, State.init, exampleProg, exampleState, exampleTape, ratFns,
    BinOp.run, UnFn.run, Number.ofDouble, Number.mul, Number.log, Node.blank]
  norm_num

theorem exampleTail_run : oneVar.run ratFns exampleTail = some threeVars := by
  simp [State.run, State.step, oneVar, exampleTail, threeVars, BinOp.run, Number.ofDouble,
    Number.mul, Node.blank]
  norm_num

theorem exampleTail_noClear : ∀ instr ∈ exampleTail, instr ≠ Instr.clear := by
  simp [exampleTail]

end ExampleLemmas

/-! ## Lemmas on the entry points and on append-only recording -/

section FrameLemmas

variable {α : Type}
variable [Zero α] [One α] [Add α] [Sub α] [Mul α] [Div α] [Neg α] [OfScientific α]

theorem step_prefix (F : DoubleFns α) (s s' : State α) (instr : Instr α)
    (hne : instr ≠ Instr.clear) (hstep : s.step F instr = some s') :
    s.tape <+: s'.tape := by
  cases instr with
  | ofDouble x =>
    simp only [State.step, Option.some.injEq] at hstep
    subst hstep
    exact ⟨_, rfl⟩
  | binary op i j =>
    simp only [State.step, Option.bind_eq_bind, Option.bind_eq_some] at hstep
    obtain ⟨lhs, _, rhs, _, h⟩ := hstep
    simp only [Option.some.injEq] at h
    subst h
    obtain ⟨node, h2, _⟩ := binOp_appends op lhs rhs s.tape
    exact ⟨[node], h2.symm⟩
  | neg i =>
    simp only [State.step, Option.bind_eq_bind, Option.bind_eq_some] at hstep
    obtain ⟨a, _, h⟩ := hstep
    simp only [Option.some.injEq] at h
    subst h
    exact (List.prefix_append s.tape _).trans (List.prefix_append (Number.ofDouble 0 s.tape).2 _)
  | assign op i j =>
    simp only [State.step, Option.bind_eq_bind, Option.bind_eq_some] at hstep
    obtain ⟨lhs, _, rhs, _, h⟩ := hstep
    simp only [Option.some.injEq] at h
    subst h
    obtain ⟨node, h2, _⟩ := binOp_appends op lhs rhs s.tape
    exact ⟨[node], by simp [binOp_runAssign, h2]⟩
  | apply f i =>
    simp only [State.step, Option.bind_eq_bind, Option.bind_eq_some] at hstep
    obtain ⟨arg, _, h⟩ := hstep
    simp only [Option.some.injEq] at h
    subst h
    obtain ⟨node, h2, _⟩ := unFn_appends F f arg s.tape
    exact ⟨[node], h2.symm⟩
  | clear => exact absurd rfl hne

theorem twoVars_step_mul :
    twoVars.step ratFns (Instr.binary BinOp.mul 0 1) = some threeVars := by
  simp [State.step, twoVars, threeVars, BinOp.run, Number.mul, Node.blank]
  norm_num

end FrameLemmas

section MachineIntLemmas

theorem wrapInt32_eq (x : Int) (h1 : -2147483648 ≤ x) (h2 : x ≤ 2147483647) :
    wrapInt32 x = x := by
  unfold wrapInt32
  omega

end MachineIntLemmas

section EntryLemmas

variable {D : Type} [LinearOrderedField D] [FloorRing D]

end EntryLemmas

/-! ## Lemmas on the kernel on doubles -/

section ScalarLemmas

variable {D : Type} [Add D] [Sub D] [Mul D] [Div D] [LT D]
  [DecidableRel (fun (a b : D) => a < b)]

@[simp] theorem doubleScalar_ofDouble (F : DoubleFns D) (x : D) (st : Unit) :
    (doubleScalar F).ofDouble x st = (x, st) := rfl

@[simp] theorem doubleScalar_add (F : DoubleFns D) (a b : D) (st : Unit) :
    (doubleScalar F).add a b st = (a + b, st) := rfl

@[simp] theorem doubleScalar_sub (F : DoubleFns D) (a b : D) (st : Unit) :
    (doubleScalar F).sub a b st = (a - b, st) := rfl

@[simp] theorem doubleScalar_mul (F : DoubleFns D) (a b : D) (st : Unit) :
    (doubleScalar F).mul a b st = (a * b, st) := rfl

@[simp] theorem doubleScalar_div (F : DoubleFns D) (a b : D) (st : Unit) :
    (doubleScalar F).div a b st = (a / b, st) := rfl

@[simp] theorem doubleScalar_addAssign (F : DoubleFns D) (a b : D) (st : Unit) :
    (doubleScalar F).addAssign a b st = (a + b, st) := rfl

@[simp] theorem doubleScalar_mulAssign (F : DoubleFns D) (a b : D) (st : Unit) :
    (doubleScalar F).mulAssign a b st = (a * b, st) := rfl

@[simp] theorem doubleScalar_sqrt (F : DoubleFns D) (a : D) (st : Unit) :
    (doubleScalar F).sqrt a st = (F.sqrt a, st) := rfl

@[simp] theorem doubleScalar_gt (F : DoubleFns D) (a b : D) :
    (doubleScalar F).gt a b = decide (b < a) := rfl

@[simp] theorem doubleScalar_lt (F : DoubleFns D) (a b : D) :
    (doubleScalar F).lt a b = decide (a < b) := rfl

end ScalarLemmas

section BarrierLemmas2

variable {D : Type} [Zero D] [One D] [OfNat D 2] [Neg D] [OfScientific D] [NatCast D] [IntCast D]
  [Add D] [Sub D] [Mul D] [Div D] [LT D] [DecidableRel (fun (a b : D) => a < b)]

theorem monitor_above (F : DoubleFns D) (barrier epsilon spot notionalAlive : D)
    (hhigh : barrier + epsilon < spot) :
    monitor (doubleScalar F) barrier epsilon spot notionalAlive () = ((0, true), ()) := by
  unfold monitor
  simp only [doubleScalar_add, doubleScalar_gt, doubleScalar_ofDouble, hhigh, decide_True,
    if_true]

theorem monitor_double (F : DoubleFns D) (barrier epsilon spot notionalAlive : D) :
    monitor (doubleScalar F) barrier epsilon spot notionalAlive ()
      = if barrier + epsilon < spot then ((0, true), ())
        else if spot < barrier - epsilon then ((notionalAlive, false), ())
        else ((notionalAlive * smoothingFactor barrier epsilon spot, false), ()) := by
  unfold monitor smoothingFactor
  simp only [doubleScalar_add, doubleScalar_sub, doubleScalar_gt, doubleScalar_lt,
    doubleScalar_ofDouble, doubleScalar_mul, doubleScalar_div, doubleScalar_mulAssign,
    decide_eq_true_eq]

theorem stepLoop_cons_double (F : DoubleFns D) (interp2D : Interp2D D Unit)
    (spots times vols : List D) (barrier epsilon dt sdt g : D) (gs : List D)
    (spot time notionalAlive : D) :
    stepLoop (doubleScalar F) interp2D spots times vols barrier epsilon dt sdt (g :: gs) spot
        time notionalAlive ()
      = if monitoredStop (monitor (doubleScalar F) barrier epsilon
            (steppedSpot (simulateStep (doubleScalar F) interp2D spots times vols dt sdt g spot
              time ())) notionalAlive ()) = true then
          ((steppedSpot (simulateStep (doubleScalar F) interp2D spots times vols dt sdt g spot
              time ()),
            steppedTime (simulateStep (doubleScalar F) interp2D spots times vols dt sdt g spot
              time ()),
            monitoredNotional (monitor (doubleScalar F) barrier epsilon
              (steppedSpot (simulateStep (doubleScalar F) interp2D spots times vols dt sdt g
                spot time ())) notionalAlive ())), ())
        else
          stepLoop (doubleScalar F) interp2D spots times vols barrier epsilon dt sdt gs
            (steppedSpot (simulateStep (doubleScalar F) interp2D spots times vols dt sdt g spot
              time ()))
            (steppedTime (simulateStep (doubleScalar F) interp2D spots times vols dt sdt g spot
              time ()))
            (monitoredNotional (monitor (doubleScalar F) barrier epsilon
              (steppedSpot (simulateStep (doubleScalar F) interp2D spots times vols dt sdt g
                spot time ())) notionalAlive ())) () := by
  rw [stepLoop]
  rfl

theorem monitoredStop_iff (F : DoubleFns D) (barrier epsilon spot notionalAlive : D) :
    monitoredStop (monitor (doubleScalar F) barrier epsilon spot notionalAlive ()) = true
      ↔ barrier + epsilon < spot := by
  rw [monitor_double]
  unfold monitoredStop
  split_ifs with h1 h2 <;> simp [h1]

theorem stepLoop_knocked_out (F : DoubleFns D) (interp2D : Interp2D D Unit)
    (spots times vols : List D) (barrier epsilon dt sdt : D) :
    ∀ (p : List D) (spot time notionalAlive : D), p ≠ [] →
      barrier + epsilon < finalSpot (stepLoop (doubleScalar F) interp2D spots times vols barrier
        epsilon dt sdt p spot time notionalAlive ()) →
      (∀ rest : List D,
        stepLoop (doubleScalar F) interp2D spots times vols barrier epsilon dt sdt (p ++ rest)
            spot time notionalAlive ()
          = stepLoop (doubleScalar F) interp2D spots times vols barrier epsilon dt sdt p spot
            time notionalAlive ()) ∧
      finalNotional (stepLoop (doubleScalar F) interp2D spots times vols barrier epsilon dt sdt
        p spot time notionalAlive ()) = 0 := by
  intro p
  induction p with
  | nil =>
    intro _ _ _ h
    exact absurd rfl h
  | cons g p ih =>
    intro spot time notionalAlive _ hko
    rw [stepLoop_cons_double] at hko ⊢
    simp only [List.cons_append, stepLoop_cons_double]
    by_cases hstop : monitoredStop (monitor (doubleScalar F) barrier epsilon
        (steppedSpot (simulateStep (doubleScalar F) interp2D spots times vols dt sdt g spot
          time ())) notionalAlive ()) = true
    · simp only [hstop, if_true]
      refine ⟨fun _ => trivial, ?_⟩
      rw [monitor_above F barrier epsilon _ notionalAlive ((monitoredStop_iff F _ _ _ _).1 hstop)]
      rfl
    · simp only [hstop, if_false] at hko ⊢
      cases p with
      | nil =>
        exact absurd ((monitoredStop_iff F _ _ _ _).2 hko) hstop
      | cons g' p' => exact ih _ _ _ (List.cons_ne_nil g' p') hko

end BarrierLemmas2

section KernelLemmas

variable {D : Type} [LinearOrderedField D]

theorem simulatePath_double (F : DoubleFns D) (interp2D : Interp2D D Unit) (S0 : D)
    (spots times vols : List D) (strike barrier epsilon dt sdt : D) (gs : List D)
    (result : D) :
    simulatePath (doubleScalar F) interp2D S0 spots times vols strike barrier epsilon dt sdt
        gs result ()
      = (result + (simulatePath (doubleScalar F) interp2D S0 spots times vols strike barrier
          epsilon dt sdt gs 0 ()).1, ()) := by
  unfold simulatePath
  simp only [doubleScalar_ofDouble, doubleScalar_gt, doubleScalar_sub, doubleScalar_mul,
    doubleScalar_addAssign]
  split_ifs <;> simp

theorem pathLoop_double (F : DoubleFns D) (interp2D : Interp2D D Unit) (S0 : D)
    (spots times vols : List D) (strike barrier epsilon dt sdt : D) (Nt : Nat) :
    ∀ (n : Nat) (result : D) (random : RNG D),
      pathLoop (doubleScalar F) interp2D S0 spots times vols strike barrier epsilon dt sdt Nt
          n result random ()
        = ((result + ∑ i in Finset.range n,
              (simulatePath (doubleScalar F) interp2D S0 spots times vols strike barrier
                epsilon dt sdt (random.draw Nt (random.pos + (i : Int))) 0 ()).1,
            { random with pos := random.pos + (n : Int) }), ()) := by
  intro n
  induction n with
  | zero =>
    intro result random
    simp [pathLoop]
  | succ n ih =>
    intro result random
    rw [pathLoop]
    simp only [RNG.nextG]
    rw [simulatePath_double]
    simp only
    rw [ih]
    rw [Finset.sum_range_succ']
    simp only [RNG.draw, Nat.cast_add, Nat.cast_one, Nat.cast_zero, add_zero]
    have e : ∀ x : Int, random.pos + 1 + x = random.pos + (x + 1) := fun x => by ring
    simp only [e]
    rw [add_assoc, add_comm (simulatePath _ _ _ _ _ _ _ _ _ _ _ _ _ _).1]

theorem batch_double (F : DoubleFns D) (interp2D : Interp2D D Unit) (S0 : D)
    (spots times vols : List D) (maturity strike barrier : D) (firstPath lastPath : Int)
    (Nt : Nat) (epsilon : D) (random : RNG D) :
    dupireBarrierMCBatch (doubleScalar F) interp2D S0 spots times vols maturity strike barrier
        firstPath lastPath Nt epsilon random ()
      = (((∑ i in Finset.range (lastPath - firstPath).toNat,
              pathPayoff F interp2D S0 spots times vols maturity strike barrier Nt epsilon
                (random.draw Nt (firstPath + (i : Int))))
            / ((wrapInt32 (lastPath - firstPath) : Int) : D),
          { random with pos := firstPath + ((lastPath - firstPath).toNat : Int) }), ()) := by
  unfold dupireBarrierMCBatch
  simp only [doubleScalar_ofDouble, doubleScalar_div, doubleScalar_sqrt]
  rw [pathLoop_double]
  simp only [zero_add, RNG.skipTo, RNG.draw, pathPayoff]

end KernelLemmas

section ZeroVolLemmas

variable {D : Type} [LinearOrderedField D]

end ZeroVolLemmas

/-! ## Lemmas on doubles with a value that is not a number -/

section DblLemmas

variable {α : Type}

@[simp] theorem Dbl.zero_def [Zero α] : (0 : Dbl α) = Dbl.fin 0 := rfl

@[simp] theorem Dbl.one_def [One α] : (1 : Dbl α) = Dbl.fin 1 := rfl

@[simp] theorem Dbl.two_def [OfNat α 2] : (2 : Dbl α) = Dbl.fin 2 := rfl

@[simp] theorem Dbl.fin_add_fin [Add α] (x y : α) : Dbl.fin x + Dbl.fin y = Dbl.fin (x + y) :=
  rfl

@[simp] theorem Dbl.fin_sub_fin [Sub α] (x y : α) : Dbl.fin x - Dbl.fin y = Dbl.fin (x - y) :=
  rfl

@[simp] theorem Dbl.fin_mul_fin [Mul α] (x y : α) : Dbl.fin x * Dbl.fin y = Dbl.fin (x * y) :=
  rfl

@[simp] theorem Dbl.sub_nan [Sub α] (a : Dbl α) : a - Dbl.nan = Dbl.nan := by
  cases a <;> rfl

@[simp] theorem Dbl.mul_nan [Mul α] (a : Dbl α) : a * Dbl.nan = Dbl.nan := by
  cases a <;> rfl

theorem Dbl.fin_div_fin [Zero α] [DecidableEq α] [Div α] (x y : α) :
    Dbl.fin x / Dbl.fin y = if y = 0 then Dbl.nan else Dbl.fin (x / y) := rfl

@[simp] theorem Dbl.fin_lt_fin [LT α] (x y : α) : Dbl.fin x < Dbl.fin y ↔ x < y := Iff.rfl

end DblLemmas

section BarrierLemmas

variable {α : Type} [LinearOrderedField α]

theorem monitor_at_barrier (F : DoubleFns (Dbl α)) (barrier : α) (notionalAlive : Dbl α) :
    monitor (doubleScalar F) (Dbl.fin barrier) (Dbl.fin 0) (Dbl.fin barrier) notionalAlive ()
      = ((Dbl.nan, false), ()) := by
  unfold monitor
  simp [Dbl.fin_div_fin]

end BarrierLemmas

/-! ## Lemmas on the drivers -/

section DriverLemmas

theorem noOverflow_range (Np Nb : Int) (hNb : 1 ≤ Nb) :
    Np ≤ ((Np - 1) / Nb + 1) * Nb := by
  have hNb0 : (0 : Int) < Nb := by omega
  have := Int.lt_ediv_add_one_mul_self (Np - 1) hNb0
  linarith

theorem numBatches_spec (Np Nb : Int) (hNp : 1 ≤ Np) (hNb : 1 ≤ Nb) (hr : Np ≤ 2147483647) :
    ∃ n : Nat, numBatches Np Nb = some n ∧ 1 ≤ n ∧ (n : Int) ≤ Np ∧ Np ≤ (n : Int) * Nb ∧
      (∀ k : Nat, k < n ↔ (k : Int) * Nb < Np) ∧ (n : Int) = (Np - 1) / Nb + 1 := by
  have hdiv : Int.tdiv (Np - 1) Nb = (Np - 1) / Nb :=
    Int.tdiv_eq_ediv (by omega) (by omega)
  have hq0 : 0 ≤ (Np - 1) / Nb := Int.ediv_nonneg (by omega) (by omega)
  have hNb0 : (0 : Int) < Nb := by omega
  have hle : (Np - 1) / Nb * Nb ≤ Np - 1 := Int.ediv_mul_le _ (by omega)
  have hlt : Np - 1 < ((Np - 1) / Nb + 1) * Nb := by
    have := Int.lt_ediv_add_one_mul_self (Np - 1) hNb0
    linarith
  have hqle : (Np - 1) / Nb ≤ Np - 1 := by
    calc (Np - 1) / Nb ≤ (Np - 1) / Nb * Nb := by nlinarith
      _ ≤ Np - 1 := hle
  have hw1 : wrapInt32 (Np - 1) = Np - 1 := wrapInt32_eq _ (by omega) (by omega)
  have hw2 : wrapInt32 ((Np - 1) / Nb + 1) = (Np - 1) / Nb + 1 :=
    wrapInt32_eq _ (by omega) (by omega)
  refine ⟨((Np - 1) / Nb + 1).toNat, ?_, ?_, ?_, ?_, ?_, ?_⟩
  · unfold numBatches
    have h1 : ¬ (Nb = 0 ∨ (Np - 1 = -2147483648 ∧ Nb = -1)) := by omega
    have h2 : ¬ ((Np - 1) / Nb + 1 < 0) := by omega
    simp only [hw1, h1, if_false, hdiv, hw2, h2]
  · omega
  · rw [Int.toNat_of_nonneg (by omega)]
    omega
  · rw [Int.toNat_of_nonneg (by omega)]
    omega
  · intro k
    rw [Int.lt_toNat]
    constructor
    · intro hk
      have hk' : (k : Int) ≤ (Np - 1) / Nb := by omega
      have : (k : Int) * Nb ≤ (Np - 1) / Nb * Nb := by nlinarith
      omega
    · intro hk
      have hk' : (k : Int) * Nb ≤ Np - 1 := by omega
      have := (Int.le_ediv_iff_mul_le hNb0).2 hk'
      omega
  · rw [Int.toNat_of_nonneg (by omega)]

theorem batchLoop_from {β : Type} (Np Nb : Int) (n : Nat) (hNb : 0 ≤ Nb)
    (hov : (n : Int) * Nb ≤ 2147483647)
    (hn : ∀ k : Nat, k < n ↔ (k : Int) * Nb < Np) (body : Int → Int → β → Option β) :
    ∀ (m k fuel : Nat) (acc : β), k + m = n → m ≤ fuel →
      batchLoop Np Nb body fuel (min ((k : Int) * Nb) Np) acc
        = (List.range' k m).foldlM
            (fun acc b => body (specBounds Np Nb b).1 (specBounds Np Nb b).2 acc) acc := by
  intro m
  induction m with
  | zero =>
    intro k fuel acc hk _
    have hkn : ¬ (k : Int) * Nb < Np := fun h => absurd ((hn k).2 h) (by omega)
    have hmin : min ((k : Int) * Nb) Np = Np := min_eq_right (by omega)
    rw [hmin]
    cases fuel <;> simp [batchLoop]
  | succ m ih =>
    intro k fuel acc hk hfuel
    have hkn : (k : Int) * Nb < Np := (hn k).1 (by omega)
    have hmin : min ((k : Int) * Nb) Np = (k : Int) * Nb := min_eq_left (by omega)
    have hk0 : (0 : Int) ≤ (k : Int) * Nb := by positivity
    have hk1 : (k : Int) * Nb + Nb ≤ (n : Int) * Nb := by
      have h1 : ((k : Int) + 1) ≤ (n : Int) := by omega
      nlinarith
    have hw : wrapInt32 ((k : Int) * Nb + Nb) = (k : Int) * Nb + Nb :=
      wrapInt32_eq _ (by omega) (by omega)
    obtain ⟨fuel, rfl⟩ : ∃ f, fuel = f + 1 := ⟨fuel - 1, by omega⟩
    rw [hmin, batchLoop]
    simp only [hkn, if_true, List.range', List.foldlM_cons, specBounds, hw]
    cases hbody : body ((k : Int) * Nb) (min ((k : Int) * Nb + Nb) Np) acc with
    | none => rfl
    | some acc1 =>
      have hnext : min ((k : Int) * Nb + Nb) Np = min (((k + 1 : Nat) : Int) * Nb) Np := by
        congr 1
        push_cast
        ring
      simp only [Option.bind_eq_bind, Option.some_bind]
      rw [hnext]
      exact ih (k + 1) fuel acc1 (by omega) (by omega)

theorem batchLoop_eq_foldlM {β : Type} (Np Nb : Int) (hNp : 1 ≤ Np) (hNb : 1 ≤ Nb)
    (hov : ((Np - 1) / Nb + 1) * Nb ≤ 2147483647)
    (body : Int → Int → β → Option β) (n fuel : Nat) (hn : numBatches Np Nb = some n)
    (hfuel : n ≤ fuel) (acc : β) :
    batchLoop Np Nb body fuel 0 acc
      = (List.range n).foldlM
          (fun acc b => body (specBounds Np Nb b).1 (specBounds Np Nb b).2 acc) acc := by
  have hr : Np ≤ 2147483647 := le_trans (noOverflow_range Np Nb hNb) hov
  obtain ⟨n', hn', _, _, _, hlt, hq⟩ := numBatches_spec Np Nb hNp hNb hr
  have e : n' = n := by
    rw [hn] at hn'
    exact (Option.some.inj hn').symm
  subst e
  have h := batchLoop_from Np Nb n' (by omega) (by rw [hq]; exact hov) hlt body n' 0 fuel acc
    (by omega) hfuel
  have h0 : min (((0 : Nat) : Int) * Nb) Np = 0 := by
    simp only [Nat.cast_zero, zero_mul]
    exact min_eq_left (by omega)
  rw [h0] at h
  rw [h, List.range_eq_range']

theorem batchBounds_eq (Np Nb : Int) (n : Nat) (hNb : 0 ≤ Nb)
    (hov : (n : Int) * Nb ≤ 2147483647) (k : Nat) (hk : k < n) :
    batchBounds Np Nb k = specBounds Np Nb k := by
  have hk0 : (0 : Int) ≤ (k : Int) * Nb := by positivity
  have hk1 : (k : Int) * Nb + Nb ≤ (n : Int) * Nb := by
    have h1 : ((k : Int) + 1) ≤ (n : Int) := by omega
    nlinarith
  have hw1 : wrapInt32 ((k : Int) * Nb) = (k : Int) * Nb := wrapInt32_eq _ (by omega) (by omega)
  have hw2 : wrapInt32 ((k : Int) * Nb + Nb) = (k : Int) * Nb + Nb :=
    wrapInt32_eq _ (by omega) (by omega)
  simp only [batchBounds, specBounds, hw1, hw2]

theorem specBounds_count (Np Nb : Int) (n : Nat) (hNb : 0 ≤ Nb)
    (hov : (n : Int) * Nb ≤ 2147483647) (hn : ∀ k : Nat, k < n ↔ (k : Int) * Nb < Np)
    (k : Nat) (hk : k < n) :
    wrapInt32 ((specBounds Np Nb k).2 - (specBounds Np Nb k).1)
      = (specBounds Np Nb k).2 - (specBounds Np Nb k).1 := by
  have hk0 : (0 : Int) ≤ (k : Int) * Nb := by positivity
  have hkn : (k : Int) * Nb < Np := (hn k).1 hk
  have hk1 : (k : Int) * Nb + Nb ≤ (n : Int) * Nb := by
    have h1 : ((k : Int) + 1) ≤ (n : Int) := by omega
    nlinarith
  simp only [specBounds]
  have hm1 : min ((k : Int) * Nb + Nb) Np ≤ (k : Int) * Nb + Nb := min_le_left _ _
  have hm2 : (k : Int) * Nb ≤ min ((k : Int) * Nb + Nb) Np := le_min (by omega) (by omega)
  exact wrapInt32_eq _ (by omega) (by omega)

end DriverLemmas

section PricerLemmas

variable {D : Type} [LinearOrderedField D]

theorem sum_range_split (p : Int → D) (f l : Int) (hf : 0 ≤ f) (hfl : f ≤ l) :
    ∑ i in Finset.range l.toNat, p (i : Int)
      = ∑ i in Finset.range f.toNat, p (i : Int)
        + ∑ j in Finset.range (l - f).toNat, p (f + (j : Int)) := by
  have hlen : l.toNat = f.toNat + (l - f).toNat := by omega
  rw [hlen, Finset.sum_range_add]
  congr 1
  apply Finset.sum_congr rfl
  intro j _
  congr 1
  push_cast
  rw [Int.toNat_of_nonneg hf]

theorem batchValue_double (F : DoubleFns D) (interp2D : Interp2D D Unit) (S0 : D)
    (spots times vols : List D) (maturity strike barrier : D) (firstPath lastPath : Int)
    (Nt : Nat) (epsilon : D) (random rng : RNG D) (hg : rng.gauss = random.gauss) :
    (dupireBarrierMCBatch (doubleScalar F) interp2D S0 spots times vols maturity strike barrier
        firstPath lastPath Nt epsilon rng ()).1.1
      = (∑ j in Finset.range (lastPath - firstPath).toNat,
          pathPayoff F interp2D S0 spots times vols maturity strike barrier Nt epsilon
            (random.draw Nt (firstPath + (j : Int))))
        / ((wrapInt32 (lastPath - firstPath) : Int) : D) := by
  rw [batch_double]
  simp only [RNG.draw, hg]

theorem batch_gauss (F : DoubleFns D) (interp2D : Interp2D D Unit) (S0 : D)
    (spots times vols : List D) (maturity strike barrier : D) (firstPath lastPath : Int)
    (Nt : Nat) (epsilon : D) (rng : RNG D) :
    (dupireBarrierMCBatch (doubleScalar F) interp2D S0 spots times vols maturity strike barrier
        firstPath lastPath Nt epsilon rng ()).1.2.gauss = rng.gauss := by
  rw [batch_double]

/-- Contribution of a batch `[f, l)` to the sum of payoffs, from its kernel value. -/
theorem batch_times_count (p : Int → D) (f l : Int) (hf : 0 ≤ f) (hfl : f < l) :
    (∑ j in Finset.range (l - f).toNat, p (f + (j : Int))) / ((l - f : Int) : D)
        * ((l - f : Int) : D)
      = ∑ i in Finset.range l.toNat, p (i : Int) - ∑ i in Finset.range f.toNat, p (i : Int) := by
  have hc : ((l - f : Int) : D) ≠ 0 := by
    have : (l - f : Int) ≠ 0 := by omega
    exact_mod_cast this
  rw [div_mul_cancel₀ _ hc, sum_range_split p f l hf (le_of_lt hfl)]
  ring

end PricerLemmas

section PricerLemmas2

variable {D : Type} [LinearOrderedField D]

theorem pricerBody_spec (F : DoubleFns D) (interp2D : Interp2D D Unit) (S0 : D)
    (spots times vols : List D) (maturity strike barrier : D) (Np : Int) (Nt : Nat)
    (epsilon : D) (random : RNG D) (f l : Int) (hf : 0 ≤ f) (hfl : f < l)
    (hl : l ≤ 2147483647) (a : D) (rng : RNG D) (hg : rng.gauss = random.gauss) :
    ∃ rng1 : RNG D, rng1.gauss = random.gauss ∧
      pricerBody F interp2D S0 spots times vols maturity strike barrier Np Nt epsilon f l
          (a, rng)
        = some (a + (∑ i in Finset.range l.toNat,
                  pathPayoff F interp2D S0 spots times vols maturity strike barrier Nt epsilon
                    (random.draw Nt (i : Int))
                - ∑ i in Finset.range f.toNat,
                  pathPayoff F interp2D S0 spots times vols maturity strike barrier Nt epsilon
                    (random.draw Nt (i : Int))) / ((Np : Int) : D), rng1) := by
  have hw : wrapInt32 (l - f) = l - f := wrapInt32_eq _ (by omega) (by omega)
  refine ⟨(dupireBarrierMCBatch (doubleScalar F) interp2D S0 spots times vols maturity strike
      barrier f l Nt epsilon rng ()).1.2, ?_, ?_⟩
  · rw [batch_gauss, hg]
  · unfold pricerBody pricerBodyWith
    simp only [Option.map_some']
    rw [batchValue_double F interp2D S0 spots times vols maturity strike barrier f l Nt epsilon
      random rng hg, hw,
      batch_times_count (fun i => pathPayoff F interp2D S0 spots times vols maturity strike
        barrier Nt epsilon (random.draw Nt i)) f l hf hfl]

theorem pricer_fold (F : DoubleFns D) (interp2D : Interp2D D Unit) (S0 : D)
    (spots times vols : List D) (maturity strike barrier : D) (Np Nb : Int) (Nt : Nat)
    (epsilon : D) (random : RNG D) (hNb : 1 ≤ Nb) (n : Nat)
    (hov : (n : Int) * Nb ≤ 2147483647)
    (hlt : ∀ k : Nat, k < n ↔ (k : Int) * Nb < Np) :
    ∀ k : Nat, k ≤ n → ∃ rng : RNG D, rng.gauss = random.gauss ∧
      (List.range k).foldlM
          (fun acc b =>
            pricerBody F interp2D S0 spots times vols maturity strike barrier Np Nt epsilon
              (specBounds Np Nb b).1 (specBounds Np Nb b).2 acc)
          ((0 : D), random.init Nt)
        = some ((∑ i in Finset.range (min ((k : Int) * Nb) Np).toNat,
              pathPayoff F interp2D S0 spots times vols maturity strike barrier Nt epsilon
                (random.draw Nt (i : Int))) / ((Np : Int) : D), rng) := by
  intro k
  induction k with
  | zero =>
    intro _
    refine ⟨random.init Nt, rfl, ?_⟩
    have h0 : (min (0 : Int) Np).toNat = 0 := by omega
    simp [h0]
  | succ k ih =>
    intro hk
    obtain ⟨rng, hg, hfold⟩ := ih (by omega)
    have hkn : (k : Int) * Nb < Np := (hlt k).1 (by omega)
    have hk0 : (0 : Int) ≤ (k : Int) * Nb := by positivity
    have hmin : min ((k : Int) * Nb) Np = (k : Int) * Nb := min_eq_left (by omega)
    have hnext : min ((k : Int) * Nb + Nb) Np = min (((k + 1 : Nat) : Int) * Nb) Np := by
      congr 1
      push_cast
      ring
    have hfl : (k : Int) * Nb < min ((k : Int) * Nb + Nb) Np := by
      rw [lt_min_iff]
      constructor <;> omega
    have hl : min ((k : Int) * Nb + Nb) Np ≤ 2147483647 := by
      have h1 : ((k : Int) + 1) ≤ (n : Int) := by omega
      have h2 : (k : Int) * Nb + Nb ≤ (n : Int) * Nb := by nlinarith
      exact le_trans (min_le_left _ _) (by omega)
    obtain ⟨rng1, hg1, hbody⟩ := pricerBody_spec F interp2D S0 spots times vols maturity strike
      barrier Np Nt epsilon random ((k : Int) * Nb) (min ((k : Int) * Nb + Nb) Np) hk0 hfl hl
      ((∑ i in Finset.range (min ((k : Int) * Nb) Np).toNat,
        pathPayoff F interp2D S0 spots times vols maturity strike barrier Nt epsilon
          (random.draw Nt (i : Int))) / ((Np : Int) : D)) rng hg
    refine ⟨rng1, hg1, ?_⟩
    rw [List.range_succ, List.foldlM_append, hfold]
    simp only [Option.bind_eq_bind, Option.some_bind, List.foldlM_cons, List.foldlM_nil,
      specBounds, Option.pure_def, Option.bind_some]
    rw [hbody, hmin, ← hnext]
    congr 2
    ring

theorem pricerMT_fold (F : DoubleFns D) (interp2D : Interp2D D Unit) (S0 : D)
    (spots times vols : List D) (maturity strike barrier : D) (Np Nb : Int) (Nt : Nat)
    (epsilon : D) (random : RNG D) (hNb : 1 ≤ Nb) (n : Nat)
    (hov : (n : Int) * Nb ≤ 2147483647)
    (hlt : ∀ k : Nat, k < n ↔ (k : Int) * Nb < Np) :
    ∀ k : Nat, k ≤ n →
      ((List.range k).map fun batch =>
          ((wrapInt32 ((batchBounds Np Nb batch).2 - (batchBounds Np Nb batch).1) : Int) : D) *
            (dupireBarrierMCBatch (doubleScalar F) interp2D S0 spots times vols maturity strike
              barrier (batchBounds Np Nb batch).1 (batchBounds Np Nb batch).2 Nt epsilon
              (random.init Nt).clone ()).1.1).foldl (fun sum x => sum + x) 0
        = ∑ i in Finset.range (min ((k : Int) * Nb) Np).toNat,
            pathPayoff F interp2D S0 spots times vols maturity strike barrier Nt epsilon
              (random.draw Nt (i : Int)) := by
  intro k
  induction k with
  | zero =>
    intro _
    have h0 : (min (0 : Int) Np).toNat = 0 := by omega
    simp [h0]
  | succ k ih =>
    intro hk
    have hkn : (k : Int) * Nb < Np := (hlt k).1 (by omega)
    have hk0 : (0 : Int) ≤ (k : Int) * Nb := by positivity
    have hmin : min ((k : Int) * Nb) Np = (k : Int) * Nb := min_eq_left (by omega)
    have hnext : min ((k : Int) * Nb + Nb) Np = min (((k + 1 : Nat) : Int) * Nb) Np := by
      congr 1
      push_cast
      ring
    have hfl : (k : Int) * Nb < min ((k : Int) * Nb + Nb) Np := by
      rw [lt_min_iff]
      constructor <;> omega
    have hb := batchBounds_eq Np Nb n (by omega) hov k (by omega)
    have hw := specBounds_count Np Nb n (by omega) hov hlt k (by omega)
    simp only [specBounds] at hw
    have hval := batchValue_double F interp2D S0 spots times vols maturity strike barrier
      ((k : Int) * Nb) (min ((k : Int) * Nb + Nb) Np) Nt epsilon random (random.init Nt).clone rfl
    have hcount := batch_times_count (fun i => pathPayoff F interp2D S0 spots times vols
      maturity strike barrier Nt epsilon (random.draw Nt i)) ((k : Int) * Nb)
      (min ((k : Int) * Nb + Nb) Np) hk0 hfl
    rw [List.range_succ, List.map_append, List.foldl_append, ih (by omega)]
    simp only [List.map_cons, List.map_nil, List.foldl_cons, List.foldl_nil, hb, specBounds]
    rw [hval, hw, mul_comm (((min ((k : Int) * Nb + Nb) Np - (k : Int) * Nb : Int) : D)), hcount,
      hmin, ← hnext]
    ring

end PricerLemmas2

section TraceLemmas

theorem trace_fold (Np Nb : Int) (n : Nat) (trace : List (Int × Int)) :
    (List.range n).foldlM
        (fun (acc : List (Int × Int)) b =>
          (fun firstPath lastPath (acc : List (Int × Int)) => some (acc ++ [(firstPath, lastPath)]))
            (specBounds Np Nb b).1 (specBounds Np Nb b).2 acc) trace
      = some (trace ++ (List.range n).map (specBounds Np Nb)) := by
  induction n with
  | zero => simp
  | succ n ih =>
    rw [List.range_succ, List.foldlM_append, ih]
    simp

end TraceLemmas

section PricerLemmas3

variable {D : Type} [LinearOrderedField D]

theorem pricer_value (F : DoubleFns D) (interp2D : Interp2D D Unit) (S0 : D)
    (spots times vols : List D) (maturity strike barrier : D) (Np Nb : Int) (Nt : Nat)
    (epsilon : D) (random : RNG D) (fuel : Nat) (hNp : 1 ≤ Np) (hNb : 1 ≤ Nb)
    (hov : ((Np - 1) / Nb + 1) * Nb ≤ 2147483647) (hfuel : Np.toNat ≤ fuel) :
    dupireBarrierPricer F interp2D S0 spots times vols maturity strike barrier Np Nb Nt epsilon
        random fuel
      = some ((∑ i in Finset.range Np.toNat,
          pathPayoff F interp2D S0 spots times vols maturity strike barrier Nt epsilon
            (random.draw Nt (i : Int))) / ((Np : Int) : D)) := by
  have hr : Np ≤ 2147483647 := le_trans (noOverflow_range Np Nb hNb) hov
  obtain ⟨n, hn, _, hnNp, hNpn, hlt, hq⟩ := numBatches_spec Np Nb hNp hNb hr
  obtain ⟨rng, _, hfold⟩ := pricer_fold F interp2D S0 spots times vols maturity strike barrier
    Np Nb Nt epsilon random hNb n (by rw [hq]; exact hov) hlt n (le_refl n)
  have hmin : min ((n : Int) * Nb) Np = Np := min_eq_right hNpn
  unfold dupireBarrierPricer
  simp only
  rw [batchLoop_eq_foldlM Np Nb hNp hNb hov _ n fuel hn (by omega), hfold, hmin]
  rfl

theorem pricerMT_value (F : DoubleFns D) (interp2D : Interp2D D Unit) (S0 : D)
    (spots times vols : List D) (maturity strike barrier : D) (Np Nb : Int) (Nt : Nat)
    (epsilon : D) (random : RNG D) (hNp : 1 ≤ Np) (hNb : 1 ≤ Nb)
    (hov : ((Np - 1) / Nb + 1) * Nb ≤ 2147483647) :
    dupireBarrierPricerMT F interp2D S0 spots times vols maturity strike barrier Np Nb Nt
        epsilon random
      = some ((∑ i in Finset.range Np.toNat,
          pathPayoff F interp2D S0 spots times vols maturity strike barrier Nt epsilon
            (random.draw Nt (i : Int))) / ((Np : Int) : D)) := by
  have hr : Np ≤ 2147483647 := le_trans (noOverflow_range Np Nb hNb) hov
  obtain ⟨n, hn, _, hnNp, hNpn, hlt, hq⟩ := numBatches_spec Np Nb hNp hNb hr
  have hfold := pricerMT_fold F interp2D S0 spots times vols maturity strike barrier
    Np Nb Nt epsilon random hNb n (by rw [hq]; exact hov) hlt n (le_refl n)
  have hmin : min ((n : Int) * Nb) Np = Np := min_eq_right hNpn
  unfold dupireBarrierPricerMT
  rw [hn]
  simp only
  rw [hfold, hmin]

end PricerLemmas3

/-! ## Lemmas on the kernel on Numbers -/

section GenericKernelLemmas

variable {T σ D : Type}
variable [Zero D] [One D] [OfNat D 2] [Neg D] [OfScientific D] [NatCast D] [IntCast D]

theorem pathLoop_random (S : Scalar T σ D) (interp2D : Interp2D T σ) (S0 : T)
    (spots times vols : List T) (strike barrier epsilon dt sdt : T) (Nt : Nat) :
    ∀ (n : Nat) (result : T) (random : RNG D) (st : σ),
      (pathLoop S interp2D S0 spots times vols strike barrier epsilon dt sdt Nt n result random
        st).1.2 = { random with pos := random.pos + (n : Int) } := by
  intro n
  induction n with
  | zero =>
    intro result random st
    simp [pathLoop]
  | succ n ih =>
    intro result random st
    rw [pathLoop]
    simp only [RNG.nextG]
    rw [ih]
    simp only [Nat.cast_add, Nat.cast_one]
    congr 1
    ring

theorem batch_random (S : Scalar T σ D) (interp2D : Interp2D T σ) (S0 : T)
    (spots times vols : List T) (maturity strike barrier : T) (firstPath lastPath : Int)
    (Nt : Nat) (epsilon : T) (random : RNG D) (st : σ) :
    (dupireBarrierMCBatch S interp2D S0 spots times vols maturity strike barrier firstPath
      lastPath Nt epsilon random st).1.2
      = { random with pos := firstPath + ((lastPath - firstPath).toNat : Int) } := by
  unfold dupireBarrierMCBatch
  simp only [pathLoop_random, RNG.skipTo]

theorem batch_skipTo (S : Scalar T σ D) (interp2D : Interp2D T σ) (S0 : T)
    (spots times vols : List T) (maturity strike barrier : T) (firstPath lastPath : Int)
    (Nt : Nat) (epsilon : T) (random : RNG D) (st : σ) :
    dupireBarrierMCBatch S interp2D S0 spots times vols maturity strike barrier firstPath
      lastPath Nt epsilon (random.skipTo firstPath) st
      = dupireBarrierMCBatch S interp2D S0 spots times vols maturity strike barrier firstPath
      lastPath Nt epsilon random st := rfl

end GenericKernelLemmas

section ValueLemmas

variable {D : Type} [Zero D] [One D] [OfNat D 2] [Neg D] [OfScientific D] [NatCast D] [IntCast D]
  [Add D] [Sub D] [Mul D] [Div D] [LT D] [DecidableRel (fun (a b : D) => a < b)]

@[simp] theorem numberScalar_ofDouble (F : DoubleFns D) :
    (numberScalar F).ofDouble = Number.ofDouble := rfl

@[simp] theorem numberScalar_add (F : DoubleFns D) : (numberScalar F).add = Number.add := rfl

@[simp] theorem numberScalar_sub (F : DoubleFns D) : (numberScalar F).sub = Number.sub := rfl

@[simp] theorem numberScalar_mul (F : DoubleFns D) : (numberScalar F).mul = Number.mul := rfl

@[simp] theorem numberScalar_div (F : DoubleFns D) : (numberScalar F).div = Number.div := rfl

@[simp] theorem numberScalar_addAssign (F : DoubleFns D) :
    (numberScalar F).addAssign = Number.addAssign := rfl

@[simp] theorem numberScalar_mulAssign (F : DoubleFns D) :
    (numberScalar F).mulAssign = Number.mulAssign := rfl

@[simp] theorem numberScalar_exp (F : DoubleFns D) : (numberScalar F).exp = Number.exp F := rfl

@[simp] theorem numberScalar_sqrt (F : DoubleFns D) : (numberScalar F).sqrt = Number.sqrt F := rfl

@[simp] theorem numberScalar_gt (F : DoubleFns D) (a b : Number D) :
    (numberScalar F).gt a b = decide (b.value < a.value) := rfl

@[simp] theorem numberScalar_lt (F : DoubleFns D) (a b : Number D) :
    (numberScalar F).lt a b = decide (a.value < b.value) := rfl

theorem simulateStep_value (F : DoubleFns D) (interpN : Interp2D (Number D) (Tape D))
    (interpD : Interp2D D Unit) (nspots ntimes nvols : List (Number D))
    (hval : ∀ spot time tape, (interpN nspots ntimes nvols spot time tape).1.value
      = (interpD (nspots.map Number.value) (ntimes.map Number.value)
          (nvols.map Number.value) spot.value time.value ()).1)
    (dt sdt : Number D) (g : D) (spot time : Number D) (tape : Tape D) :
    (simulateStep (numberScalar F) interpN nspots ntimes nvols dt sdt g spot time tape).1.1.value
      = (simulateStep (doubleScalar F) interpD (nspots.map Number.value)
          (ntimes.map Number.value) (nvols.map Number.value) dt.value sdt.value g spot.value
          time.value ()).1.1 ∧
    (simulateStep (numberScalar F) interpN nspots ntimes nvols dt sdt g spot time tape).1.2.value
      = (simulateStep (doubleScalar F) interpD (nspots.map Number.value)
          (ntimes.map Number.value) (nvols.map Number.value) dt.value sdt.value g spot.value
          time.value ()).1.2 := by
  have h := hval spot time tape
  unfold simulateStep
  cases hN : interpN nspots ntimes nvols spot time tape with
  | mk vol st =>
    cases hD : interpD (nspots.map Number.value) (ntimes.map Number.value)
        (nvols.map Number.value) spot.value time.value () with
    | mk v u =>
      rw [hN, hD] at h
      simp only at h
      subst h
      exact ⟨rfl, rfl⟩

theorem monitor_value (F : DoubleFns D) (barrier epsilon spot notionalAlive : Number D)
    (tape : Tape D) :
    (monitor (numberScalar F) barrier epsilon spot notionalAlive tape).1.1.value
      = (monitor (doubleScalar F) barrier.value epsilon.value spot.value notionalAlive.value
          ()).1.1 ∧
    (monitor (numberScalar F) barrier epsilon spot notionalAlive tape).1.2
      = (monitor (doubleScalar F) barrier.value epsilon.value spot.value notionalAlive.value
          ()).1.2 := by
  unfold monitor
  simp only [numberScalar_add, numberScalar_gt, numberScalar_ofDouble, numberScalar_sub,
    numberScalar_lt, numberScalar_mul, numberScalar_div, numberScalar_mulAssign,
    doubleScalar_add, doubleScalar_gt, doubleScalar_ofDouble, doubleScalar_sub,
    doubleScalar_lt, doubleScalar_mul, doubleScalar_div, doubleScalar_mulAssign]
  have e1 : (Number.add barrier epsilon tape).1.value = barrier.value + epsilon.value := rfl
  by_cases h1 : barrier.value + epsilon.value < spot.value
  · simp only [e1, h1, decide_True, if_true]
    exact ⟨rfl, trivial⟩
  · simp only [e1, h1, decide_False, Bool.false_eq_true, if_false]
    have e2 : ∀ t, (Number.sub barrier epsilon t).1.value = barrier.value - epsilon.value :=
      fun _ => rfl
    by_cases h2 : spot.value < barrier.value - epsilon.value
    · simp only [e2, h2, decide_True, if_true]
      exact ⟨trivial, trivial⟩
    · simp only [e2, h2, decide_False, Bool.false_eq_true, if_false]
      exact ⟨rfl, trivial⟩

theorem stepLoop_value (F : DoubleFns D) (interpN : Interp2D (Number D) (Tape D))
    (interpD : Interp2D D Unit) (nspots ntimes nvols : List (Number D))
    (hval : ∀ spot time tape, (interpN nspots ntimes nvols spot time tape).1.value
      = (interpD (nspots.map Number.value) (ntimes.map Number.value)
          (nvols.map Number.value) spot.value time.value ()).1)
    (barrier epsilon dt sdt : Number D) :
    ∀ (gs : List D) (spot time notionalAlive : Number D) (tape : Tape D),
      (stepLoop (numberScalar F) interpN nspots ntimes nvols barrier epsilon dt sdt gs spot
          time notionalAlive tape).1.1.value
        = (stepLoop (doubleScalar F) interpD (nspots.map Number.value)
            (ntimes.map Number.value) (nvols.map Number.value) barrier.value epsilon.value
            dt.value sdt.value gs spot.value time.value notionalAlive.value ()).1.1 ∧
      (stepLoop (numberScalar F) interpN nspots ntimes nvols barrier epsilon dt sdt gs spot
          time notionalAlive tape).1.2.1.value
        = (stepLoop (doubleScalar F) interpD (nspots.map Number.value)
            (ntimes.map Number.value) (nvols.map Number.value) barrier.value epsilon.value
            dt.value sdt.value gs spot.value time.value notionalAlive.value ()).1.2.1 ∧
      (stepLoop (numberScalar F) interpN nspots ntimes nvols barrier epsilon dt sdt gs spot
          time notionalAlive tape).1.2.2.value
        = (stepLoop (doubleScalar F) interpD (nspots.map Number.value)
            (ntimes.map Number.value) (nvols.map Number.value) barrier.value epsilon.value
            dt.value sdt.value gs spot.value time.value notionalAlive.value ()).1.2.2 := by
  intro gs
  induction gs with
  | nil =>
    intro spot time notionalAlive tape
    exact ⟨rfl, rfl, rfl⟩
  | cons g gs ih =>
    intro spot time notionalAlive tape
    obtain ⟨hs1, hs2⟩ := simulateStep_value F interpN interpD nspots ntimes nvols hval dt sdt g
      spot time tape
    rw [stepLoop, stepLoop]
    simp only
    generalize simulateStep (numberScalar F) interpN nspots ntimes nvols dt sdt g spot time
      tape = sN at hs1 hs2 ⊢
    generalize simulateStep (doubleScalar F) interpD (nspots.map Number.value)
      (ntimes.map Number.value) (nvols.map Number.value) dt.value sdt.value g spot.value
      time.value () = sD at hs1 hs2 ⊢
    obtain ⟨⟨spotN, timeN⟩, tapeN⟩ := sN
    obtain ⟨⟨spotD, timeD⟩, u⟩ := sD
    cases u
    simp only at hs1 hs2 ⊢
    subst hs1 hs2
    obtain ⟨hm1, hm2⟩ := monitor_value F barrier epsilon spotN notionalAlive tapeN
    generalize monitor (numberScalar F) barrier epsilon spotN notionalAlive tapeN = mN
      at hm1 hm2 ⊢
    generalize monitor (doubleScalar F) barrier.value epsilon.value spotN.value
      notionalAlive.value () = mD at hm1 hm2 ⊢
    obtain ⟨⟨naN, stopN⟩, tapeM⟩ := mN
    obtain ⟨⟨naD, stopD⟩, u⟩ := mD
    cases u
    simp only at hm1 hm2 ⊢
    subst hm1 hm2
    cases stopN with
    | true => exact ⟨rfl, rfl, rfl⟩
    | false => exact ih spotN timeN naN tapeM

theorem simulatePath_value (F : DoubleFns D) (interpN : Interp2D (Number D) (Tape D))
    (interpD : Interp2D D Unit) (nspots ntimes nvols : List (Number D))
    (hval : ∀ spot time tape, (interpN nspots ntimes nvols spot time tape).1.value
      = (interpD (nspots.map Number.value) (ntimes.map Number.value)
          (nvols.map Number.value) spot.value time.value ()).1)
    (S0 strike barrier epsilon dt sdt : Number D) (gs : List D) (result : Number D)
    (tape : Tape D) :
    (simulatePath (numberScalar F) interpN S0 nspots ntimes nvols strike barrier epsilon dt sdt
        gs result tape).1.value
      = (simulatePath (doubleScalar F) interpD S0.value (nspots.map Number.value)
          (ntimes.map Number.value) (nvols.map Number.value) strike.value barrier.value
          epsilon.value dt.value sdt.value gs result.value ()).1 := by
  unfold simulatePath
  simp only [numberScalar_ofDouble, doubleScalar_ofDouble]
  obtain ⟨h1, _, h3⟩ := stepLoop_value F interpN interpD nspots ntimes nvols hval barrier
    epsilon dt sdt gs S0 (Number.ofDouble 0 tape).1
    (Number.ofDouble 1 (Number.ofDouble 0 tape).2).1
    (Number.ofDouble 1 (Number.ofDouble 0 tape).2).2
  have e0 : (Number.ofDouble (0 : D) tape).1.value = 0 := rfl
  have e1 : (Number.ofDouble (1 : D) (Number.ofDouble 0 tape).2).1.value = 1 := rfl
  rw [e0, e1] at h1 h3
  generalize stepLoop (numberScalar F) interpN nspots ntimes nvols barrier epsilon dt sdt gs S0
      (Number.ofDouble 0 tape).1 (Number.ofDouble 1 (Number.ofDouble 0 tape).2).1
      (Number.ofDouble 1 (Number.ofDouble 0 tape).2).2 = outN at h1 h3 ⊢
  generalize stepLoop (doubleScalar F) interpD (nspots.map Number.value)
      (ntimes.map Number.value) (nvols.map Number.value) barrier.value epsilon.value
      dt.value sdt.value gs S0.value 0 1 () = outD at h1 h3 ⊢
  obtain ⟨⟨spotN, timeN, naN⟩, tapeN⟩ := outN
  obtain ⟨⟨spotD, timeD, naD⟩, u⟩ := outD
  cases u
  simp only at h1 h3 ⊢
  subst h1 h3
  simp only [numberScalar_gt, doubleScalar_gt, numberScalar_sub, numberScalar_mul,
    numberScalar_addAssign, doubleScalar_sub, doubleScalar_mul, doubleScalar_addAssign]
  split_ifs <;> rfl

end ValueLemmas

section ValueLemmas2

variable {D : Type} [Zero D] [One D] [OfNat D 2] [Neg D] [OfScientific D] [NatCast D] [IntCast D]
  [Add D] [Sub D] [Mul D] [Div D] [LT D] [DecidableRel (fun (a b : D) => a < b)]

theorem pathLoop_value (F : DoubleFns D) (interpN : Interp2D (Number D) (Tape D))
    (interpD : Interp2D D Unit) (hval : InterpValue interpN interpD)
    (S0 : Number D) (nspots ntimes nvols : List (Number D))
    (strike barrier epsilon dt sdt : Number D) (Nt : Nat) :
    ∀ (n : Nat) (result : Number D) (random : RNG D) (tape : Tape D),
      (pathLoop (numberScalar F) interpN S0 nspots ntimes nvols strike barrier epsilon dt sdt
          Nt n result random tape).1.1.value
        = (pathLoop (doubleScalar F) interpD S0.value (nspots.map Number.value)
            (ntimes.map Number.value) (nvols.map Number.value) strike.value barrier.value
            epsilon.value dt.value sdt.value Nt n result.value random ()).1.1 := by
  intro n
  induction n with
  | zero =>
    intro result random tape
    rfl
  | succ n ih =>
    intro result random tape
    rw [pathLoop, pathLoop]
    simp only [RNG.nextG]
    rw [ih, simulatePath_value F interpN interpD nspots ntimes nvols
      (fun spot time tape => hval nspots ntimes nvols spot time tape)]

theorem batch_value (F : DoubleFns D) (interpN : Interp2D (Number D) (Tape D))
    (interpD : Interp2D D Unit) (hval : InterpValue interpN interpD)
    (S0 : Number D) (nspots ntimes nvols : List (Number D))
    (maturity strike barrier : Number D) (firstPath lastPath : Int) (Nt : Nat)
    (epsilon : Number D) (random : RNG D) (tape : Tape D) :
    (batchValue (dupireBarrierMCBatch (numberScalar F) interpN S0 nspots ntimes nvols maturity
        strike barrier firstPath lastPath Nt epsilon random tape)).value
      = batchValue (dupireBarrierMCBatch (doubleScalar F) interpD S0.value
          (nspots.map Number.value) (ntimes.map Number.value) (nvols.map Number.value)
          maturity.value strike.value barrier.value firstPath lastPath Nt epsilon.value
          random ()) := by
  unfold dupireBarrierMCBatch batchValue
  simp only [numberScalar_ofDouble, numberScalar_div, numberScalar_sqrt, doubleScalar_ofDouble,
    doubleScalar_div, doubleScalar_sqrt]
  show (pathLoop (numberScalar F) interpN S0 nspots ntimes nvols strike barrier epsilon _ _
      Nt _ _ _ _).1.1.value / _ = _
  rw [pathLoop_value F interpN interpD hval]
  rfl

end ValueLemmas2

section TapeLemmas

variable {D : Type} [Zero D] [One D] [OfNat D 2] [Neg D] [OfScientific D] [NatCast D] [IntCast D]
  [Add D] [Sub D] [Mul D] [Div D] [LT D] [DecidableRel (fun (a b : D) => a < b)]

theorem pointInto_cons (tape : Tape D) (v : Number D) (vs : List (Number D)) :
    PointInto tape (v :: vs) ↔ v.idx < tape.length ∧ PointInto tape vs := by
  simp [PointInto]

theorem pointInto_mono (tape tape' : Tape D) (vs : List (Number D)) (h : PointInto tape vs)
    (hle : tape.length ≤ tape'.length) : PointInto tape' vs :=
  fun v hv => lt_of_lt_of_le (h v hv) hle

theorem appends_wf (tape : Tape D) (args : List (Number D)) (out : Number D × Tape D)
    (hwf : WellFormed tape) (hargs : PointInto tape args) (h : Appends tape args out) :
    WellFormed out.2 := by
  obtain ⟨node, h2, _, hnode⟩ := h
  rw [h2]
  exact wellFormed_append tape node hwf (hnode hargs)

theorem addAssign_eq (a b : Number D) (t : Tape D) :
    Number.addAssign a b t = Number.add a b t := rfl

theorem mulAssign_eq (a b : Number D) (t : Tape D) :
    Number.mulAssign a b t = Number.mul a b t := rfl

theorem ofDouble_length (x : D) (t : Tape D) : (Number.ofDouble x t).2.length = t.length + 1 := by
  simp [Number.ofDouble]

theorem ofDouble_idx (x : D) (t : Tape D) : (Number.ofDouble x t).1.idx = t.length := rfl

theorem ofDouble_wf (x : D) (t : Tape D) (hwf : WellFormed t) :
    WellFormed (Number.ofDouble x t).2 :=
  appends_wf t [] _ hwf (fun _ h => absurd h (List.not_mem_nil _)) (ofDouble_appends x t)

theorem binOp_length (op : BinOp) (a b : Number D) (t : Tape D) :
    (op.run a b t).2.length = t.length + 1 := by
  obtain ⟨node, h2, _, _⟩ := binOp_appends op a b t
  rw [h2]
  simp

theorem binOp_idx (op : BinOp) (a b : Number D) (t : Tape D) :
    (op.run a b t).1.idx = t.length :=
  (binOp_appends op a b t).choose_spec.2.1

theorem binOp_wf (op : BinOp) (a b : Number D) (t : Tape D) (hwf : WellFormed t)
    (ha : a.idx < t.length) (hb : b.idx < t.length) : WellFormed (op.run a b t).2 := by
  refine appends_wf t [a, b] _ hwf ?_ (binOp_appends op a b t)
  intro v hv
  simp only [List.mem_cons, List.mem_singleton, List.not_mem_nil, or_false] at hv
  rcases hv with hv | hv <;> subst hv <;> assumption

theorem unFn_length (F : DoubleFns D) (f : UnFn) (a : Number D) (t : Tape D) :
    (f.run F a t).2.length = t.length + 1 := by
  obtain ⟨node, h2, _, _⟩ := unFn_appends F f a t
  rw [h2]
  simp

theorem unFn_idx (F : DoubleFns D) (f : UnFn) (a : Number D) (t : Tape D) :
    (f.run F a t).1.idx = t.length :=
  (unFn_appends F f a t).choose_spec.2.1

theorem unFn_wf (F : DoubleFns D) (f : UnFn) (a : Number D) (t : Tape D) (hwf : WellFormed t)
    (ha : a.idx < t.length) : WellFormed (f.run F a t).2 := by
  refine appends_wf t [a] _ hwf ?_ (unFn_appends F f a t)
  intro v hv
  simp only [List.mem_singleton] at hv
  subst hv
  assumption

theorem add_length (a b : Number D) (t : Tape D) : (Number.add a b t).2.length = t.length + 1 :=
  binOp_length BinOp.add a b t

theorem sub_length (a b : Number D) (t : Tape D) : (Number.sub a b t).2.length = t.length + 1 :=
  binOp_length BinOp.sub a b t

theorem mul_length (a b : Number D) (t : Tape D) : (Number.mul a b t).2.length = t.length + 1 :=
  binOp_length BinOp.mul a b t

theorem div_length (a b : Number D) (t : Tape D) : (Number.div a b t).2.length = t.length + 1 :=
  binOp_length BinOp.div a b t

theorem exp_length (F : DoubleFns D) (a : Number D) (t : Tape D) :
    (Number.exp F a t).2.length = t.length + 1 :=
  unFn_length F UnFn.exp a t

theorem sqrt_length (F : DoubleFns D) (a : Number D) (t : Tape D) :
    (Number.sqrt F a t).2.length = t.length + 1 :=
  unFn_length F UnFn.sqrt a t

theorem add_idx (a b : Number D) (t : Tape D) : (Number.add a b t).1.idx = t.length := rfl

theorem sub_idx (a b : Number D) (t : Tape D) : (Number.sub a b t).1.idx = t.length := rfl

theorem mul_idx (a b : Number D) (t : Tape D) : (Number.mul a b t).1.idx = t.length := rfl

theorem div_idx (a b : Number D) (t : Tape D) : (Number.div a b t).1.idx = t.length := rfl

theorem exp_idx (F : DoubleFns D) (a : Number D) (t : Tape D) :
    (Number.exp F a t).1.idx = t.length := rfl

theorem sqrt_idx (F : DoubleFns D) (a : Number D) (t : Tape D) :
    (Number.sqrt F a t).1.idx = t.length := rfl

theorem add_wf (a b : Number D) (t : Tape D) (hwf : WellFormed t)
    (ha : a.idx < t.length) (hb : b.idx < t.length) : WellFormed (Number.add a b t).2 :=
  binOp_wf BinOp.add a b t hwf ha hb

theorem sub_wf (a b : Number D) (t : Tape D) (hwf : WellFormed t)
    (ha : a.idx < t.length) (hb : b.idx < t.length) : WellFormed (Number.sub a b t).2 :=
  binOp_wf BinOp.sub a b t hwf ha hb

theorem mul_wf (a b : Number D) (t : Tape D) (hwf : WellFormed t)
    (ha : a.idx < t.length) (hb : b.idx < t.length) : WellFormed (Number.mul a b t).2 :=
  binOp_wf BinOp.mul a b t hwf ha hb

theorem div_wf (a b : Number D) (t : Tape D) (hwf : WellFormed t)
    (ha : a.idx < t.length) (hb : b.idx < t.length) : WellFormed (Number.div a b t).2 :=
  binOp_wf BinOp.div a b t hwf ha hb

theorem exp_wf (F : DoubleFns D) (a : Number D) (t : Tape D) (hwf : WellFormed t)
    (ha : a.idx < t.length) : WellFormed (Number.exp F a t).2 :=
  unFn_wf F UnFn.exp a t hwf ha

theorem sqrt_wf (F : DoubleFns D) (a : Number D) (t : Tape D) (hwf : WellFormed t)
    (ha : a.idx < t.length) : WellFormed (Number.sqrt F a t).2 :=
  unFn_wf F UnFn.sqrt a t hwf ha

end TapeLemmas

section KeepLemmas

variable {D : Type} [Zero D] [One D] [OfNat D 2] [Neg D] [OfScientific D] [NatCast D] [IntCast D]
  [Add D] [Sub D] [Mul D] [Div D] [LT D] [DecidableRel (fun (a b : D) => a < b)]

theorem simulateStep_keeps (F : DoubleFns D) (interp2D : Interp2D (Number D) (Tape D))
    (hrec : InterpRecords interp2D) (nspots ntimes nvols : List (Number D))
    (dt sdt : Number D) (g : D) (spot time : Number D) (tape : Tape D)
    (hwf : WellFormed tape) (hps : PointInto tape (nspots ++ ntimes ++ nvols))
    (hdt : dt.idx < tape.length) (hsdt : sdt.idx < tape.length)
    (hspot : spot.idx < tape.length) (htime : time.idx < tape.length) :
    WellFormed (simulateStep (numberScalar F) interp2D nspots ntimes nvols dt sdt g spot time
        tape).2 ∧
      tape.length ≤ (simulateStep (numberScalar F) interp2D nspots ntimes nvols dt sdt g spot
        time tape).2.length ∧
      (simulateStep (numberScalar F) interp2D nspots ntimes nvols dt sdt g spot time
        tape).1.1.idx < (simulateStep (numberScalar F) interp2D nspots ntimes nvols dt sdt g
        spot time tape).2.length ∧
      (simulateStep (numberScalar F) interp2D nspots ntimes nvols dt sdt g spot time
        tape).1.2.idx < (simulateStep (numberScalar F) interp2D nspots ntimes nvols dt sdt g
        spot time tape).2.length := by
  have hI := hrec nspots ntimes nvols spot time tape hwf
    ((pointInto_cons _ _ _).2 ⟨hspot, (pointInto_cons _ _ _).2 ⟨htime, hps⟩⟩)
  unfold simulateStep
  simp only [numberScalar_ofDouble, numberScalar_mul, numberScalar_add, numberScalar_exp,
    numberScalar_mulAssign, numberScalar_addAssign, addAssign_eq, mulAssign_eq]
  generalize interp2D nspots ntimes nvols spot time tape = oI at hI ⊢
  obtain ⟨vol, tI⟩ := oI
  obtain ⟨hwfI, hleI, hvol⟩ := hI
  simp only at hwfI hleI hvol ⊢
  refine ⟨?_, ?_, ?_, ?_⟩
  · repeat' first
      | apply add_wf
      | apply mul_wf
      | apply exp_wf
      | apply ofDouble_wf
    all_goals first
      | assumption
      | (simp only [add_length, mul_length, exp_length, ofDouble_length, add_idx, mul_idx,
          exp_idx, ofDouble_idx]; omega)
  all_goals
    simp only [add_length, mul_length, exp_length, ofDouble_length, add_idx, mul_idx,
      exp_idx, ofDouble_idx]
    omega

theorem monitor_keeps (F : DoubleFns D) (barrier epsilon spot notionalAlive : Number D)
    (tape : Tape D) (hwf : WellFormed tape) (hb : barrier.idx < tape.length)
    (he : epsilon.idx < tape.length) (hspot : spot.idx < tape.length)
    (hna : notionalAlive.idx < tape.length) (out : (Number D × Bool) × Tape D)
    (hout : monitor (numberScalar F) barrier epsilon spot notionalAlive tape = out) :
    WellFormed out.2 ∧ tape.length ≤ out.2.length ∧ out.1.1.idx < out.2.length := by
  subst hout
  unfold monitor
  simp only [numberScalar_ofDouble, numberScalar_mul, numberScalar_add, numberScalar_sub,
    numberScalar_div, numberScalar_mulAssign, mulAssign_eq]
  split_ifs
  all_goals
    refine ⟨?_, ?_, ?_⟩
    · repeat' first
        | apply add_wf
        | apply sub_wf
        | apply mul_wf
        | apply div_wf
        | apply ofDouble_wf
      all_goals first
        | assumption
        | exact 0
        | (simp only [add_length, sub_length, mul_length, div_length, ofDouble_length, add_idx,
            sub_idx, mul_idx, div_idx, ofDouble_idx]; omega)
    all_goals
      simp only [add_length, sub_length, mul_length, div_length, ofDouble_length, add_idx,
        sub_idx, mul_idx, div_idx, ofDouble_idx]
      omega

theorem stepLoop_keeps (F : DoubleFns D) (interp2D : Interp2D (Number D) (Tape D))
    (hrec : InterpRecords interp2D) (nspots ntimes nvols : List (Number D))
    (barrier epsilon dt sdt : Number D) :
    ∀ (gs : List D) (spot time notionalAlive : Number D) (tape : Tape D),
      WellFormed tape → PointInto tape (nspots ++ ntimes ++ nvols) →
      PointInto tape [barrier, epsilon, dt, sdt, spot, time, notionalAlive] →
      ∀ out, stepLoop (numberScalar F) interp2D nspots ntimes nvols barrier epsilon dt sdt gs
          spot time notionalAlive tape = out →
        WellFormed out.2 ∧ tape.length ≤ out.2.length ∧
          PointInto out.2 [out.1.1, out.1.2.1, out.1.2.2] := by
  intro gs
  induction gs with
  | nil =>
    intro spot time notionalAlive tape hwf _ hvs out hout
    subst hout
    simp only [PointInto, List.mem_cons, List.mem_singleton, List.not_mem_nil, or_false,
      forall_eq_or_imp, forall_eq] at hvs
    refine ⟨hwf, le_refl _, ?_⟩
    simp only [stepLoop, PointInto, List.mem_cons, List.mem_singleton, List.not_mem_nil,
      or_false, forall_eq_or_imp, forall_eq]
    exact ⟨hvs.2.2.2.2.1, hvs.2.2.2.2.2.1, hvs.2.2.2.2.2.2⟩
  | cons g gs ih =>
    intro spot time notionalAlive tape hwf hps hvs out hout
    subst hout
    simp only [PointInto, List.mem_cons, List.mem_singleton, List.not_mem_nil, or_false,
      forall_eq_or_imp, forall_eq] at hvs
    obtain ⟨hb, he, hdt, hsdt, hspot, htime, hna⟩ := hvs
    have hS := simulateStep_keeps F interp2D hrec nspots ntimes nvols dt sdt g spot time tape
      hwf hps hdt hsdt hspot htime
    rw [stepLoop]
    simp only
    generalize simulateStep (numberScalar F) interp2D nspots ntimes nvols dt sdt g spot time
      tape = oS at hS ⊢
    obtain ⟨⟨spot1, time1⟩, tape1⟩ := oS
    obtain ⟨hwf1, hle1, hspot1, htime1⟩ := hS
    simp only at hwf1 hle1 hspot1 htime1 ⊢
    have hM := monitor_keeps F barrier epsilon spot1 notionalAlive tape1 hwf1 (by omega)
      (by omega) hspot1 (by omega) _ rfl
    generalize monitor (numberScalar F) barrier epsilon spot1 notionalAlive tape1 = oM at hM ⊢
    obtain ⟨⟨na2, stop⟩, tape2⟩ := oM
    obtain ⟨hwf2, hle2, hna2⟩ := hM
    simp only at hwf2 hle2 hna2 ⊢
    cases stop with
    | true =>
      simp only [if_true]
      refine ⟨hwf2, by omega, ?_⟩
      simp only [PointInto, List.mem_cons, List.mem_singleton, List.not_mem_nil,
        or_false, forall_eq_or_imp, forall_eq]
      exact ⟨by omega, by omega, hna2⟩
    | false =>
      have hps2 : PointInto tape2 (nspots ++ ntimes ++ nvols) :=
        pointInto_mono tape tape2 _ hps (by omega)
      have hvs2 : PointInto tape2 [barrier, epsilon, dt, sdt, spot1, time1, na2] := by
        simp only [PointInto, List.mem_cons, List.mem_singleton, List.not_mem_nil, or_false,
          forall_eq_or_imp, forall_eq]
        exact ⟨by omega, by omega, by omega, by omega, by omega, by omega, hna2⟩
      obtain ⟨h1, h2, h3⟩ := ih spot1 time1 na2 tape2 hwf2 hps2 hvs2 _ rfl
      simp only [Bool.false_eq_true, if_false]
      exact ⟨h1, by omega, h3⟩

theorem simulatePath_keeps (F : DoubleFns D) (interp2D : Interp2D (Number D) (Tape D))
    (hrec : InterpRecords interp2D) (S0 : Number D) (nspots ntimes nvols : List (Number D))
    (strike barrier epsilon dt sdt : Number D) (gs : List D) (result : Number D)
    (tape : Tape D) (hwf : WellFormed tape)
    (hps : PointInto tape (nspots ++ ntimes ++ nvols))
    (hvs : PointInto tape [S0, strike, barrier, epsilon, dt, sdt, result])
    (out : Number D × Tape D)
    (hout : simulatePath (numberScalar F) interp2D S0 nspots ntimes nvols strike barrier epsilon
      dt sdt gs result tape = out) :
    Keeps tape out := by
  subst hout
  simp only [PointInto, List.mem_cons, List.mem_singleton, List.not_mem_nil, or_false,
    forall_eq_or_imp, forall_eq] at hvs
  obtain ⟨hS0, hstrike, hb, he, hdt, hsdt, hres⟩ := hvs
  have hwf2 : WellFormed (Number.ofDouble (1 : D) (Number.ofDouble 0 tape).2).2 :=
    ofDouble_wf _ _ (ofDouble_wf _ _ hwf)
  have hlen2 : (Number.ofDouble (1 : D) (Number.ofDouble 0 tape).2).2.length
      = tape.length + 2 := by
    simp only [ofDouble_length]
  have hL := stepLoop_keeps F interp2D hrec nspots ntimes nvols barrier epsilon dt sdt gs S0
    (Number.ofDouble 0 tape).1 (Number.ofDouble 1 (Number.ofDouble 0 tape).2).1
    (Number.ofDouble 1 (Number.ofDouble 0 tape).2).2 hwf2
    (pointInto_mono tape _ _ hps (by omega))
    (by
      simp only [PointInto, List.mem_cons, List.mem_singleton, List.not_mem_nil, or_false,
        forall_eq_or_imp, forall_eq, ofDouble_idx, ofDouble_length]
      exact ⟨by omega, by omega, by omega, by omega, by omega, by omega, by omega⟩) _ rfl
  unfold simulatePath
  simp only [numberScalar_ofDouble, numberScalar_sub, numberScalar_mul, numberScalar_addAssign,
    addAssign_eq]
  generalize stepLoop (numberScalar F) interp2D nspots ntimes nvols barrier epsilon dt sdt gs S0
    (Number.ofDouble 0 tape).1 (Number.ofDouble 1 (Number.ofDouble 0 tape).2).1
    (Number.ofDouble 1 (Number.ofDouble 0 tape).2).2 = oL at hL ⊢
  obtain ⟨⟨spot1, time1, na1⟩, tape1⟩ := oL
  obtain ⟨hwf1, hle1, hvs1⟩ := hL
  simp only [PointInto, List.mem_cons, List.mem_singleton, List.not_mem_nil, or_false,
    forall_eq_or_imp, forall_eq] at hwf1 hle1 hvs1 ⊢
  obtain ⟨hspot1, htime1, hna1⟩ := hvs1
  unfold Keeps
  split_ifs
  · refine ⟨?_, ?_, ?_⟩
    · repeat' first
        | apply add_wf
        | apply sub_wf
        | apply mul_wf
      all_goals first
        | assumption
        | omega
        | (simp only [add_length, sub_length, mul_length, add_idx, sub_idx, mul_idx]; omega)
    all_goals
      simp only [add_length, sub_length, mul_length, add_idx, sub_idx, mul_idx]
      omega
  · refine ⟨hwf1, ?_, ?_⟩
    all_goals
      simp only
      omega

theorem pathLoop_keeps (F : DoubleFns D) (interp2D : Interp2D (Number D) (Tape D))
    (hrec : InterpRecords interp2D) (S0 : Number D) (nspots ntimes nvols : List (Number D))
    (strike barrier epsilon dt sdt : Number D) (Nt : Nat) :
    ∀ (n : Nat) (result : Number D) (random : RNG D) (tape : Tape D),
      WellFormed tape → PointInto tape (nspots ++ ntimes ++ nvols) →
      PointInto tape [S0, strike, barrier, epsilon, dt, sdt, result] →
      ∀ out, pathLoop (numberScalar F) interp2D S0 nspots ntimes nvols strike barrier epsilon dt
          sdt Nt n result random tape = out →
        Keeps tape (out.1.1, out.2) := by
  intro n
  induction n with
  | zero =>
    intro result random tape hwf _ hvs out hout
    subst hout
    exact ⟨hwf, le_refl _, hvs result (by simp)⟩
  | succ n ih =>
    intro result random tape hwf hps hvs out hout
    subst hout
    have hP := simulatePath_keeps F interp2D hrec S0 nspots ntimes nvols strike barrier epsilon
      dt sdt (random.nextG Nt).1 result tape hwf hps hvs _ rfl
    rw [pathLoop]
    simp only
    generalize simulatePath (numberScalar F) interp2D S0 nspots ntimes nvols strike barrier
      epsilon dt sdt (random.nextG Nt).1 result tape = oP at hP ⊢
    obtain ⟨result1, tape1⟩ := oP
    obtain ⟨hwf1, hle1, hres1⟩ := hP
    simp only at hwf1 hle1 hres1 ⊢
    simp only [PointInto, List.mem_cons, List.mem_singleton, List.not_mem_nil, or_false,
      forall_eq_or_imp, forall_eq] at hvs
    obtain ⟨hS0, hstrike, hb, he, hdt, hsdt, hres⟩ := hvs
    obtain ⟨h1, h2, h3⟩ := ih result1 (random.nextG Nt).2 tape1 hwf1
      (pointInto_mono tape tape1 _ hps hle1)
      (by
        simp only [PointInto, List.mem_cons, List.mem_singleton, List.not_mem_nil, or_false,
          forall_eq_or_imp, forall_eq]
        exact ⟨by omega, by omega, by omega, by omega, by omega, by omega, hres1⟩) _ rfl
    exact ⟨h1, le_trans hle1 h2, h3⟩

theorem batch_keeps (F : DoubleFns D) (interp2D : Interp2D (Number D) (Tape D))
    (hrec : InterpRecords interp2D) (S0 : Number D) (nspots ntimes nvols : List (Number D))
    (maturity strike barrier : Number D) (firstPath lastPath : Int) (Nt : Nat)
    (epsilon : Number D) (random : RNG D) (tape : Tape D) (hwf : WellFormed tape)
    (hps : PointInto tape (nspots ++ ntimes ++ nvols))
    (hvs : PointInto tape [S0, maturity, strike, barrier, epsilon])
    (out : (Number D × RNG D) × Tape D)
    (hout : dupireBarrierMCBatch (numberScalar F) interp2D S0 nspots ntimes nvols maturity strike
      barrier firstPath lastPath Nt epsilon random tape = out) :
    Keeps tape (out.1.1, out.2) := by
  subst hout
  simp only [PointInto, List.mem_cons, List.mem_singleton, List.not_mem_nil, or_false,
    forall_eq_or_imp, forall_eq] at hvs
  obtain ⟨hS0, hmat, hstrike, hb, he⟩ := hvs
  have hwf4 : WellFormed (Number.sqrt F
      (Number.div maturity (Number.ofDouble ((Nt : Nat) : D) (Number.ofDouble 0 tape).2).1
        (Number.ofDouble ((Nt : Nat) : D) (Number.ofDouble 0 tape).2).2).1
      (Number.div maturity (Number.ofDouble ((Nt : Nat) : D) (Number.ofDouble 0 tape).2).1
        (Number.ofDouble ((Nt : Nat) : D) (Number.ofDouble 0 tape).2).2).2).2 := by
    repeat' first
      | apply sqrt_wf
      | apply div_wf
      | apply ofDouble_wf
    all_goals first
      | assumption
      | exact 0
      | (simp only [sqrt_length, div_length, ofDouble_length, sqrt_idx, div_idx, ofDouble_idx]
         omega)
  have hL := pathLoop_keeps F interp2D hrec S0 nspots ntimes nvols strike barrier epsilon
    (Number.div maturity (Number.ofDouble ((Nt : Nat) : D) (Number.ofDouble 0 tape).2).1
        (Number.ofDouble ((Nt : Nat) : D) (Number.ofDouble 0 tape).2).2).1
    (Number.sqrt F
      (Number.div maturity (Number.ofDouble ((Nt : Nat) : D) (Number.ofDouble 0 tape).2).1
        (Number.ofDouble ((Nt : Nat) : D) (Number.ofDouble 0 tape).2).2).1
      (Number.div maturity (Number.ofDouble ((Nt : Nat) : D) (Number.ofDouble 0 tape).2).1
        (Number.ofDouble ((Nt : Nat) : D) (Number.ofDouble 0 tape).2).2).2).1
    Nt (lastPath - firstPath).toNat (Number.ofDouble 0 tape).1 (random.skipTo firstPath) _ hwf4
    (pointInto_mono tape _ _ hps (by
      simp only [sqrt_length, div_length, ofDouble_length]
      omega))
    (by
      simp only [PointInto, List.mem_cons, List.mem_singleton, List.not_mem_nil, or_false,
        forall_eq_or_imp, forall_eq, sqrt_length, div_length, ofDouble_length, sqrt_idx,
        div_idx, ofDouble_idx]
      exact ⟨by omega, by omega, by omega, by omega, by omega, by omega, by omega⟩) _ rfl
  have hlen4 : (Number.sqrt F
      (Number.div maturity (Number.ofDouble ((Nt : Nat) : D) (Number.ofDouble 0 tape).2).1
        (Number.ofDouble ((Nt : Nat) : D) (Number.ofDouble 0 tape).2).2).1
      (Number.div maturity (Number.ofDouble ((Nt : Nat) : D) (Number.ofDouble 0 tape).2).1
        (Number.ofDouble ((Nt : Nat) : D) (Number.ofDouble 0 tape).2).2).2).2.length
      = tape.length + 4 := by
    simp only [sqrt_length, div_length, ofDouble_length]
  unfold dupireBarrierMCBatch
  simp only [numberScalar_ofDouble, numberScalar_div, numberScalar_sqrt]
  generalize pathLoop (numberScalar F) interp2D S0 nspots ntimes nvols strike barrier epsilon
    _ _ Nt (lastPath - firstPath).toNat (Number.ofDouble 0 tape).1 (random.skipTo firstPath) _
    = oL at hL ⊢
  obtain ⟨⟨result1, random1⟩, tape1⟩ := oL
  obtain ⟨hwf1, hle1, hres1⟩ := hL
  simp only at hwf1 hle1 hres1 ⊢
  refine ⟨?_, ?_, ?_⟩
  · repeat' first
      | apply div_wf
      | apply ofDouble_wf
    all_goals first
      | assumption
      | exact 0
      | (simp only [div_length, ofDouble_length, div_idx, ofDouble_idx]; omega)
  all_goals
    simp only [div_length, ofDouble_length, div_idx, ofDouble_idx]
    omega

end KeepLemmas

section RecordBatchLemmas

variable {D : Type} [Zero D] [One D] [OfNat D 2] [Neg D] [OfScientific D] [NatCast D] [IntCast D]
  [Add D] [Sub D] [Mul D] [Div D] [LT D] [DecidableRel (fun (a b : D) => a < b)]

theorem copyToTape_spec : ∀ (xs : List D) (tape : Tape D), WellFormed tape →
    WellFormed (copyToTape xs tape).2 ∧
      (copyToTape xs tape).2.length = tape.length + xs.length ∧
      (copyToTape xs tape).1.length = xs.length ∧
      PointInto (copyToTape xs tape).2 (copyToTape xs tape).1 ∧
      (copyToTape xs tape).1.map Number.value = xs := by
  intro xs
  induction xs with
  | nil =>
    intro tape hwf
    exact ⟨hwf, rfl, rfl, fun _ h => absurd h (List.not_mem_nil _), rfl⟩
  | cons x xs ih =>
    intro tape hwf
    obtain ⟨h1, h2, h3, h4, h5⟩ := ih (Number.ofDouble x tape).2 (ofDouble_wf x tape hwf)
    rw [ofDouble_length] at h2
    simp only [copyToTape, List.length_cons, List.map_cons]
    refine ⟨h1, by omega, by omega, ?_, ?_⟩
    · intro v hv
      rcases List.mem_cons.1 hv with hv | hv
      · subst hv
        rw [ofDouble_idx]
        omega
      · exact h4 v hv
    · rw [h5]
      rfl

theorem recordBatch_spec (F : DoubleFns D) (interpN : Interp2D (Number D) (Tape D))
    (hrec : InterpRecords interpN) (S0 : D) (spots times vols : List D)
    (maturity strike barrier : D) (firstPath lastPath : Int) (Nt : Nat) (epsilon : D)
    (random : RNG D) :
    ∃ r, recordBatch F interpN S0 spots times vols maturity strike barrier firstPath lastPath Nt
        epsilon random = some r ∧
      r.nS0.idx < r.adjoints.length ∧
      (∀ vol ∈ r.nVols, vol.idx < r.adjoints.length) ∧
      r.nVols.length = vols.length ∧
      r.random = { random with pos := firstPath + ((lastPath - firstPath).toNat : Int) } ∧
      ∀ interpD : Interp2D D Unit, InterpValue interpN interpD →
        r.nBatchPrice.value = batchValue (dupireBarrierMCBatch (doubleScalar F) interpD S0
          spots times vols maturity strike barrier firstPath lastPath Nt epsilon random ()) := by
  have hwf5 : WellFormed (Number.ofDouble epsilon (Number.ofDouble barrier (Number.ofDouble
      strike (Number.ofDouble maturity (Number.ofDouble S0 ([] : Tape D)).2).2).2).2).2 := by
    repeat' apply ofDouble_wf
    exact wellFormed_nil
  have hlen5 : (Number.ofDouble epsilon (Number.ofDouble barrier (Number.ofDouble
      strike (Number.ofDouble maturity (Number.ofDouble S0 ([] : Tape D)).2).2).2).2).2.length
      = 5 := by
    simp only [ofDouble_length, List.length_nil]
  unfold recordBatch
  simp only
  generalize (Number.ofDouble epsilon (Number.ofDouble barrier (Number.ofDouble
      strike (Number.ofDouble maturity (Number.ofDouble S0 ([] : Tape D)).2).2).2).2).2 = t5
    at hwf5 hlen5 ⊢
  obtain ⟨hwf6, hlen6, hn6, hp6, hv6⟩ := copyToTape_spec spots t5 hwf5
  generalize copyToTape spots t5 = o6 at hwf6 hlen6 hn6 hp6 hv6 ⊢
  obtain ⟨nSpots, t6⟩ := o6
  simp only at hwf6 hlen6 hn6 hp6 hv6 ⊢
  obtain ⟨hwf7, hlen7, hn7, hp7, hv7⟩ := copyToTape_spec times t6 hwf6
  generalize copyToTape times t6 = o7 at hwf7 hlen7 hn7 hp7 hv7 ⊢
  obtain ⟨nTimes, t7⟩ := o7
  simp only at hwf7 hlen7 hn7 hp7 hv7 ⊢
  obtain ⟨hwf8, hlen8, hn8, hp8, hv8⟩ := copyToTape_spec vols t7 hwf7
  generalize copyToTape vols t7 = o8 at hwf8 hlen8 hn8 hp8 hv8 ⊢
  obtain ⟨nVols, t8⟩ := o8
  simp only at hwf8 hlen8 hn8 hp8 hv8 ⊢
  have hps : PointInto t8 (nSpots ++ nTimes ++ nVols) := by
    intro v hv
    simp only [List.mem_append] at hv
    rcases hv with (hv | hv) | hv
    · have := hp6 v hv
      omega
    · have := hp7 v hv
      omega
    · exact hp8 v hv
  have hvs : PointInto t8 [(Number.ofDouble S0 ([] : Tape D)).1,
      (Number.ofDouble maturity (Number.ofDouble S0 ([] : Tape D)).2).1,
      (Number.ofDouble strike (Number.ofDouble maturity (Number.ofDouble S0
        ([] : Tape D)).2).2).1,
      (Number.ofDouble barrier (Number.ofDouble strike (Number.ofDouble maturity
        (Number.ofDouble S0 ([] : Tape D)).2).2).2).1,
      (Number.ofDouble epsilon (Number.ofDouble barrier (Number.ofDouble strike
        (Number.ofDouble maturity (Number.ofDouble S0 ([] : Tape D)).2).2).2).2).1] := by
    simp only [PointInto, List.mem_cons, List.mem_singleton, List.not_mem_nil, or_false,
      forall_eq_or_imp, forall_eq, ofDouble_idx, ofDouble_length, List.length_nil]
    exact ⟨by omega, by omega, by omega, by omega, by omega⟩
  have hK := batch_keeps F interpN hrec _ nSpots nTimes nVols _ _ _ firstPath lastPath Nt _
    random t8 hwf8 hps hvs _ rfl
  have hV := fun interpD hval => batch_value F interpN interpD hval
    (Number.ofDouble S0 ([] : Tape D)).1
    nSpots nTimes nVols
    (Number.ofDouble maturity (Number.ofDouble S0 ([] : Tape D)).2).1
    (Number.ofDouble strike (Number.ofDouble maturity (Number.ofDouble S0
      ([] : Tape D)).2).2).1
    (Number.ofDouble barrier (Number.ofDouble strike (Number.ofDouble maturity
      (Number.ofDouble S0 ([] : Tape D)).2).2).2).1 firstPath lastPath Nt
    (Number.ofDouble epsilon (Number.ofDouble barrier (Number.ofDouble strike
      (Number.ofDouble maturity (Number.ofDouble S0 ([] : Tape D)).2).2).2).2).1 random t8
  have hR := batch_random (numberScalar F) interpN (Number.ofDouble S0 ([] : Tape D)).1
    nSpots nTimes nVols
    (Number.ofDouble maturity (Number.ofDouble S0 ([] : Tape D)).2).1
    (Number.ofDouble strike (Number.ofDouble maturity (Number.ofDouble S0
      ([] : Tape D)).2).2).1
    (Number.ofDouble barrier (Number.ofDouble strike (Number.ofDouble maturity
      (Number.ofDouble S0 ([] : Tape D)).2).2).2).1 firstPath lastPath Nt
    (Number.ofDouble epsilon (Number.ofDouble barrier (Number.ofDouble strike
      (Number.ofDouble maturity (Number.ofDouble S0 ([] : Tape D)).2).2).2).2).1 random t8
  simp only [hv6, hv7, hv8] at hV
  generalize dupireBarrierMCBatch (numberScalar F) interpN _ nSpots nTimes nVols _ _ _ firstPath
    lastPath Nt _ random t8 = oB at hK hV hR ⊢
  obtain ⟨⟨nBatchPrice, random1⟩, t9⟩ := oB
  obtain ⟨hwf9, hle9, hres9⟩ := hK
  simp only at hwf9 hle9 hres9 hV hR ⊢
  obtain ⟨a, ha, hlen⟩ := calculateAdjoints_returns t9 nBatchPrice hwf9 hres9
  rw [ha]
  refine ⟨_, rfl, ?_, ?_, hn8, hR, hV⟩
  · simp only [ofDouble_idx, List.length_nil]
    omega
  · intro vol hvol
    have := hp8 vol hvol
    simp only
    omega

end RecordBatchLemmas

section ListLemmas

variable {α β : Type}

theorem mapM_eq_some_map (f : α → Option β) (g : α → β) :
    ∀ (l : List α), (∀ x ∈ l, f x = some (g x)) → l.mapM f = some (l.map g) := by
  intro l
  induction l with
  | nil =>
    intro _
    rfl
  | cons x xs ih =>
    intro h
    rw [List.mapM_cons, h x (List.mem_cons_self x xs), ih fun y hy => h y (List.mem_cons_of_mem x hy)]
    rfl

theorem getElem?_eq_some_getD [Zero α] (l : List α) (i : Nat) (h : i < l.length) :
    l[i]? = some ((l[i]?).getD 0) := by
  rw [List.getElem?_eq_getElem h]
  rfl

theorem zipWith_range_map [Zero β] (n : Nat) (g : Nat → α) (ys : List β) (h : ys.length = n)
    (f : α → β → α) :
    List.zipWith f ((List.range n).map g) ys
      = (List.range n).map fun c => f (g c) ((ys[c]?).getD 0) := by
  apply List.ext_getElem
  · simp [h]
  · intro i h1 h2
    simp only [List.length_map, List.length_range] at h2
    simp [List.getElem?_eq_getElem (h.symm ▸ h2)]

theorem replicate_eq_range_map (n : Nat) (x : α) :
    List.replicate n x = (List.range n).map fun _ => x := by
  apply List.ext_getElem
  · simp
  · intro i h1 h2
    simp

theorem foldl_add_range [AddCommMonoid α] (f : Nat → α) (n : Nat) :
    ((List.range n).map f).foldl (fun sum x => sum + x) 0 = ∑ i in Finset.range n, f i := by
  induction n with
  | zero => rfl
  | succ n ih =>
    rw [List.range_succ, List.map_append, List.foldl_append, ih, Finset.sum_range_succ]
    rfl

theorem writeInto_full (buf ys : List α) (h : ys.length = buf.length) :
    writeInto buf ys = some ys := by
  unfold writeInto
  rw [if_pos (le_of_eq h), h, List.drop_length, List.append_nil]

theorem foldlM_cell [AddCommMonoid α] (cell : Nat) (slot : Nat → Risks α)
    (hlen : ∀ b, cell < (slot b).vegas.length) (n : Nat) :
    ((List.range n).map slot).foldlM
        (fun sum (s : Risks α) => (s.vegas[cell]?).map fun v => sum + v) (0 : α)
      = some (∑ b in Finset.range n, (((slot b).vegas)[cell]?).getD 0) := by
  induction n with
  | zero => rfl
  | succ n ih =>
    rw [List.range_succ, List.map_append, List.foldlM_append, ih, Finset.sum_range_succ]
    simp [List.getElem?_eq_getElem (hlen n)]

end ListLemmas

section RisksBodyLemmas

variable {D : Type} [Zero D] [One D] [OfNat D 2] [Neg D] [OfScientific D] [NatCast D] [IntCast D]
  [Add D] [Sub D] [Mul D] [Div D] [LT D] [DecidableRel (fun (a b : D) => a < b)]

theorem risksBody_spec (F : DoubleFns D) (interpN : Interp2D (Number D) (Tape D)) (S0 : D)
    (spots times vols : List D) (maturity strike barrier : D) (Np : Int) (Nt : Nat)
    (epsilon : D) (f l : Int) (acc : RisksState D) (r : BatchRecord D)
    (hr : recordBatch F interpN S0 spots times vols maturity strike barrier f l Nt epsilon
      acc.random = some r)
    (h0 : r.nS0.idx < r.adjoints.length) (hv : ∀ vol ∈ r.nVols, vol.idx < r.adjoints.length)
    (hlen : r.nVols.length = acc.batchVegas.length) :
    risksBody F interpN S0 spots times vols maturity strike barrier Np Nt epsilon f l acc
      = some
        { price := acc.price + r.nBatchPrice.value * (((wrapInt32 (l - f) : Int) : D) / ((Np : Int) : D))
          delta := acc.delta + r.delta * (((wrapInt32 (l - f) : Int) : D) / ((Np : Int) : D))
          vegas := List.zipWith
            (fun vega batchVega => vega + batchVega * (((wrapInt32 (l - f) : Int) : D) / ((Np : Int) : D)))
            acc.vegas r.vegas
          batchVegas := r.vegas
          random := r.random } := by
  have hpicks : (r.nVols.mapM fun vol => r.adjoints[vol.idx]?) = some r.vegas :=
    mapM_eq_some_map _ _ r.nVols fun vol hvol => getElem?_eq_some_getD _ _ (hv vol hvol)
  have hwrite : writeInto acc.batchVegas r.vegas = some r.vegas :=
    writeInto_full _ _ (by simp [BatchRecord.vegas, hlen])
  have hd : r.adjoints[r.nS0.idx]? = some r.delta := getElem?_eq_some_getD _ _ h0
  unfold risksBody
  simp only [hr, Option.bind_eq_bind, Option.some_bind, hpicks, hwrite, hd]

theorem risksBodyMT_spec (F : DoubleFns D) (interpN : Interp2D (Number D) (Tape D)) (S0 : D)
    (spots times vols : List D) (maturity strike barrier : D) (Np Nb : Int) (Nt : Nat)
    (epsilon : D) (random : RNG D) (batch : Nat) (r : BatchRecord D)
    (hb : batchBounds Np Nb batch = specBounds Np Nb batch)
    (hr : recordBatch F interpN S0 spots times vols maturity strike barrier
      (specBounds Np Nb batch).1 (specBounds Np Nb batch).2 Nt epsilon random.clone = some r)
    (h0 : r.nS0.idx < r.adjoints.length) (hv : ∀ vol ∈ r.nVols, vol.idx < r.adjoints.length)
    (hlen : r.nVols.length = spots.length * times.length) :
    risksBodyMT F interpN S0 spots times vols maturity strike barrier Np Nb Nt epsilon random
        batch
      = some
        { price := r.nBatchPrice.value
            * ((wrapInt32 ((specBounds Np Nb batch).2 - (specBounds Np Nb batch).1) : Int) : D)
          delta := r.delta
            * ((wrapInt32 ((specBounds Np Nb batch).2 - (specBounds Np Nb batch).1) : Int) : D)
          vegas := r.vegas.map fun a =>
            a * ((wrapInt32 ((specBounds Np Nb batch).2 - (specBounds Np Nb batch).1) : Int) : D) } := by
  have hpicks : (r.nVols.mapM fun vol => (r.adjoints[vol.idx]?).map fun a =>
      a * ((wrapInt32 ((specBounds Np Nb batch).2 - (specBounds Np Nb batch).1) : Int) : D))
      = some (r.nVols.map fun vol => (r.adjoints[vol.idx]?).getD 0
          * ((wrapInt32 ((specBounds Np Nb batch).2 - (specBounds Np Nb batch).1) : Int) : D)) :=
    mapM_eq_some_map _ _ r.nVols fun vol hvol => by
      rw [getElem?_eq_some_getD _ _ (hv vol hvol)]
      rfl
  have hwrite : writeInto (List.replicate (spots.length * times.length) (0 : D))
      (r.nVols.map fun vol => (r.adjoints[vol.idx]?).getD 0
          * ((wrapInt32 ((specBounds Np Nb batch).2 - (specBounds Np Nb batch).1) : Int) : D))
      = some (r.nVols.map fun vol => (r.adjoints[vol.idx]?).getD 0
          * ((wrapInt32 ((specBounds Np Nb batch).2 - (specBounds Np Nb batch).1) : Int) : D)) :=
    writeInto_full _ _ (by simp [hlen])
  have hd : r.adjoints[r.nS0.idx]? = some r.delta := getElem?_eq_some_getD _ _ h0
  unfold risksBodyMT
  simp only [hb, hr, Option.bind_eq_bind, Option.some_bind, hpicks, hwrite, hd]
  simp only [BatchRecord.vegas, List.map_map]
  rfl

theorem recordBatch_congr (F : DoubleFns D) (interpN : Interp2D (Number D) (Tape D)) (S0 : D)
    (spots times vols : List D) (maturity strike barrier : D) (f l : Int) (Nt : Nat)
    (epsilon : D) (rng1 rng2 : RNG D) (hg : rng1.gauss = rng2.gauss)
    (hd : rng1.dim = rng2.dim) :
    recordBatch F interpN S0 spots times vols maturity strike barrier f l Nt epsilon rng1
      = recordBatch F interpN S0 spots times vols maturity strike barrier f l Nt epsilon
        rng2 := by
  have e : rng1.skipTo f = rng2.skipTo f := by
    cases rng1
    cases rng2
    simp only at hg hd
    simp only [RNG.skipTo, hg, hd]
  have h : ∀ rng : RNG D,
      recordBatch F interpN S0 spots times vols maturity strike barrier f l Nt epsilon rng
        = recordBatch F interpN S0 spots times vols maturity strike barrier f l Nt epsilon
          (rng.skipTo f) := fun _ => rfl
  rw [h rng1, h rng2, e]

end RisksBodyLemmas

section RisksFoldLemmas

variable {D : Type} [LinearOrderedField D]

theorem risks_fold (F : DoubleFns D) (interpN : Interp2D (Number D) (Tape D)) (S0 : D)
    (spots times vols : List D) (maturity strike barrier : D) (Np Nb : Int) (Nt : Nat)
    (epsilon : D) (random : RNG D) (R : Nat → BatchRecord D)
    (hR : ∀ (b : Nat) (rng : RNG D), rng.gauss = random.gauss → rng.dim = Nt →
      recordBatch F interpN S0 spots times vols maturity strike barrier
        (specBounds Np Nb b).1 (specBounds Np Nb b).2 Nt epsilon rng = some (R b))
    (h0 : ∀ b, (R b).nS0.idx < (R b).adjoints.length)
    (hv : ∀ b, ∀ vol ∈ (R b).nVols, vol.idx < (R b).adjoints.length)
    (hlen : ∀ b, (R b).nVols.length = spots.length * times.length)
    (hrg : ∀ b, (R b).random.gauss = random.gauss ∧ (R b).random.dim = Nt) :
    ∀ k : Nat, ∃ st : RisksState D,
      (List.range k).foldlM
          (fun acc b =>
            risksBody F interpN S0 spots times vols maturity strike barrier Np Nt epsilon
              (specBounds Np Nb b).1 (specBounds Np Nb b).2 acc)
          { price := 0, delta := 0, vegas := List.replicate (spots.length * times.length) 0,
            batchVegas := List.replicate (spots.length * times.length) 0,
            random := random.init Nt }
        = some st ∧
      st.price = ∑ b in Finset.range k, (R b).nBatchPrice.value
        * (((wrapInt32 ((specBounds Np Nb b).2 - (specBounds Np Nb b).1) : Int) : D) / ((Np : Int) : D)) ∧
      st.delta = ∑ b in Finset.range k, (R b).delta
        * (((wrapInt32 ((specBounds Np Nb b).2 - (specBounds Np Nb b).1) : Int) : D) / ((Np : Int) : D)) ∧
      st.vegas = (List.range (spots.length * times.length)).map (fun cell =>
        ∑ b in Finset.range k, (((R b).vegas)[cell]?).getD 0
          * (((wrapInt32 ((specBounds Np Nb b).2 - (specBounds Np Nb b).1) : Int) : D)
              / ((Np : Int) : D))) ∧
      st.batchVegas.length = spots.length * times.length ∧
      st.random.gauss = random.gauss ∧ st.random.dim = Nt := by
  intro k
  induction k with
  | zero =>
    refine ⟨_, rfl, rfl, rfl, ?_, ?_, rfl, rfl⟩
    · simp only [Finset.range_zero, Finset.sum_empty]
      exact replicate_eq_range_map _ _
    · simp
  | succ k ih =>
    obtain ⟨st, hfold, hp, hd, hvg, hbl, hg, hdim⟩ := ih
    have hbody := risksBody_spec F interpN S0 spots times vols maturity strike barrier Np Nt
      epsilon (specBounds Np Nb k).1 (specBounds Np Nb k).2 st (R k) (hR k st.random hg hdim)
      (h0 k) (hv k) ((hlen k).trans hbl.symm)
    rw [List.range_succ, List.foldlM_append, hfold]
    simp only [Option.bind_eq_bind, Option.some_bind, List.foldlM_cons, List.foldlM_nil,
      Option.pure_def, Option.bind_some]
    refine ⟨_, hbody, ?_, ?_, ?_, ?_, (hrg k).1, (hrg k).2⟩
    · simp only [Finset.sum_range_succ, hp]
    · simp only [Finset.sum_range_succ, hd]
    · simp only [Finset.sum_range_succ, hvg]
      exact zipWith_range_map _ _ _ (by simp [BatchRecord.vegas, hlen k]) _
    · simp [BatchRecord.vegas, hlen k]

theorem risks_value (F : DoubleFns D) (interpN : Interp2D (Number D) (Tape D)) (S0 : D)
    (spots times vols : List D) (maturity strike barrier : D) (Np Nb : Int) (Nt : Nat)
    (epsilon : D) (random : RNG D) (fuel : Nat) (hNp : 1 ≤ Np) (hNb : 1 ≤ Nb)
    (hov : ((Np - 1) / Nb + 1) * Nb ≤ 2147483647) (n : Nat)
    (hn : numBatches Np Nb = some n) (hfuel : n ≤ fuel) (R : Nat → BatchRecord D)
    (hR : ∀ (b : Nat) (rng : RNG D), rng.gauss = random.gauss → rng.dim = Nt →
      recordBatch F interpN S0 spots times vols maturity strike barrier
        (specBounds Np Nb b).1 (specBounds Np Nb b).2 Nt epsilon rng = some (R b))
    (h0 : ∀ b, (R b).nS0.idx < (R b).adjoints.length)
    (hv : ∀ b, ∀ vol ∈ (R b).nVols, vol.idx < (R b).adjoints.length)
    (hlen : ∀ b, (R b).nVols.length = spots.length * times.length)
    (hrg : ∀ b, (R b).random.gauss = random.gauss ∧ (R b).random.dim = Nt) :
    dupireBarrierRisks F interpN S0 spots times vols maturity strike barrier Np Nb Nt epsilon
        random fuel
      = some
        { price := (∑ b in Finset.range n, (R b).nBatchPrice.value
            * ((wrapInt32 ((specBounds Np Nb b).2 - (specBounds Np Nb b).1) : Int) : D)) / ((Np : Int) : D)
          delta := (∑ b in Finset.range n, (R b).delta
            * ((wrapInt32 ((specBounds Np Nb b).2 - (specBounds Np Nb b).1) : Int) : D)) / ((Np : Int) : D)
          vegas := (List.range (spots.length * times.length)).map fun cell =>
            (∑ b in Finset.range n, (((R b).vegas)[cell]?).getD 0
              * ((wrapInt32 ((specBounds Np Nb b).2 - (specBounds Np Nb b).1) : Int) : D))
              / ((Np : Int) : D) } := by
  obtain ⟨st, hfold, hp, hd, hvg, _, _, _⟩ := risks_fold F interpN S0 spots times vols maturity
    strike barrier Np Nb Nt epsilon random R hR h0 hv hlen hrg n
  unfold dupireBarrierRisks
  simp only
  rw [batchLoop_eq_foldlM Np Nb hNp hNb hov _ n fuel hn hfuel, hfold]
  simp only [Option.map_some', hp, hd, hvg, Finset.sum_div, mul_div_assoc]

theorem risksMT_value (F : DoubleFns D) (interpN : Interp2D (Number D) (Tape D)) (S0 : D)
    (spots times vols : List D) (maturity strike barrier : D) (Np Nb : Int) (Nt : Nat)
    (epsilon : D) (random : RNG D) (hNb : 0 ≤ Nb) (n : Nat)
    (hov : (n : Int) * Nb ≤ 2147483647)
    (hn : numBatches Np Nb = some n) (R : Nat → BatchRecord D)
    (hR : ∀ (b : Nat) (rng : RNG D), rng.gauss = random.gauss → rng.dim = Nt →
      recordBatch F interpN S0 spots times vols maturity strike barrier
        (specBounds Np Nb b).1 (specBounds Np Nb b).2 Nt epsilon rng = some (R b))
    (h0 : ∀ b, (R b).nS0.idx < (R b).adjoints.length)
    (hv : ∀ b, ∀ vol ∈ (R b).nVols, vol.idx < (R b).adjoints.length)
    (hlen : ∀ b, (R b).nVols.length = spots.length * times.length) :
    dupireBarrierRisksMT F interpN S0 spots times vols maturity strike barrier Np Nb Nt epsilon
        random
      = some
        { price := (∑ b in Finset.range n, (R b).nBatchPrice.value
            * ((wrapInt32 ((specBounds Np Nb b).2 - (specBounds Np Nb b).1) : Int) : D)) / ((Np : Int) : D)
          delta := (∑ b in Finset.range n, (R b).delta
            * ((wrapInt32 ((specBounds Np Nb b).2 - (specBounds Np Nb b).1) : Int) : D)) / ((Np : Int) : D)
          vegas := (List.range (spots.length * times.length)).map fun cell =>
            (∑ b in Finset.range n, (((R b).vegas)[cell]?).getD 0
              * ((wrapInt32 ((specBounds Np Nb b).2 - (specBounds Np Nb b).1) : Int) : D))
              / ((Np : Int) : D) } := by
  have hslots : (List.range n).mapM
      (risksBodyMT F interpN S0 spots times vols maturity strike barrier Np Nb Nt epsilon
        (random.init Nt))
      = some ((List.range n).map fun b =>
        ({ price := (R b).nBatchPrice.value
              * ((wrapInt32 ((specBounds Np Nb b).2 - (specBounds Np Nb b).1) : Int) : D)
           delta := (R b).delta
              * ((wrapInt32 ((specBounds Np Nb b).2 - (specBounds Np Nb b).1) : Int) : D)
           vegas := (R b).vegas.map fun a =>
              a * ((wrapInt32 ((specBounds Np Nb b).2 - (specBounds Np Nb b).1) : Int) : D) } :
          Risks D)) :=
    mapM_eq_some_map _ _ _ fun b hb =>
      risksBodyMT_spec F interpN S0 spots times vols maturity strike barrier Np Nb Nt epsilon
        (random.init Nt) b (R b) (batchBounds_eq Np Nb n hNb hov b (List.mem_range.1 hb))
        (hR b (random.init Nt).clone rfl rfl) (h0 b) (hv b) (hlen b)
  have hvlen : ∀ b, ((R b).vegas).length = spots.length * times.length := fun b => by
    simp [BatchRecord.vegas, hlen b]
  unfold dupireBarrierRisksMT
  simp only [hn, Option.bind_eq_bind, Option.some_bind, hslots, List.map_map]
  have hcells : ((List.range (spots.length * times.length)).mapM fun cell =>
      (((List.range n).map fun b =>
        ({ price := (R b).nBatchPrice.value
              * ((wrapInt32 ((specBounds Np Nb b).2 - (specBounds Np Nb b).1) : Int) : D)
           delta := (R b).delta
              * ((wrapInt32 ((specBounds Np Nb b).2 - (specBounds Np Nb b).1) : Int) : D)
           vegas := (R b).vegas.map fun a =>
              a * ((wrapInt32 ((specBounds Np Nb b).2 - (specBounds Np Nb b).1) : Int) : D) } :
          Risks D)).foldlM
          (fun sum (slot : Risks D) => (slot.vegas[cell]?).map fun v => sum + v) (0 : D)).bind
        fun total => some (total / ((Np : Int) : D)))
      = some ((List.range (spots.length * times.length)).map fun cell =>
          (∑ b in Finset.range n, (((R b).vegas)[cell]?).getD 0
              * ((wrapInt32 ((specBounds Np Nb b).2 - (specBounds Np Nb b).1) : Int) : D))
              / ((Np : Int) : D)) := by
    apply mapM_eq_some_map
    intro cell hcell
    have hc : cell < spots.length * times.length := List.mem_range.1 hcell
    rw [foldlM_cell cell _ (fun b => by simp [hvlen b, hc]) n]
    simp only [Option.some_bind]
    congr 2
    apply Finset.sum_congr rfl
    intro b _
    have hcb : cell < ((R b).vegas).length := by rw [hvlen b]; exact hc
    simp [List.getElem?_eq_getElem hcb]
  rw [hcells]
  simp only [Option.some_bind]
  congr 2
  · exact congrArg (fun x => x / ((Np : Int) : D)) (foldl_add_range _ n)
  · exact congrArg (fun x => x / ((Np : Int) : D)) (foldl_add_range _ n)

end RisksFoldLemmas

section RisksLemmas

variable {D : Type} [LinearOrderedField D]

theorem records_exist (F : DoubleFns D) (interpN : Interp2D (Number D) (Tape D))
    (hrec : InterpRecords interpN) (S0 : D) (spots times vols : List D)
    (maturity strike barrier : D) (Np Nb : Int) (Nt : Nat) (epsilon : D) (random : RNG D)
    (hshape : vols.length = spots.length * times.length) :
    ∃ R : Nat → BatchRecord D,
      (∀ (b : Nat) (rng : RNG D), rng.gauss = random.gauss → rng.dim = Nt →
        recordBatch F interpN S0 spots times vols maturity strike barrier
          (specBounds Np Nb b).1 (specBounds Np Nb b).2 Nt epsilon rng = some (R b)) ∧
      (∀ b, (R b).nS0.idx < (R b).adjoints.length) ∧
      (∀ b, ∀ vol ∈ (R b).nVols, vol.idx < (R b).adjoints.length) ∧
      (∀ b, (R b).nVols.length = spots.length * times.length) ∧
      (∀ b, (R b).random.gauss = random.gauss ∧ (R b).random.dim = Nt) ∧
      ∀ interpD : Interp2D D Unit, InterpValue interpN interpD → ∀ b,
        (R b).nBatchPrice.value = batchValue (dupireBarrierMCBatch (doubleScalar F) interpD S0
          spots times vols maturity strike barrier (specBounds Np Nb b).1
          (specBounds Np Nb b).2 Nt epsilon (random.init Nt) ()) := by
  have h := fun b : Nat => recordBatch_spec F interpN hrec S0 spots times vols maturity strike
    barrier (specBounds Np Nb b).1 (specBounds Np Nb b).2 Nt epsilon (random.init Nt)
  choose R hR h0 hv hlen hrand hvalue using h
  refine ⟨R, fun b rng hg hd => ?_, h0, hv, fun b => (hlen b).trans hshape, fun b => ?_,
    fun interpD hval b => hvalue b interpD hval⟩
  · rw [recordBatch_congr F interpN S0 spots times vols maturity strike barrier _ _ Nt epsilon
      rng (random.init Nt) hg hd]
    exact hR b
  · rw [hrand b]
    exact ⟨rfl, rfl⟩

end RisksLemmas

section Example2Lemmas

theorem flatVolN_records : InterpRecords flatVolN := by
  intro spots times vols spot time tape hwf hps
  cases vols with
  | nil =>
    show Keeps tape (Number.ofDouble 0 tape)
    refine ⟨ofDouble_wf 0 tape hwf, ?_, ?_⟩
    · rw [ofDouble_length]
      omega
    · rw [ofDouble_idx, ofDouble_length]
      omega
  | cons vol vols => exact ⟨hwf, le_refl _, hps vol (by simp)⟩

theorem flatVolN_value : InterpValue flatVolN flatVol := by
  intro spots times vols spot time tape
  cases vols <;> rfl

end Example2Lemmas

/-! ## Lemmas on the recurrence of the specification -/

section SpecLemmas

variable {α : Type}

theorem propagate_eq_specUpdate [Add α] [Mul α] (tape : Tape α) (j : Nat) (a : List α)
    (hnode : ∀ node, tape[j]? = some node → node.numArg ≤ 2) :
    propagate tape j a = specUpdate tape j a := by
  unfold propagate specUpdate
  cases h : tape[j]? with
  | none => rfl
  | some node =>
    have h2 := hnode node h
    simp only [Option.bind_eq_bind, Option.some_bind]
    obtain ⟨n, i1, i2, d1, d2⟩ := node
    simp only at h2 ⊢
    interval_cases n
    · rfl
    · simp only [Node.recordedArgs, List.foldlM_cons, List.foldlM_nil, specAccumulate]
      simp
    · simp only [Node.recordedArgs, List.foldlM_cons, List.foldlM_nil, specAccumulate]
      simp only [Nat.lt_irrefl, Nat.zero_lt_succ, Nat.one_lt_two, gt_iff_lt, if_true,
        Option.bind_eq_bind, Option.pure_def, Option.bind_some]
      cases a[j]? with
      | none => rfl
      | some aj =>
        cases a[i1]? with
        | none => rfl
        | some a1 => rfl

theorem specUpdate_zero [Add α] [Mul α] (tape : Tape α) (a : List α) (hwf : WellFormed tape)
    (h0 : 0 < tape.length) : specUpdate tape 0 a = some a := by
  have hn : (tape[0]).numArg = 0 := by
    obtain ⟨_, h1, _⟩ := hwf 0 h0
    by_contra h
    exact absurd (h1 (Nat.pos_of_ne_zero h)) (Nat.not_lt_zero _)
  unfold specUpdate
  rw [List.getElem?_eq_getElem h0]
  simp only [Option.bind_eq_bind, Option.some_bind, Node.recordedArgs, hn]
  rfl

theorem backward_eq_specSweep [Add α] [Mul α] (tape : Tape α) (hwf : WellFormed tape) :
    ∀ (j : Nat) (a : List α), j < tape.length → backward tape j a = specSweep tape j a := by
  intro j
  induction j with
  | zero =>
    intro a h0
    rw [specSweep, specUpdate_zero tape a hwf h0]
    rfl
  | succ j ih =>
    intro a hj
    have hnode : ∀ node, tape[j + 1]? = some node → node.numArg ≤ 2 := by
      intro node h
      rw [List.getElem?_eq_getElem hj] at h
      cases h
      exact (hwf (j + 1) hj).1
    rw [backward, specSweep, propagate_eq_specUpdate tape (j + 1) a hnode]
    cases specUpdate tape (j + 1) a with
    | none => rfl
    | some a1 =>
      simp only [Option.bind_eq_bind, Option.some_bind]
      exact ih a1 (Nat.lt_of_succ_lt hj)

theorem propagate_congr [Add α] [Mul α] (tape tape' : Tape α) (j : Nat) (a : List α)
    (hlen : tape'.length = tape.length)
    (hsame : ∀ k (h : k < tape.length) (h' : k < tape'.length),
      (tape'[k]).numArg = (tape[k]).numArg ∧
      (0 < (tape[k]).numArg → (tape'[k]).idx1 = (tape[k]).idx1 ∧ (tape'[k]).der1 = (tape[k]).der1) ∧
      (1 < (tape[k]).numArg → (tape'[k]).idx2 = (tape[k]).idx2 ∧ (tape'[k]).der2 = (tape[k]).der2)) :
    propagate tape' j a = propagate tape j a := by
  unfold propagate
  by_cases hj : j < tape.length
  · have hj' : j < tape'.length := hlen ▸ hj
    obtain ⟨hn, h1, h2⟩ := hsame j hj hj'
    rw [List.getElem?_eq_getElem hj, List.getElem?_eq_getElem hj']
    simp only [Option.bind_eq_bind, Option.some_bind, gt_iff_lt, hn]
    by_cases c0 : 0 < (tape[j]).numArg
    · obtain ⟨e1, e2⟩ := h1 c0
      simp only [c0, if_true, e1, e2]
      by_cases c1 : 1 < (tape[j]).numArg
      · obtain ⟨e3, e4⟩ := h2 c1
        simp only [c1, if_true, e3, e4]
      · simp only [c1, if_false]
    · simp only [c0, if_false]
  · have hj' : ¬ j < tape'.length := hlen ▸ hj
    rw [List.getElem?_eq_none (not_lt.1 hj), List.getElem?_eq_none (not_lt.1 hj')]

theorem backward_congr [Add α] [Mul α] (tape tape' : Tape α)
    (h : ∀ j a, propagate tape' j a = propagate tape j a) :
    ∀ (j : Nat) (a : List α), backward tape' j a = backward tape j a := by
  intro j
  induction j with
  | zero => intro a; rfl
  | succ j ih =>
    intro a
    rw [backward, backward, h]
    cases propagate tape (j + 1) a with
    | none => rfl
    | some a1 =>
      simp only [Option.bind_eq_bind, Option.some_bind]
      exact ih a1

end SpecLemmas

/-! ## Lemmas on the calls of the batch loop -/

section CountedLemmas

theorem counted_body {D : Type} [Zero D] [One D] [OfNat D 2] [Neg D] [OfScientific D]
    [NatCast D] [IntCast D] [Add D] [Sub D] [Mul D] [Div D]
    (batch : Int → Int → RNG D → Unit → (D × RNG D) × Unit) (Np f l : Int) (a : D × RNG D)
    (t : List (Int × Int)) :
    pricerBodyWith (counted batch) Np f l (a, t)
      = ((pricerBodyWith batch Np f l (a, ())).map Prod.fst).map
        fun x => (x, t ++ [(f, l)]) := rfl

theorem counted_fold {D : Type} [Zero D] [One D] [OfNat D 2] [Neg D] [OfScientific D]
    [NatCast D] [IntCast D] [Add D] [Sub D] [Mul D] [Div D]
    (batch : Int → Int → RNG D → Unit → (D × RNG D) × Unit) (Np Nb : Int) (a0 : D × RNG D)
    (t0 : List (Int × Int)) (n : Nat) :
    (List.range n).foldlM
        (fun acc b =>
          pricerBodyWith (counted batch) Np (specBounds Np Nb b).1 (specBounds Np Nb b).2 acc)
        (a0, t0)
      = ((List.range n).foldlM
          (fun acc b =>
            (pricerBodyWith batch Np (specBounds Np Nb b).1 (specBounds Np Nb b).2
              (acc, ())).map Prod.fst) a0).map
        fun a => (a, t0 ++ (List.range n).map (specBounds Np Nb)) := by
  induction n with
  | zero => simp
  | succ n ih =>
    rw [List.range_succ, List.foldlM_append, List.foldlM_append, ih]
    cases (List.range n).foldlM
        (fun acc b =>
          (pricerBodyWith batch Np (specBounds Np Nb b).1 (specBounds Np Nb b).2
            (acc, ())).map Prod.fst) a0 with
    | none => rfl
    | some a =>
      simp only [Option.map_some', Option.bind_eq_bind, Option.some_bind, List.foldlM_cons,
        List.foldlM_nil, counted_body, Option.pure_def, Option.bind_some, List.map_append,
        List.map_cons, List.map_nil, List.append_assoc, Option.map_map]

theorem numBatches_ceil (Np Nb : Int) (n : Nat) (hNb : 1 ≤ Nb)
    (h1 : 1 ≤ n) (hlt : ∀ k : Nat, k < n ↔ (k : Int) * Nb < Np) :
    (n : Int) = ⌈(Np : ℚ) / (Nb : ℚ)⌉ := by
  have hNbq : (0 : ℚ) < (Nb : ℚ) := by exact_mod_cast (by omega : (0 : Int) < Nb)
  symm
  rw [Int.ceil_eq_iff]
  constructor
  · rw [lt_div_iff₀ hNbq]
    have h := (hlt (n - 1)).1 (by omega)
    have e : ((n - 1 : Nat) : Int) = (n : Int) - 1 := by omega
    rw [e] at h
    have h' : (((n : Int) - 1) * Nb : ℚ) < (Np : ℚ) := by exact_mod_cast h
    push_cast at h' ⊢
    exact h'
  · rw [div_le_iff₀ hNbq]
    have h : ¬ (n : Int) * Nb < Np := fun h => absurd ((hlt n).2 h) (lt_irrefl n)
    have h' : (Np : ℚ) ≤ ((n : Int) * Nb : ℚ) := by exact_mod_cast not_lt.1 h
    push_cast at h' ⊢
    exact h'

theorem batch_cover (Np Nb : Int) (n : Nat) (hNb : 1 ≤ Nb)
    (hlt : ∀ k : Nat, k < n ↔ (k : Int) * Nb < Np) (i : Int) (h0 : 0 ≤ i) (hi : i < Np) :
    ∃! k : Nat, k < n ∧ (specBounds Np Nb k).1 ≤ i ∧ i < (specBounds Np Nb k).2 := by
  have hNb0 : (0 : Int) < Nb := by omega
  have hq0 : 0 ≤ i / Nb := Int.ediv_nonneg h0 (by omega)
  have hle : i / Nb * Nb ≤ i := Int.ediv_mul_le _ (by omega)
  have hlt' : i < (i / Nb + 1) * Nb := Int.lt_ediv_add_one_mul_self i hNb0
  refine ⟨(i / Nb).toNat, ⟨?_, ?_, ?_⟩, ?_⟩
  · rw [hlt, Int.toNat_of_nonneg hq0]
    omega
  · simp only [specBounds, Int.toNat_of_nonneg hq0]
    exact hle
  · simp only [specBounds, Int.toNat_of_nonneg hq0, lt_min_iff]
    exact ⟨by linarith, hi⟩
  · rintro k ⟨_, hk1, hk2⟩
    simp only [specBounds, lt_min_iff] at hk1 hk2
    have h1 : (k : Int) ≤ i / Nb := (Int.le_ediv_iff_mul_le hNb0).2 hk1
    have h2 : i / Nb < (k : Int) + 1 := by
      rw [Int.ediv_lt_iff_lt_mul hNb0]
      linarith [hk2.1]
    omega

end CountedLemmas

section WeightLemmas

variable {D : Type} [LinearOrderedField D]

theorem weights_sum (Np Nb : Int) (hNp : 1 ≤ Np) (n : Nat)
    (hNpn : Np ≤ (n : Int) * Nb) (hlt : ∀ k : Nat, k < n ↔ (k : Int) * Nb < Np) :
    ∑ k in Finset.range n,
        (((specBounds Np Nb k).2 - (specBounds Np Nb k).1 : Int) : D) / ((Np : Int) : D)
      = 1 := by
  have hsum : ∀ m : Nat, m ≤ n →
      ∑ k in Finset.range m, ((specBounds Np Nb k).2 - (specBounds Np Nb k).1)
        = min ((m : Int) * Nb) Np := by
    intro m
    induction m with
    | zero =>
      intro _
      simp only [Finset.range_zero, Finset.sum_empty, Nat.cast_zero, zero_mul]
      exact (min_eq_left (by omega)).symm
    | succ m ih =>
      intro hm
      have hk : (m : Int) * Nb < Np := (hlt m).1 (by omega)
      rw [Finset.sum_range_succ, ih (by omega), min_eq_left (le_of_lt hk)]
      simp only [specBounds]
      push_cast
      ring_nf
  have hNp0 : ((Np : Int) : D) ≠ 0 := by
    have : Np ≠ 0 := by omega
    exact_mod_cast this
  rw [← Finset.sum_div, div_eq_one_iff_eq hNp0, ← Int.cast_sum, hsum n (le_refl n),
    min_eq_right hNpn]

end WeightLemmas

/-! ## Lemmas on barrier monitoring -/

section BarrierLemmas3

variable {D : Type} [LinearOrderedField D]

theorem smoothingFactor_mem (barrier epsilon spot : D) (heps : 0 < epsilon)
    (hlo : barrier - epsilon ≤ spot) (hhi : spot ≤ barrier + epsilon) :
    0 ≤ smoothingFactor barrier epsilon spot ∧ smoothingFactor barrier epsilon spot ≤ 1 := by
  have h2 : (0 : D) < 2 * epsilon := by linarith
  unfold smoothingFactor
  constructor
  · rw [sub_nonneg, div_le_one h2]
    linarith
  · rw [sub_le_self_iff]
    exact div_nonneg (by linarith) (le_of_lt h2)

theorem monitor_notional (F : DoubleFns D) (barrier epsilon spot notionalAlive : D)
    (heps : 0 < epsilon) (h0 : 0 ≤ notionalAlive) :
    0 ≤ monitoredNotional (monitor (doubleScalar F) barrier epsilon spot notionalAlive ()) ∧
    monitoredNotional (monitor (doubleScalar F) barrier epsilon spot notionalAlive ())
      ≤ notionalAlive := by
  rw [monitor_double]
  unfold monitoredNotional
  split_ifs with h1 h2
  · exact ⟨le_refl _, h0⟩
  · exact ⟨h0, le_refl _⟩
  · obtain ⟨hf0, hf1⟩ := smoothingFactor_mem barrier epsilon spot heps (not_lt.1 h2)
      (not_lt.1 h1)
    exact ⟨mul_nonneg h0 hf0, mul_le_of_le_one_right h0 hf1⟩

theorem stepLoop_notional (F : DoubleFns D) (interp2D : Interp2D D Unit)
    (spots times vols : List D) (barrier epsilon dt sdt : D) (heps : 0 < epsilon) :
    ∀ (gs : List D) (spot time notionalAlive : D), 0 ≤ notionalAlive →
      0 ≤ finalNotional (stepLoop (doubleScalar F) interp2D spots times vols barrier epsilon dt
        sdt gs spot time notionalAlive ()) ∧
      finalNotional (stepLoop (doubleScalar F) interp2D spots times vols barrier epsilon dt
        sdt gs spot time notionalAlive ()) ≤ notionalAlive := by
  intro gs
  induction gs with
  | nil =>
    intro spot time notionalAlive h0
    exact ⟨h0, le_refl _⟩
  | cons g gs ih =>
    intro spot time notionalAlive h0
    obtain ⟨hm0, hm1⟩ := monitor_notional F barrier epsilon
      (steppedSpot (simulateStep (doubleScalar F) interp2D spots times vols dt sdt g spot
        time ())) notionalAlive heps h0
    rw [stepLoop_cons_double]
    split_ifs
    · exact ⟨hm0, hm1⟩
    · obtain ⟨h1, h2⟩ := ih _ _ _ hm0
      exact ⟨h1, le_trans h2 hm1⟩

end BarrierLemmas3

/-! ## Lemmas on the schedule of two threads -/

section ThreadLemmas

theorem bodyStart_run :
    State.init.run ratFns bodyStart
      = some { tape := [ { numArg := 0, idx1 := 0, idx2 := 0, der1 := 0, der2 := 0 },
                         { numArg := 0, idx1 := 0, idx2 := 0, der1 := 0, der2 := 0 },
                         { numArg := 2, idx1 := 0, idx2 := 1, der1 := 2, der2 := 100 } ],
               vars := [⟨100, 0⟩, ⟨2, 1⟩, ⟨200, 2⟩] } := by
  simp [bodyStart, State.run, State.step, State.init, Number.ofDouble, BinOp.run, Number.mul,
    Node.blank]
  norm_num

theorem raceSchedule_tape :
    (Threads.init.run ratFns raceSchedule).map Threads.tape
      = some [ { numArg := 2, idx1 := 0, idx2 := 1, der1 := 2, der2 := 100 } ] := by
  simp [raceSchedule, Threads.run, Threads.step, Threads.init, State.step, Number.ofDouble,
    BinOp.run, Number.mul, Node.blank]

theorem raceSchedule_vars :
    (Threads.init.run ratFns raceSchedule).map (fun s => s.vars false)
      = some [⟨100, 0⟩, ⟨2, 1⟩, ⟨200, 0⟩] := by
  simp [raceSchedule, Threads.run, Threads.step, Threads.init, State.step, Number.ofDouble,
    BinOp.run, Number.mul, Node.blank]
  norm_num

end ThreadLemmas

/-! ## Lemmas on the Black-Scholes smoke test -/

section SweepLemmas2
variable {D : Type} [Field D]

theorem backward_step {β : Type} (tape : Tape D) (j : Nat) (a a' : List D) (f : List D → β)
    (r : Option β) (h1 : propagate tape (j + 1) a = some a')
    (h2 : (backward tape j a').map f = r) : (backward tape (j + 1) a).map f = r := by
  rw [backward, h1]
  exact h2

set_option maxRecDepth 8000 in
set_option maxHeartbeats 4000000 in
theorem blackScholes_sweep (v c7 d7 c8 d8 c9 c10 d10 c11 d11 c12 c13 d13 c14 c15 d15 c16 d16 c17
    c18 d18 c20 d20 c21 d21 c23 d23 c24 d24 c25 c26 c27 d27 c28 d28 c29 d29 c30 d30 : D) :
    (calculateAdjoints
      ([{ numArg := 0, idx1 := 0, idx2 := 0, der1 := 0, der2 := 0 },
       { numArg := 0, idx1 := 0, idx2 := 0, der1 := 0, der2 := 0 },
       { numArg := 0, idx1 := 0, idx2 := 0, der1 := 0, der2 := 0 },
       { numArg := 0, idx1 := 0, idx2 := 0, der1 := 0, der2 := 0 },
       { numArg := 0, idx1 := 0, idx2 := 0, der1 := 0, der2 := 0 },
       { numArg := 0, idx1 := 0, idx2 := 0, der1 := 0, der2 := 0 },
       { numArg := 0, idx1 := 0, idx2 := 0, der1 := 0, der2 := 0 },
       { numArg := 2, idx1 := 6, idx2 := 1, der1 := c7, der2 := d7 },
       { numArg := 2, idx1 := 7, idx2 := 5, der1 := c8, der2 := d8 },
       { numArg := 1, idx1 := 8, idx2 := 0, der1 := c9, der2 := 0 },
       { numArg := 2, idx1 := 1, idx2 := 2, der1 := c10, der2 := d10 },
       { numArg := 2, idx1 := 10, idx2 := 5, der1 := c11, der2 := d11 },
       { numArg := 1, idx1 := 11, idx2 := 0, der1 := c12, der2 := 0 },
       { numArg := 2, idx1 := 0, idx2 := 12, der1 := c13, der2 := d13 },
       { numArg := 1, idx1 := 5, idx2 := 0, der1 := c14, der2 := 0 },
       { numArg := 2, idx1 := 3, idx2 := 14, der1 := c15, der2 := d15 },
       { numArg := 2, idx1 := 13, idx2 := 4, der1 := c16, der2 := d16 },
       { numArg := 1, idx1 := 16, idx2 := 0, der1 := c17, der2 := 0 },
       { numArg := 2, idx1 := 17, idx2 := 15, der1 := c18, der2 := d18 },
       { numArg := 0, idx1 := 0, idx2 := 0, der1 := 0, der2 := 0 },
       { numArg := 2, idx1 := 19, idx2 := 15, der1 := c20, der2 := d20 },
       { numArg := 2, idx1 := 18, idx2 := 20, der1 := c21, der2 := d21 },
       { numArg := 0, idx1 := 0, idx2 := 0, der1 := 0, der2 := 0 },
       { numArg := 2, idx1 := 22, idx2 := 15, der1 := c23, der2 := d23 },
       { numArg := 2, idx1 := 18, idx2 := 23, der1 := c24, der2 := d24 },
       { numArg := 1, idx1 := 21, idx2 := 0, der1 := c25, der2 := 0 },
       { numArg := 1, idx1 := 24, idx2 := 0, der1 := c26, der2 := 0 },
       { numArg := 2, idx1 := 13, idx2 := 25, der1 := c27, der2 := d27 },
       { numArg := 2, idx1 := 4, idx2 := 26, der1 := c28, der2 := d28 },
       { numArg := 2, idx1 := 27, idx2 := 28, der1 := c29, der2 := d29 },
       { numArg := 2, idx1 := 9, idx2 := 29, der1 := c30, der2 := d30 }] : Tape D)
      ⟨v, 30⟩).map (fun a => a.take 6)
    = some
      [ (d30 * c29 * c27 + (d30 * d29 * d28 * c26 * c24 + d30 * c29 * d27 * c25 * c21) * c18 * c17
            * c16) * c13,
        (d30 * c29 * c27 + (d30 * d29 * d28 * c26 * c24 + d30 * c29 * d27 * c25 * c21) * c18 * c17
            * c16) * d13 * c12 * c11 * c10 + c30 * c9 * c8 * d7,
        (d30 * c29 * c27 + (d30 * d29 * d28 * c26 * c24 + d30 * c29 * d27 * c25 * c21) * c18 * c17
            * c16) * d13 * c12 * c11 * d10,
        (d30 * d29 * d28 * c26 * d24 * d23 + d30 * c29 * d27 * c25 * d21 * d20
          + (d30 * d29 * d28 * c26 * c24 + d30 * c29 * d27 * c25 * c21) * d18) * c15,
        d30 * d29 * c28
          + (d30 * d29 * d28 * c26 * c24 + d30 * c29 * d27 * c25 * c21) * c18 * c17 * d16,
        (d30 * d29 * d28 * c26 * d24 * d23 + d30 * c29 * d27 * c25 * d21 * d20
          + (d30 * d29 * d28 * c26 * c24 + d30 * c29 * d27 * c25 * c21) * d18) * d15 * c14
          + (d30 * c29 * c27 + (d30 * d29 * d28 * c26 * c24 + d30 * c29 * d27 * c25 * c21) * c18
            * c17 * c16) * d13 * c12 * d11
          + c30 * c9 * d8 ] := by
  simp only [calculateAdjoints, List.length_cons, List.length_nil, Nat.reduceAdd, Nat.reduceLT,
    if_true, List.replicate, List.set_cons_succ, List.set_cons_zero]
  iterate 30
    apply backward_step
    · simp only [propagate, List.set_cons_succ, List.set_cons_zero, List.getElem?_cons_succ,
        List.getElem?_cons_zero, Option.bind_eq_bind, Option.some_bind, Option.pure_def,
        Nat.reduceAdd, Nat.reduceLT, if_true, gt_iff_lt, if_false, Nat.reduceSub, Nat.lt_irrefl,
        Nat.zero_lt_one, Nat.zero_lt_two, zero_add, one_mul]
      exact rfl
  rfl

end SweepLemmas2

section BoundLemmas

variable {D : Type} [LinearOrderedField D]

theorem const_bounds (c : D) : c ≤ c ∧ c ≤ c := ⟨le_refl c, le_refl c⟩

theorem add_bounds {a b al au bl bu : D} (ha : al ≤ a ∧ a ≤ au) (hb : bl ≤ b ∧ b ≤ bu)
    (lo hi : D) (h : lo ≤ al + bl ∧ au + bu ≤ hi) : lo ≤ a + b ∧ a + b ≤ hi :=
  ⟨by linarith [ha.1, hb.1, h.1], by linarith [ha.2, hb.2, h.2]⟩

theorem sub_bounds {a b al au bl bu : D} (ha : al ≤ a ∧ a ≤ au) (hb : bl ≤ b ∧ b ≤ bu)
    (lo hi : D) (h : lo ≤ al - bu ∧ au - bl ≤ hi) : lo ≤ a - b ∧ a - b ≤ hi :=
  ⟨by linarith [ha.1, hb.2, h.1], by linarith [ha.2, hb.1, h.2]⟩

theorem neg_bounds {a al au : D} (ha : al ≤ a ∧ a ≤ au) : -au ≤ -a ∧ -a ≤ -al :=
  ⟨neg_le_neg ha.2, neg_le_neg ha.1⟩

theorem mul_left_lower {c b bl bu lo : D} (hb : bl ≤ b ∧ b ≤ bu) (h1 : lo ≤ c * bl)
    (h2 : lo ≤ c * bu) : lo ≤ c * b := by
  rcases le_total 0 c with hc | hc
  · exact le_trans h1 (mul_le_mul_of_nonneg_left hb.1 hc)
  · exact le_trans h2 (mul_le_mul_of_nonpos_left hb.2 hc)

theorem mul_left_upper {c b bl bu hi : D} (hb : bl ≤ b ∧ b ≤ bu) (h1 : c * bl ≤ hi)
    (h2 : c * bu ≤ hi) : c * b ≤ hi := by
  rcases le_total 0 c with hc | hc
  · exact le_trans (mul_le_mul_of_nonneg_left hb.2 hc) h2
  · exact le_trans (mul_le_mul_of_nonpos_left hb.1 hc) h1

theorem mul_bounds {a b al au bl bu : D} (ha : al ≤ a ∧ a ≤ au) (hb : bl ≤ b ∧ b ≤ bu)
    (lo hi : D)
    (h : (lo ≤ al * bl ∧ lo ≤ al * bu ∧ lo ≤ au * bl ∧ lo ≤ au * bu) ∧
      (al * bl ≤ hi ∧ al * bu ≤ hi ∧ au * bl ≤ hi ∧ au * bu ≤ hi)) :
    lo ≤ a * b ∧ a * b ≤ hi := by
  obtain ⟨⟨h1, h2, h3, h4⟩, h5, h6, h7, h8⟩ := h
  have hl1 : lo ≤ al * b := mul_left_lower hb h1 h2
  have hl2 : lo ≤ au * b := mul_left_lower hb h3 h4
  have hu1 : al * b ≤ hi := mul_left_upper hb h5 h6
  have hu2 : au * b ≤ hi := mul_left_upper hb h7 h8
  rw [mul_comm al b] at hl1 hu1
  rw [mul_comm au b] at hl2 hu2
  rw [mul_comm a b]
  exact ⟨mul_left_lower ha hl1 hl2, mul_left_upper ha hu1 hu2⟩

theorem inv_bounds {b bl bu : D} (hb : bl ≤ b ∧ b ≤ bu) (hpos : 0 < bl) :
    bu⁻¹ ≤ b⁻¹ ∧ b⁻¹ ≤ bl⁻¹ :=
  ⟨inv_anti₀ (lt_of_lt_of_le hpos hb.1) hb.2, inv_anti₀ hpos hb.1⟩

theorem div_bounds {a b al au bl bu : D} (ha : al ≤ a ∧ a ≤ au) (hb : bl ≤ b ∧ b ≤ bu)
    (lo hi : D) (hpos : 0 < bl)
    (h : (lo ≤ al / bu ∧ lo ≤ al / bl ∧ lo ≤ au / bu ∧ lo ≤ au / bl) ∧
      (al / bu ≤ hi ∧ al / bl ≤ hi ∧ au / bu ≤ hi ∧ au / bl ≤ hi)) :
    lo ≤ a / b ∧ a / b ≤ hi := by
  rw [div_eq_mul_inv]
  simp only [div_eq_mul_inv] at h
  exact mul_bounds ha (inv_bounds hb hpos) lo hi h

theorem abs_sub_bounds {x lo hi c t : D} (hx : lo ≤ x ∧ x ≤ hi) (h : c - t ≤ lo ∧ hi ≤ c + t) :
    |x - c| ≤ t :=
  abs_le.2 ⟨by linarith [hx.1, h.1], by linarith [hx.2, h.2]⟩

end BoundLemmas

section ClosedFormLemmas

variable {D : Type} [LinearOrderedField D]

set_option maxRecDepth 8000 in
/-- Interval arithmetic on the straight-line form: enclosures of the library
values to about seven decimals put every printed number within `5e-3` of the
quoted one. -/
theorem closedForm_bounds (e1 e2 s l p1 p2 n1 n2 : D)
    (he1 : 0.9607894 ≤ e1 ∧ e1 ≤ 0.9607895) (he2 : 0.9417645 ≤ e2 ∧ e2 ≤ 0.9417646)
    (hs : 1.4142135 ≤ s ∧ s ≤ 1.4142136) (hl : -0.1553104 ≤ l ∧ l ≤ -0.1553099)
    (hp1 : 0.3417527 ≤ p1 ∧ p1 ≤ 0.3417537) (hp2 : 0.2449313 ≤ p2 ∧ p2 ≤ 0.2449325)
    (hn1 : 0.367129 ≤ n1 ∧ n1 ≤ 0.3671296) (hn2 : 0.3143171 ≤ n2 ∧ n2 ≤ 0.3143181) :
    |(closedForm e1 e2 s l p1 p2 n1 n2).value - 5.03705| ≤ 0.005 ∧
    |(closedForm e1 e2 s l p1 p2 n1 n2).toSpot - 0.309| ≤ 0.005 ∧
    |(closedForm e1 e2 s l p1 p2 n1 n2).toRate - 51.772| ≤ 0.005 ∧
    |(closedForm e1 e2 s l p1 p2 n1 n2).toYield - (-61.846)| ≤ 0.005 ∧
    |(closedForm e1 e2 s l p1 p2 n1 n2).toVol - 46.980| ≤ 0.005 ∧
    |(closedForm e1 e2 s l p1 p2 n1 n2).toStrike - (-0.235)| ≤ 0.005 ∧
    |(closedForm e1 e2 s l p1 p2 n1 n2).toMat - 1.321| ≤ 0.005 := by
  have hfwd := mul_bounds (const_bounds 100) he2 94.17645 94.17646 (by norm_num)
  have hstd := mul_bounds (const_bounds 0.2) hs 0.2828427 0.28284272 (by norm_num)
  have hq := div_bounds hfwd (const_bounds 110) 0.856149545 0.856149637 (by norm_num) (by norm_num)
  have hfp := mul_bounds hfwd hp1 32.185056063 32.185153658 (by norm_num)
  have hkp := mul_bounds (const_bounds 110) hp2 26.942443 26.942575 (by norm_num)
  have hx := sub_bounds hfp hkp 5.242481063 5.242710658 (by norm_num)
  have hvalue := mul_bounds he1 hx 5.036920235 5.037141352 (by norm_num)
  have hfn := mul_bounds hfwd hn1 34.574905912 34.57496609 (by norm_num)
  have hkn := mul_bounds (const_bounds 110) hn2 34.574881 34.574991 (by norm_num)
  have hg := sub_bounds hfn hkn (-0.000085088) 0.00008509 (by norm_num)
  have ha18 := mul_bounds he1 hg (-0.000081752) 0.000081754 (by norm_num)
  have hsq := mul_bounds hstd hq 0.242155648 0.242155693 (by norm_num)
  have ha16 := div_bounds ha18 hsq (-0.000337602) 0.00033761 (by norm_num) (by norm_num)
  have hb13 := div_bounds ha16 (const_bounds 110) (-0.00000307) 0.00000307 (by norm_num) (by norm_num)
  have hep := mul_bounds he1 hp1 0.328352371 0.328353367 (by norm_num)
  have ha13 := add_bounds hep hb13 0.328349301 0.328356437 (by norm_num)
  have htoSpot := mul_bounds ha13 he2 0.309227715 0.309234469 (by norm_num)
  have ha12 := mul_bounds ha13 hfwd 30.922771528 30.923446855 (by norm_num)
  have ha10 := mul_bounds (const_bounds 2) ha12 61.845543056 61.84689371 (by norm_num)
  have ha7 := mul_bounds (const_bounds 2) hvalue 10.07384047 10.074282704 (by norm_num)
  have htoRate := sub_bounds ha10 ha7 51.771260352 51.77305324 (by norm_num)
  have htoYield := neg_bounds ha10
  have hhk := mul_bounds he1 hkn 33.219179171 33.219288316 (by norm_num)
  have hhf := mul_bounds he1 hfn 33.219203106 33.219264383 (by norm_num)
  have hsumh := add_bounds hhk hhf 66.438382277 66.438552699 (by norm_num)
  have hhalf := mul_bounds (const_bounds 0.5) hsumh 33.219191138 33.21927635 (by norm_num)
  have hss := mul_bounds hstd hstd 0.079999992 0.080000005 (by norm_num)
  have hls := div_bounds hl hss (-1.941380195) (-1.941373628) (by norm_num) (by norm_num)
  have hc := mul_bounds ha18 hls (-0.000158716) 0.000158712 (by norm_num)
  have ha15 := sub_bounds hhalf hc 33.219032426 33.219435066 (by norm_num)
  have htoVol := mul_bounds ha15 hs 46.978804113 46.979376855 (by norm_num)
  have hep2 := mul_bounds he1 hp2 0.235327396 0.235328575 (by norm_num)
  have hnep2 := neg_bounds hep2
  have hfk := div_bounds hfwd (const_bounds 12100) 0.007783177 0.007783179 (by norm_num) (by norm_num)
  have hb4 := mul_bounds ha16 hfk (-0.000002628) 0.000002628 (by norm_num)
  have htoStrike := sub_bounds hnep2 hb4 (-0.235331203) (-0.235324768) (by norm_num)
  have ha14 := mul_bounds (const_bounds 0.2) ha15 6.643806485 6.643887014 (by norm_num)
  have hhs := div_bounds (const_bounds 0.5) hs 0.353553381 0.353553407 (by norm_num) (by norm_num)
  have hm1 := mul_bounds ha14 hhs 2.348940245 2.34896889 (by norm_num)
  have hm2 := mul_bounds ha12 (const_bounds (-0.03)) (-0.927703406) (-0.927683145) (by norm_num)
  have hm3 := mul_bounds hvalue (const_bounds (-0.02)) (-0.100742828) (-0.100738404) (by norm_num)
  have hm12 := add_bounds hm1 hm2 1.421236839 1.421285745 (by norm_num)
  have htoMat := add_bounds hm12 hm3 1.320494011 1.320547341 (by norm_num)
  exact ⟨abs_sub_bounds hvalue (by norm_num),
    abs_sub_bounds htoSpot (by norm_num),
    abs_sub_bounds htoRate (by norm_num),
    abs_sub_bounds htoYield (by norm_num),
    abs_sub_bounds htoVol (by norm_num),
    abs_sub_bounds htoStrike (by norm_num),
    abs_sub_bounds htoMat (by norm_num)⟩

end ClosedFormLemmas

section SmokeLemmas
variable {D : Type} [LinearOrderedField D]

theorem getElem?_of_take {β : Type} {a l : List β} {n : Nat} (h : a.take n = l) (i : Nat)
    (hi : i < n) : a[i]? = l[i]? := by
  rw [← h, List.getElem?_take_of_lt hi]

set_option maxRecDepth 8000 in
theorem differentiateBlackScholes_closedForm (F : DoubleFns D) (e1 e2 s l p1 p2 n1 n2 : D)
    (he1 : F.exp ((0 - 0.02) * 2) = e1) (he2 : F.exp ((0.02 - 0.05) * 2) = e2)
    (hs : F.sqrt 2 = s) (hl : F.log (100 * e2 / 110) = l)
    (hp1 : F.normalCdf (l / (0.2 * s) + 0.5 * (0.2 * s)) = p1)
    (hp2 : F.normalCdf (l / (0.2 * s) - 0.5 * (0.2 * s)) = p2)
    (hn1 : F.normalDens (l / (0.2 * s) + 0.5 * (0.2 * s)) = n1)
    (hn2 : F.normalDens (l / (0.2 * s) - 0.5 * (0.2 * s)) = n2) :
    differentiateBlackScholes F [] = some (closedForm e1 e2 s l p1 p2 n1 n2) := by
  unfold differentiateBlackScholes blackScholes
  simp only [Number.ofDouble, Number.neg, Number.mul, Number.exp, Number.sub, Number.sqrt,
    Number.div, Number.log, Number.add, Number.normalCdf, Node.blank, List.length_nil,
    List.length_append, List.length_cons, List.nil_append, List.cons_append, List.append_assoc,
    List.singleton_append, Nat.add_sub_cancel, zero_add, Nat.reduceAdd, Nat.reduceSub,
    he1, he2, hs, hl, hp1, hp2, hn1, hn2]
  split
  · rename_i heq
    have h := congrArg (Option.map (fun a => a.take 6)) heq
    rw [blackScholes_sweep] at h
    exact absurd h (by simp)
  · rename_i adjoints heq
    have h := congrArg (Option.map (fun a => a.take 6)) heq
    rw [blackScholes_sweep] at h
    simp only [Option.map_some', Option.some.injEq] at h
    have h' := h.symm
    rw [getElem?_of_take h' 0 (by norm_num), getElem?_of_take h' 1 (by norm_num),
      getElem?_of_take h' 2 (by norm_num), getElem?_of_take h' 3 (by norm_num),
      getElem?_of_take h' 4 (by norm_num), getElem?_of_take h' 5 (by norm_num)]
    simp only [List.getElem?_cons_zero, List.getElem?_cons_succ, Option.bind_eq_bind,
      Option.some_bind, Option.some.injEq, closedForm, Printed.mk.injEq]
    refine ⟨?_, ?_, ?_, ?_, ?_, ?_, ?_⟩
    all_goals first
      | ring1
      | ring_nf

end SmokeLemmas

/-! ## Lemmas on adjoints of unrelated nodes -/

section UnrelatedLemmas

variable {α : Type} [Zero α] [One α] [Add α] [Mul α]

end UnrelatedLemmas

/-! ## Lemmas on binary64 arithmetic and the example programs -/

section Binary64Lemmas

end Binary64Lemmas

/-! ## Lemmas on the batch loop past the range of `int` -/

section OverflowLemmas

variable {β : Type}

/-- The loop returns nothing, whatever the fuel, from a start inside a set of
starts below `Np` that the step `firstPath := min(firstPath + Nb, Np)` maps to
itself. -/
theorem batchLoop_never (Np Nb : Int) (body : Int → Int → β → Option β) (S : Int → Prop)
    (hS : ∀ f, S f → f < Np ∧ S (min (wrapInt32 (f + Nb)) Np)) :
    ∀ (fuel : Nat) (f : Int) (acc : β), S f → batchLoop Np Nb body fuel f acc = none := by
  intro fuel
  induction fuel with
  | zero =>
    intro f acc hf
    unfold batchLoop
    simp only [(hS f hf).1, if_true]
  | succ fuel ih =>
    intro f acc hf
    unfold batchLoop
    simp only [(hS f hf).1, if_true]
    cases body f (min (wrapInt32 (f + Nb)) Np) acc with
    | none => rfl
    | some acc1 => exact ih _ acc1 (hS f hf).2

/-- With `Np = 2147483647` and `Nb = 1073741824` the second batch computes
`firstPath + Nb = 2147483648`; `firstPath` then takes the values 0, 1073741824,
-2147483648, -1073741824, 0, ... and never reaches `Np`. -/
theorem batchLoop_overflow (body : Int → Int → β → Option β) (fuel : Nat) (acc : β) :
    batchLoop 2147483647 1073741824 body fuel 0 acc = none := by
  refine batchLoop_never 2147483647 1073741824 body
    (fun f => f = 0 ∨ f = 1073741824 ∨ f = -2147483648 ∨ f = -1073741824) ?_ fuel 0 acc
    (Or.inl rfl)
  rintro f (rfl | rfl | rfl | rfl)
  · exact ⟨by decide, by decide⟩
  · exact ⟨by decide, by decide⟩
  · exact ⟨by decide, by decide⟩
  · exact ⟨by decide, by decide⟩

theorem batchBounds_range (Np Nb : Int) (n : Nat) (hNb : 0 ≤ Nb)
    (hov : (n : Int) * Nb ≤ 2147483647) :
    (List.range n).map (batchBounds Np Nb) = (List.range n).map (specBounds Np Nb) := by
  apply List.map_congr_left
  intro k hk
  exact batchBounds_eq Np Nb n hNb hov k (List.mem_range.1 hk)

end OverflowLemmas

/-! ## Lemmas relating the loop of the risk driver to the loop of the pricer -/

section SimulationLemmas

variable {D : Type} [Zero D] [One D] [OfNat D 2] [Neg D] [OfScientific D] [NatCast D] [IntCast D]
  [Add D] [Sub D] [Mul D] [Div D] [LT D] [DecidableRel (fun (a b : D) => a < b)]

/-- The two serial loops run in step: they visit the same batches, hold the same
generator, and hold the same running price when `a * b / c = a * (b / c)`, the
one law that separates `batchPrice * (lastPath - firstPath) / Np` on line 118
from `batchPrice * w` on line 218. -/
theorem risks_pricer_loop (hassoc : ∀ a b c : D, a * b / c = a * (b / c)) (F : DoubleFns D)
    (interpN : Interp2D (Number D) (Tape D)) (interpD : Interp2D D Unit)
    (hrec : InterpRecords interpN) (hval : InterpValue interpN interpD) (S0 : D)
    (spots times vols : List D) (maturity strike barrier : D) (Np Nb : Int) (Nt : Nat)
    (epsilon : D) :
    ∀ (fuel : Nat) (f : Int) (acc : RisksState D), acc.batchVegas.length = vols.length →
      (batchLoop Np Nb
          (risksBody F interpN S0 spots times vols maturity strike barrier Np Nt epsilon)
          fuel f acc).map RisksState.price
        = (batchLoop Np Nb
            (pricerBody F interpD S0 spots times vols maturity strike barrier Np Nt epsilon)
            fuel f (acc.price, acc.random)).map Prod.fst := by
  intro fuel
  induction fuel with
  | zero =>
    intro f acc _
    unfold batchLoop
    split <;> rfl
  | succ fuel ih =>
    intro f acc hlen
    unfold batchLoop
    by_cases hf : f < Np
    · simp only [hf, if_true]
      obtain ⟨r, hr, h0, hv, hvl, hrand, hvalue⟩ := recordBatch_spec F interpN hrec S0 spots
        times vols maturity strike barrier f (min (wrapInt32 (f + Nb)) Np) Nt epsilon acc.random
      rw [risksBody_spec F interpN S0 spots times vols maturity strike barrier Np Nt epsilon f
        (min (wrapInt32 (f + Nb)) Np) acc r hr h0 hv (hvl.trans hlen.symm)]
      have hp : pricerBody F interpD S0 spots times vols maturity strike barrier Np Nt epsilon f
          (min (wrapInt32 (f + Nb)) Np) (acc.price, acc.random)
          = some (acc.price + r.nBatchPrice.value
              * (((wrapInt32 (min (wrapInt32 (f + Nb)) Np - f) : Int) : D) / ((Np : Int) : D)),
            r.random) := by
        unfold pricerBody pricerBodyWith
        simp only [Option.map_some', Option.some.injEq]
        rw [hvalue interpD hval, hrand, hassoc,
          ← batch_random (doubleScalar F) interpD S0 spots times vols maturity strike barrier f
            (min (wrapInt32 (f + Nb)) Np) Nt epsilon acc.random ()]
        rfl
      rw [hp]
      simp only
      exact ih _ _ (by simp [BatchRecord.vegas, hvl])
    · simp only [hf, if_false]
      rfl

/-- The price output of `dupireBarrierRisks` is the return value of
`dupireBarrierPricer`, for all `Np`, `Nb` and any length of the run, in an
arithmetic where `a * b / c = a * (b / c)`. -/
theorem risks_price_map (hassoc : ∀ a b c : D, a * b / c = a * (b / c)) (F : DoubleFns D)
    (interpN : Interp2D (Number D) (Tape D)) (interpD : Interp2D D Unit)
    (hrec : InterpRecords interpN) (hval : InterpValue interpN interpD) (S0 : D)
    (spots times vols : List D) (maturity strike barrier : D) (Np Nb : Int) (Nt : Nat)
    (epsilon : D) (random : RNG D) (fuel : Nat)
    (hshape : vols.length = spots.length * times.length) :
    (dupireBarrierRisks F interpN S0 spots times vols maturity strike barrier Np Nb Nt epsilon
        random fuel).map Risks.price
      = dupireBarrierPricer F interpD S0 spots times vols maturity strike barrier Np Nb Nt
        epsilon random fuel := by
  unfold dupireBarrierRisks dupireBarrierPricer
  simp only [Option.map_map]
  exact risks_pricer_loop hassoc F interpN interpD hrec hval S0 spots times vols maturity
    strike barrier Np Nb Nt epsilon fuel 0 _ (by simp [hshape])

theorem foldlM_returns {β γ : Type} (body : β → γ → Option β)
    (h : ∀ acc b, ∃ acc', body acc b = some acc') :
    ∀ (l : List γ) (acc : β), ∃ r, l.foldlM body acc = some r := by
  intro l
  induction l with
  | nil => exact fun acc => ⟨acc, rfl⟩
  | cons b l ih =>
    intro acc
    obtain ⟨acc', h'⟩ := h acc b
    obtain ⟨r, hr⟩ := ih acc'
    exact ⟨r, by simp [List.foldlM, h', hr]⟩

/-- The pricer returns, in any arithmetic, when the batch bounds stay in the
range of `int` and the loop is given `Np` passes. -/
theorem pricer_returns (F : DoubleFns D) (interp2D : Interp2D D Unit) (S0 : D)
    (spots times vols : List D) (maturity strike barrier : D) (Np Nb : Int) (Nt : Nat)
    (epsilon : D) (random : RNG D) (fuel : Nat) (hNp : 1 ≤ Np) (hNb : 1 ≤ Nb)
    (hov : ((Np - 1) / Nb + 1) * Nb ≤ 2147483647) (hfuel : Np.toNat ≤ fuel) :
    ∃ price, dupireBarrierPricer F interp2D S0 spots times vols maturity strike barrier Np Nb
      Nt epsilon random fuel = some price := by
  have hr : Np ≤ 2147483647 := le_trans (noOverflow_range Np Nb hNb) hov
  obtain ⟨n, hn, _, hnNp, _, _, _⟩ := numBatches_spec Np Nb hNp hNb hr
  obtain ⟨r, hr⟩ := foldlM_returns
    (fun acc b => pricerBody F interp2D S0 spots times vols maturity strike barrier Np Nt
      epsilon (specBounds Np Nb b).1 (specBounds Np Nb b).2 acc)
    (fun acc b => ⟨_, rfl⟩) (List.range n) (0, random.init Nt)
  unfold dupireBarrierPricer
  simp only
  rw [batchLoop_eq_foldlM Np Nb hNp hNb hov _ n fuel hn (by omega), hr]
  exact ⟨_, rfl⟩

end SimulationLemmas

/-! ## Lemmas on the shape guard of the entry points -/

section GuardLemmas

theorem wrapInt32_add_mul (x k : Int) : wrapInt32 (x + 4294967296 * k) = wrapInt32 x := by
  unfold wrapInt32
  omega

theorem wrapInt32_mul_left (a b : Int) : wrapInt32 (wrapInt32 a * b) = wrapInt32 (a * b) := by
  obtain ⟨k, hk⟩ : ∃ k, wrapInt32 a = a + 4294967296 * k :=
    ⟨-((a + 2147483648) / 4294967296), by unfold wrapInt32; omega⟩
  rw [hk, add_mul, mul_assoc]
  exact wrapInt32_add_mul _ _

/-- The product of the guard is the exact product reduced to 32 bits. -/
theorem gridSize_eq_wrap (spots times : FP12) :
    gridSize spots times
      = wrapInt32 (spots.rows * spots.columns * times.rows * times.columns) := by
  unfold gridSize
  rw [wrapInt32_mul_left, mul_assoc (wrapInt32 _), wrapInt32_mul_left, ← mul_assoc]

/-- The guard compares the exact products when both are representable as `int`. -/
theorem guard_exact (spots times vols : FP12)
    (hg1 : -2147483648 ≤ spots.rows * spots.columns * times.rows * times.columns)
    (hg2 : spots.rows * spots.columns * times.rows * times.columns ≤ 2147483647)
    (hv1 : -2147483648 ≤ vols.rows * vols.columns)
    (hv2 : vols.rows * vols.columns ≤ 2147483647) :
    (gridSize spots times ≠ volsSize vols) ↔
      spots.rows * spots.columns * times.rows * times.columns ≠ vols.rows * vols.columns := by
  rw [gridSize_eq_wrap, volsSize, wrapInt32_eq _ hg1 hg2, wrapInt32_eq _ hv1 hv2]

end GuardLemmas

/-! ## Lemmas on zero volatility in any arithmetic -/

section ZeroVolLemmas2

variable {D : Type} [Zero D] [One D] [OfNat D 2] [Neg D] [OfScientific D] [NatCast D] [IntCast D]
  [Add D] [Sub D] [Mul D] [Div D] [LT D] [DecidableRel (fun (a b : D) => a < b)]

end ZeroVolLemmas2

/-! ## The claims -/

section C1

variable {α : Type}

/-- C1. On a well-formed tape, for a result whose `idx` is a tape position `N`
and tangents `t` that are free on the sources and obey the forward recurrence
`t k = der1 * t idx1 (+ der2 * t idx2)` elsewhere, `t N` is the sum over the
sources `s` of `calculateAdjoints(result)[s] * t s`: the adjoint read at a
source is the derivative of node `N` with respect to that source. -/
theorem calculateAdjoints_derivative [Semiring α] (tape : Tape α) (result : Number α)
    (t : Nat → α) (hwf : WellFormed tape) (hN : result.idx < tape.length)
    (ht : IsTangent tape t) :
    ∃ a, calculateAdjoints tape result = some a ∧
      t result.idx
        = ∑ s in (Finset.range tape.length).filter (fun s => IsSource tape s),
            (a[s]?).getD 0 * t s := by
  obtain ⟨a, ha, hlen, hP⟩ := calculateAdjoints_induct tape result hwf hN
    (fun j adj => t result.idx
      = ∑ k in Finset.range tape.length, (adj[k]?).getD 0 * weight tape t j k)
    (by
      intro adj _ hval
      simp only [hval]
      rw [sum_single_mul _ _ hN]
      simp [weight])
    (by
      intro j hj adj adj' _ _ hval hP
      rw [hP]
      obtain ⟨hle, h1, h2⟩ := hwf (j + 1) hj
      obtain ⟨ht1, ht2⟩ := ht (j + 1) hj
      have hw1 : 0 < (tape[j + 1]).numArg →
          weight tape t j (tape[j + 1]).idx1 = t (tape[j + 1]).idx1 := by
        intro h0
        have := h1 h0
        simp only [weight]
        rw [if_pos (Or.inl (by omega))]
      have hw2 : 1 < (tape[j + 1]).numArg →
          weight tape t j (tape[j + 1]).idx2 = t (tape[j + 1]).idx2 := by
        intro h0
        have := h2 h0
        simp only [weight]
        rw [if_pos (Or.inl (by omega))]
      have hL : ∑ k in Finset.range tape.length, (adj[k]?).getD 0 * weight tape t (j + 1) k
          = ∑ k in Finset.range tape.length, (adj[k]?).getD 0 * weight tape t j k
            + (adj[j + 1]?).getD 0 * (if (tape[j + 1]).numArg = 0 then 0 else t (j + 1)) := by
        simp only [weight_succ tape t j _ hj, mul_add, Finset.sum_add_distrib]
        congr 1
        rw [Finset.sum_eq_single (j + 1)]
        · simp
        · intro b _ hb
          simp [hb]
        · intro h
          exact absurd (Finset.mem_range.2 hj) h
      rw [hL]
      simp only [hval, add_mul, Finset.sum_add_distrib]
      rw [add_assoc]
      congr 1
      by_cases h0 : 0 < (tape[j + 1]).numArg
      · have hi1 : (tape[j + 1]).idx1 < tape.length := lt_trans (h1 h0) hj
        by_cases h1' : 1 < (tape[j + 1]).numArg
        · have hi2 : (tape[j + 1]).idx2 < tape.length := lt_trans (h2 h1') hj
          have e2 : (tape[j + 1]).numArg = 2 := by omega
          simp only [h0, h1', true_and]
          rw [sum_single_mul _ _ hi1, sum_single_mul _ _ hi2, hw1 h0, hw2 h1', ht2 e2]
          simp [e2, mul_add, mul_assoc]
        · have e1 : (tape[j + 1]).numArg = 1 := by omega
          simp only [h0, h1', true_and, false_and, if_false, zero_mul, Finset.sum_const_zero,
            add_zero]
          rw [sum_single_mul _ _ hi1, hw1 h0, ht1 e1]
          simp [e1, mul_assoc]
      · have e0 : (tape[j + 1]).numArg = 0 := by omega
        simp [e0])
  refine ⟨a, ha, ?_⟩
  rw [hP, Finset.sum_filter]
  apply Finset.sum_congr rfl
  intro k hk
  have hk' : k < tape.length := Finset.mem_range.1 hk
  simp only [weight]
  by_cases hs : IsSource tape k
  · simp [hs]
  · have hk0 : ¬ k ≤ 0 := by
      intro h0
      have e : k = 0 := by omega
      subst e
      apply hs
      rw [isSource_iff tape 0 hk']
      obtain ⟨_, h1, _⟩ := hwf 0 hk'
      by_contra hne
      exact absurd (h1 (by omega)) (by omega)
    simp [hs, hk0]

/-- Witness of C1 on `exampleTape` with output `z` at position 2. -/
theorem calculateAdjoints_derivative_witness :
    WellFormed exampleTape ∧ (⟨15, 2⟩ : Number ℚ).idx < exampleTape.length ∧
    IsTangent exampleTape exampleTangent ∧
    ∃ a, calculateAdjoints exampleTape ⟨15, 2⟩ = some a ∧
      exampleTangent (⟨15, 2⟩ : Number ℚ).idx
        = ∑ s in (Finset.range exampleTape.length).filter (fun s => IsSource exampleTape s),
            (a[s]?).getD 0 * exampleTangent s :=
  ⟨exampleTape_wf, by decide, exampleTangent_ok,
    calculateAdjoints_derivative exampleTape ⟨15, 2⟩ exampleTangent exampleTape_wf (by decide)
      exampleTangent_ok⟩

end C1

section C2

variable {α : Type}
variable [Zero α] [One α] [Add α] [Sub α] [Mul α] [Div α] [Neg α] [OfScientific α]

/-- C2. Tape well-formedness is an invariant of recording: after any finite
sequence of constructions from double, binary operators, unary minus, compound
assignments and elementary functions on Numbers created since the last clear,
started on an empty tape, every record at position `k` has `numArg` in
`{0, 1, 2}` and each argument index it uses is strictly below `k`. -/
theorem recording_wellFormed (F : DoubleFns α) (prog : List (Instr α)) (s : State α)
    (hrun : State.init.run F prog = some s) :
    ∀ k (h : k < s.tape.length),
      (s.tape[k]).numArg ≤ 2 ∧
      (1 ≤ (s.tape[k]).numArg → (s.tape[k]).idx1 < k) ∧
      ((s.tape[k]).numArg = 2 → (s.tape[k]).idx2 < k) := by
  have hinv : s.Inv :=
    run_inv F prog State.init s ⟨wellFormed_nil, fun v hv => absurd hv (List.not_mem_nil v)⟩ hrun
  intro k h
  obtain ⟨h0, h1, h2⟩ := hinv.1 k h
  exact ⟨h0, fun h => h1 h, fun h => h2 (by omega)⟩

/-- Witness of C2 on the program `x = 3, y = 5; z = x * y; w = log(z)`. -/
theorem recording_wellFormed_witness :
    State.init.run ratFns exampleProg = some exampleState ∧
    ∀ k (h : k < exampleState.tape.length),
      (exampleState.tape[k]).numArg ≤ 2 ∧
      (1 ≤ (exampleState.tape[k]).numArg → (exampleState.tape[k]).idx1 < k) ∧
      ((exampleState.tape[k]).numArg = 2 → (exampleState.tape[k]).idx2 < k) :=
  ⟨exampleProg_run, recording_wellFormed ratFns exampleProg exampleState exampleProg_run⟩

end C2

section C3

variable {α : Type}

/-- C3. Each of `+ - * /` and `log exp sqrt normalDens normalCdf` grows the tape
by exactly one record, at the position stored in the result's `idx`, of arity 2
for the operators and 1 for the functions, with the operands' `idx` and the
local derivatives of the table. -/
theorem recording_table [Field α] (F : DoubleFns α) (lhs rhs arg : Number α)
    (tape : Tape α) :
    RecordsBinary tape (Number.add lhs rhs tape) lhs rhs 1 1 ∧
    RecordsBinary tape (Number.sub lhs rhs tape) lhs rhs 1 (-1) ∧
    RecordsBinary tape (Number.mul lhs rhs tape) lhs rhs rhs.value lhs.value ∧
    RecordsBinary tape (Number.div lhs rhs tape) lhs rhs
      (1 / rhs.value) (-lhs.value / rhs.value ^ 2) ∧
    RecordsUnary tape (Number.log F arg tape) arg (1 / arg.value) ∧
    RecordsUnary tape (Number.exp F arg tape) arg (Number.exp F arg tape).1.value ∧
    RecordsUnary tape (Number.sqrt F arg tape) arg (0.5 / (Number.sqrt F arg tape).1.value) ∧
    RecordsUnary tape (Number.normalDens F arg tape) arg
      (-(Number.normalDens F arg tape).1.value * arg.value) ∧
    RecordsUnary tape (Number.normalCdf F arg tape) arg (F.normalDens arg.value) := by
  refine ⟨⟨_, rfl, getElem?_concat_self _ _, rfl, rfl, rfl, rfl, rfl⟩,
    ⟨_, rfl, getElem?_concat_self _ _, rfl, rfl, rfl, rfl, rfl⟩,
    ⟨_, rfl, getElem?_concat_self _ _, rfl, rfl, rfl, rfl, rfl⟩,
    ⟨_, rfl, getElem?_concat_self _ _, rfl, rfl, rfl, rfl, ?_⟩,
    ⟨_, rfl, getElem?_concat_self _ _, rfl, rfl, rfl⟩,
    ⟨_, rfl, getElem?_concat_self _ _, rfl, rfl, rfl⟩,
    ⟨_, rfl, getElem?_concat_self _ _, rfl, rfl, rfl⟩,
    ⟨_, rfl, getElem?_concat_self _ _, rfl, rfl, rfl⟩,
    ⟨_, rfl, getElem?_concat_self _ _, rfl, rfl, rfl⟩⟩
  show -lhs.value / (rhs.value * rhs.value) = -lhs.value / rhs.value ^ 2
  rw [pow_two]

end C3

section C4

variable {α : Type}

/-- C4. On a well-formed tape, for a result whose `idx` is `N < tape.size()`,
`calculateAdjoints` returns a vector of length exactly `tape.size()` whose entry
`N` is 1 and whose every entry `k > N` is 0. -/
theorem calculateAdjoints_length_seed_tail [Semiring α] (tape : Tape α) (result : Number α)
    (hwf : WellFormed tape) (hN : result.idx < tape.length) :
    ∃ a, calculateAdjoints tape result = some a ∧ a.length = tape.length ∧
      a[result.idx]? = some 1 ∧
      ∀ k, result.idx < k → k < tape.length → a[k]? = some 0 := by
  obtain ⟨a, ha, hlen, _, hP⟩ := calculateAdjoints_induct tape result hwf hN
    (fun j adj => j ≤ result.idx ∧ ∀ k, result.idx ≤ k →
      (adj[k]?).getD 0 = if k = result.idx then 1 else 0)
    (fun adj _ hval => ⟨le_refl _, fun k _ => hval k⟩)
    (by
      intro j hj adj adj' _ _ hval hP
      obtain ⟨hjN, hP⟩ := hP
      refine ⟨Nat.le_of_succ_le hjN, fun k hk => ?_⟩
      obtain ⟨_, h1, h2⟩ := hwf (j + 1) hj
      have c1 : ¬ (0 < (tape[j + 1]).numArg ∧ k = (tape[j + 1]).idx1) := by
        rintro ⟨h0, rfl⟩
        have := h1 h0
        omega
      have c2 : ¬ (1 < (tape[j + 1]).numArg ∧ k = (tape[j + 1]).idx2) := by
        rintro ⟨h0, rfl⟩
        have := h2 h0
        omega
      rw [hval k, if_neg c1, if_neg c2, add_zero, add_zero]
      exact hP k hk)
  refine ⟨a, ha, hlen, ?_, ?_⟩
  · have h := hP result.idx (le_refl _)
    rw [List.getElem?_eq_getElem (hlen ▸ hN)] at h ⊢
    simpa using h
  · intro k hk hkn
    have h := hP k (Nat.le_of_lt hk)
    rw [List.getElem?_eq_getElem (hlen ▸ hkn)] at h ⊢
    simpa [Nat.ne_of_gt hk] using h

/-- Witness of C4 on `exampleTape` with output `z` at position 2. -/
theorem calculateAdjoints_length_seed_tail_witness :
    WellFormed exampleTape ∧ (⟨15, 2⟩ : Number ℚ).idx < exampleTape.length ∧
    ∃ a, calculateAdjoints exampleTape ⟨15, 2⟩ = some a ∧ a.length = exampleTape.length ∧
      a[(⟨15, 2⟩ : Number ℚ).idx]? = some 1 ∧
      ∀ k, (⟨15, 2⟩ : Number ℚ).idx < k → k < exampleTape.length → a[k]? = some 0 :=
  ⟨exampleTape_wf, by decide,
    calculateAdjoints_length_seed_tail exampleTape ⟨15, 2⟩ exampleTape_wf (by decide)⟩

end C4

section C5

variable {α : Type} [Zero α] [One α] [Add α] [Mul α]

end C5

section C6

variable {α : Type}

/-- C6. For two distinct sources `a`, `b` recorded on a fresh tape, the adjoints
of `a + b` are 1 at `a.idx` and 1 at `b.idx`; of `a * b`, `b.value` at `a.idx`
and `a.value` at `b.idx`; of `log(a)`, `1 / a.value` at `a.idx`; of `exp(a)`,
`exp(a.value)` at `a.idx`. -/
theorem adjoints_of_elementary_ops [Field α] (F : DoubleFns α) (x y : α) :
    (∃ adj, calculateAdjoints (Number.add (twoSources x y).1 (twoSources x y).2.1
          (twoSources x y).2.2).2
        (Number.add (twoSources x y).1 (twoSources x y).2.1 (twoSources x y).2.2).1 = some adj ∧
      adj[(twoSources x y).1.idx]? = some 1 ∧ adj[(twoSources x y).2.1.idx]? = some 1) ∧
    (∃ adj, calculateAdjoints (Number.mul (twoSources x y).1 (twoSources x y).2.1
          (twoSources x y).2.2).2
        (Number.mul (twoSources x y).1 (twoSources x y).2.1 (twoSources x y).2.2).1 = some adj ∧
      adj[(twoSources x y).1.idx]? = some (twoSources x y).2.1.value ∧
      adj[(twoSources x y).2.1.idx]? = some (twoSources x y).1.value) ∧
    (∃ adj, calculateAdjoints (Number.log F (twoSources x y).1 (twoSources x y).2.2).2
        (Number.log F (twoSources x y).1 (twoSources x y).2.2).1 = some adj ∧
      adj[(twoSources x y).1.idx]? = some (1 / (twoSources x y).1.value)) ∧
    (∃ adj, calculateAdjoints (Number.exp F (twoSources x y).1 (twoSources x y).2.2).2
        (Number.exp F (twoSources x y).1 (twoSources x y).2.2).1 = some adj ∧
      adj[(twoSources x y).1.idx]? = some (F.exp (twoSources x y).1.value)) ∧
    (twoSources x y).1.value = x ∧ (twoSources x y).2.1.value = y ∧
    (twoSources x y).1.idx ≠ (twoSources x y).2.1.idx := by
  refine ⟨⟨[1, 1, 1], ?_, ?_, ?_⟩, ⟨[y, x, 1], ?_, ?_, ?_⟩, ⟨[1 / x, 0, 1], ?_, ?_⟩,
    ⟨[F.exp x, 0, 1], ?_, ?_⟩, rfl, rfl, ?_⟩ <;>
  simp [twoSources, Number.ofDouble, Number.add, Number.mul, Number.log, Number.exp,
    calculateAdjoints, backward, propagate, Node.blank, List.replicate]

end C6

section C7

variable {α : Type}
variable [Zero α] [One α] [Add α] [Sub α] [Mul α] [Div α] [Neg α] [OfScientific α]

/-- C7 (as amended). Unary negation `-a` appends exactly two records: a source
record for the constant `0.0` and then the record of the subtraction, which is
the result's record; the result's value is `0 - a.value`. -/
theorem neg_appends_two (self : Number α) (tape : Tape α) :
    ∃ zero node, (Number.neg self tape).2 = tape ++ [zero, node] ∧
      (Number.neg self tape).2.length = tape.length + 2 ∧
      zero.numArg = 0 ∧
      (Number.neg self tape).2[(Number.neg self tape).1.idx]? = some node ∧
      node.numArg = 2 ∧ node.idx1 = tape.length ∧ node.idx2 = self.idx ∧
      node.der1 = 1 ∧ node.der2 = -1 ∧
      (Number.neg self tape).1.value = 0 - self.value := by
  refine ⟨{ (Node.blank : Node α) with numArg := 0 },
    { numArg := 2, idx1 := tape.length, idx2 := self.idx, der1 := 1, der2 := -1 },
    ?_, ?_, rfl, ?_, rfl, rfl, rfl, rfl, rfl, rfl⟩
  · simp [Number.neg, Number.sub, Number.ofDouble, Node.blank]
  · simp [Number.neg, Number.sub, Number.ofDouble]
  · exact getElem?_concat_self (tape ++ [{ (Node.blank : Node α) with numArg := 0 }]) _

/-- C7 (as stated) fails: negating the Number `3` recorded at position 0 of a
one-record tape leaves a tape of three records, not two. -/
theorem neg_appends_one_counterexample :
    ¬ ((Number.neg (⟨3, 0⟩ : Number ℚ) (Number.ofDouble (3 : ℚ) []).2).2.length
        = (Number.ofDouble (3 : ℚ) []).2.length + 1) := by
  decide

end C7

section C8

variable {α : Type}
variable [Zero α] [One α] [Add α] [Sub α] [Mul α] [Div α] [Neg α] [OfScientific α]

/-- C8. Constructing a Number from a double `x` appends exactly one record with
`numArg = 0`, sets `value = x` and `idx` to the tape size before the
construction; and a second construction later on the same tape, with no clear
in between, gets a different `idx`. -/
theorem ofDouble_source_unique_idx (F : DoubleFns α) (x y : α) (s s1 s2 : State α)
    (prog : List (Instr α)) (hstep : s.step F (Instr.ofDouble x) = some s1)
    (hprog : ∀ instr ∈ prog, instr ≠ Instr.clear) (hrun : s1.run F prog = some s2) :
    (∃ node, (Number.ofDouble x s.tape).2 = s.tape ++ [node] ∧ node.numArg = 0) ∧
    (Number.ofDouble x s.tape).2.length = s.tape.length + 1 ∧
    (Number.ofDouble x s.tape).1.value = x ∧
    (Number.ofDouble x s.tape).1.idx = s.tape.length ∧
    s1.tape = (Number.ofDouble x s.tape).2 ∧
    (Number.ofDouble y s2.tape).1.idx ≠ (Number.ofDouble x s.tape).1.idx := by
  have hlt := step_length_lt F s s1 _ (by simp) hstep
  have hle := run_length_le F prog s1 s2 hprog hrun
  simp only [State.step, Option.some.injEq] at hstep
  subst hstep
  refine ⟨⟨_, rfl, rfl⟩, by simp [Number.ofDouble], rfl, rfl, rfl, ?_⟩
  show s2.tape.length + 1 - 1 ≠ s.tape.length + 1 - 1
  omega

/-- Witness of C8: `x = 3`, then `y = 5; z = x * y`, then a construction from `7`. -/
theorem ofDouble_source_unique_idx_witness :
    (State.init : State ℚ).step ratFns (Instr.ofDouble 3) = some oneVar ∧
    (∀ instr ∈ exampleTail, instr ≠ Instr.clear) ∧
    oneVar.run ratFns exampleTail = some threeVars ∧
    ((∃ node, (Number.ofDouble (3 : ℚ) (State.init : State ℚ).tape).2
        = (State.init : State ℚ).tape ++ [node] ∧ node.numArg = 0) ∧
    (Number.ofDouble (3 : ℚ) (State.init : State ℚ).tape).2.length
      = (State.init : State ℚ).tape.length + 1 ∧
    (Number.ofDouble (3 : ℚ) (State.init : State ℚ).tape).1.value = 3 ∧
    (Number.ofDouble (3 : ℚ) (State.init : State ℚ).tape).1.idx
      = (State.init : State ℚ).tape.length ∧
    oneVar.tape = (Number.ofDouble (3 : ℚ) (State.init : State ℚ).tape).2 ∧
    (Number.ofDouble (7 : ℚ) threeVars.tape).1.idx
      ≠ (Number.ofDouble (3 : ℚ) (State.init : State ℚ).tape).1.idx) :=
  ⟨rfl, exampleTail_noClear, exampleTail_run,
    ofDouble_source_unique_idx ratFns 3 7 State.init oneVar threeVars exampleTail rfl
      exampleTail_noClear exampleTail_run⟩

end C8

section C9

variable {α : Type}
variable [Zero α] [One α] [Add α] [Sub α] [Mul α] [Div α] [Neg α] [OfScientific α]

/-- C9. For each compound assignment `a op= b` the resulting tape is the tape of
the binary operation `a op b` from the same state, and afterwards `a` holds the
value and `idx` of that binary result; `b`, and every variable other than `a`,
is unchanged (when `b` is `a` itself it is the rebound `a`). -/
theorem compound_assign_eq_binary (F : DoubleFns α) (op : BinOp) (i j : Nat) (s : State α)
    (a b : Number α) (ha : s.vars[i]? = some a) (hb : s.vars[j]? = some b) :
    ∃ s1 s2, s.step F (Instr.assign op i j) = some s1 ∧
      s.step F (Instr.binary op i j) = some s2 ∧
      s1.tape = s2.tape ∧ s1.tape = (op.run a b s.tape).2 ∧
      s1.vars[i]? = some (op.run a b s.tape).1 ∧
      s2.vars[s.vars.length]? = some (op.run a b s.tape).1 ∧
      (j ≠ i → s1.vars[j]? = some b) ∧
      (∀ k, k ≠ i → s1.vars[k]? = s.vars[k]?) ∧
      s1.vars.length = s.vars.length := by
  have hi : i < s.vars.length := by
    by_contra h
    rw [List.getElem?_eq_none (Nat.le_of_not_lt h)] at ha
    cases ha
  refine ⟨{ tape := (op.run a b s.tape).2, vars := s.vars.set i (op.run a b s.tape).1 },
    { tape := (op.run a b s.tape).2, vars := s.vars ++ [(op.run a b s.tape).1] },
    ?_, ?_, rfl, rfl, ?_, ?_, ?_, ?_, ?_⟩
  · simp only [State.step, ha, hb, Option.bind_eq_bind, Option.some_bind, binOp_runAssign]
  · simp only [State.step, ha, hb, Option.bind_eq_bind, Option.some_bind]
  · simp [List.getElem?_set, hi]
  · simp
  · intro hne
    simp [List.getElem?_set, Ne.symm hne, hb]
  · intro k hk
    simp [List.getElem?_set, Ne.symm hk]
  · simp

/-- Witness of C9: `x *= y` against `x * y` after `Number x = 3, y = 5;`. -/
theorem compound_assign_eq_binary_witness :
    twoVars.vars[0]? = some ⟨3, 0⟩ ∧ twoVars.vars[1]? = some ⟨5, 1⟩ ∧
    ∃ s1 s2, twoVars.step ratFns (Instr.assign BinOp.mul 0 1) = some s1 ∧
      twoVars.step ratFns (Instr.binary BinOp.mul 0 1) = some s2 ∧
      s1.tape = s2.tape ∧ s1.tape = (BinOp.mul.run ⟨3, 0⟩ ⟨5, 1⟩ twoVars.tape).2 ∧
      s1.vars[0]? = some (BinOp.mul.run ⟨3, 0⟩ ⟨5, 1⟩ twoVars.tape).1 ∧
      s2.vars[twoVars.vars.length]? = some (BinOp.mul.run ⟨3, 0⟩ ⟨5, 1⟩ twoVars.tape).1 ∧
      (1 ≠ 0 → s1.vars[1]? = some ⟨5, 1⟩) ∧
      (∀ k, k ≠ 0 → s1.vars[k]? = twoVars.vars[k]?) ∧
      s1.vars.length = twoVars.vars.length :=
  ⟨rfl, rfl, compound_assign_eq_binary ratFns BinOp.mul 0 1 twoVars ⟨3, 0⟩ ⟨5, 1⟩ rfl rfl⟩

end C9

section C10

variable {α : Type}
variable [Zero α] [One α] [Add α] [Sub α] [Mul α] [Div α] [Neg α] [OfScientific α]

/-- C10. Forward fidelity: the value of `lhs op rhs` is `lhs.value op rhs.value`
for the four operators, the value of `f(arg)` is `f(arg.value)` for the five
functions, and the operands keep their value and `idx`. -/
theorem forward_fidelity (F : DoubleFns α) (s : State α) (i j : Nat) (lhs rhs : Number α)
    (hl : s.vars[i]? = some lhs) (hr : s.vars[j]? = some rhs) :
    (Number.add lhs rhs s.tape).1.value = lhs.value + rhs.value ∧
    (Number.sub lhs rhs s.tape).1.value = lhs.value - rhs.value ∧
    (Number.mul lhs rhs s.tape).1.value = lhs.value * rhs.value ∧
    (Number.div lhs rhs s.tape).1.value = lhs.value / rhs.value ∧
    (Number.log F lhs s.tape).1.value = F.log lhs.value ∧
    (Number.exp F lhs s.tape).1.value = F.exp lhs.value ∧
    (Number.sqrt F lhs s.tape).1.value = F.sqrt lhs.value ∧
    (Number.normalDens F lhs s.tape).1.value = F.normalDens lhs.value ∧
    (Number.normalCdf F lhs s.tape).1.value = F.normalCdf lhs.value ∧
    (∀ op, ∃ s', s.step F (Instr.binary op i j) = some s' ∧
      s'.vars[s.vars.length]? = some (op.run lhs rhs s.tape).1 ∧
      s'.vars[i]? = some lhs ∧ s'.vars[j]? = some rhs) ∧
    (∀ f, ∃ s', s.step F (Instr.apply f i) = some s' ∧
      s'.vars[s.vars.length]? = some (f.run F lhs s.tape).1 ∧
      s'.vars[i]? = some lhs) := by
  have hi : i < s.vars.length := by
    by_contra h
    rw [List.getElem?_eq_none (Nat.le_of_not_lt h)] at hl
    cases hl
  have hj : j < s.vars.length := by
    by_contra h
    rw [List.getElem?_eq_none (Nat.le_of_not_lt h)] at hr
    cases hr
  refine ⟨rfl, rfl, rfl, rfl, rfl, rfl, rfl, rfl, rfl,
    fun op => ⟨{ tape := (op.run lhs rhs s.tape).2,
                 vars := s.vars ++ [(op.run lhs rhs s.tape).1] }, ?_, ?_, ?_, ?_⟩,
    fun f => ⟨{ tape := (f.run F lhs s.tape).2,
                vars := s.vars ++ [(f.run F lhs s.tape).1] }, ?_, ?_, ?_⟩⟩
  · simp only [State.step, hl, hr, Option.bind_eq_bind, Option.some_bind]
  · simp
  · simp [List.getElem?_append_left hi, hl]
  · simp [List.getElem?_append_left hj, hr]
  · simp only [State.step, hl, Option.bind_eq_bind, Option.some_bind]
  · simp
  · simp [List.getElem?_append_left hi, hl]

/-- Witness of C10 on the operands `x = 3`, `y = 5`. -/
theorem forward_fidelity_witness :
    twoVars.vars[0]? = some ⟨3, 0⟩ ∧ twoVars.vars[1]? = some ⟨5, 1⟩ ∧
    ((Number.add (⟨3, 0⟩ : Number ℚ) ⟨5, 1⟩ twoVars.tape).1.value = 3 + 5 ∧
     (Number.div (⟨3, 0⟩ : Number ℚ) ⟨5, 1⟩ twoVars.tape).1.value = 3 / 5 ∧
     (Number.sqrt ratFns (⟨3, 0⟩ : Number ℚ) twoVars.tape).1.value = ratFns.sqrt 3 ∧
     ∃ s', twoVars.step ratFns (Instr.binary BinOp.div 0 1) = some s' ∧
       s'.vars[0]? = some ⟨3, 0⟩ ∧ s'.vars[1]? = some ⟨5, 1⟩) :=
  ⟨rfl, rfl,
    (forward_fidelity ratFns twoVars 0 1 ⟨3, 0⟩ ⟨5, 1⟩ rfl rfl).1,
    (forward_fidelity ratFns twoVars 0 1 ⟨3, 0⟩ ⟨5, 1⟩ rfl rfl).2.2.2.1,
    (forward_fidelity ratFns twoVars 0 1 ⟨3, 0⟩ ⟨5, 1⟩ rfl rfl).2.2.2.2.2.2.1,
    ((forward_fidelity ratFns twoVars 0 1 ⟨3, 0⟩ ⟨5, 1⟩ rfl rfl).2.2.2.2.2.2.2.2.2.1
      BinOp.div).imp fun _ h => ⟨h.1, h.2.2.1, h.2.2.2⟩⟩

end C10

section C11

variable {α : Type}
variable [Zero α] [One α] [Add α] [Sub α] [Mul α] [Div α] [Neg α] [OfScientific α]

/-- C11. Recording is append-only: after a construction, an arithmetic operation
or an elementary function the records at positions `0..n-1` are those of the
tape before it, field for field; and `calculateAdjoints` leaves the tape
unchanged. -/
theorem recording_append_only (F : DoubleFns α) (s s' : State α) (instr : Instr α)
    (hne : instr ≠ Instr.clear) (hstep : s.step F instr = some s') :
    s.tape <+: s'.tape ∧
    (∀ k (h : k < s.tape.length), s'.tape[k]? = some s.tape[k]) ∧
    (∀ i adjoints s'', s'.adjoints i = some (adjoints, s'') → s''.tape = s'.tape) := by
  have hpre := step_prefix F s s' instr hne hstep
  refine ⟨hpre, fun k h => ?_, fun i adjoints s'' hadj => ?_⟩
  · obtain ⟨t, ht⟩ := hpre
    rw [← ht, List.getElem?_append_left h, List.getElem?_eq_getElem h]
  · unfold State.adjoints at hadj
    split at hadj
    · cases hadj
    · split at hadj
      · cases hadj
      · simp only [Option.some.injEq, Prod.mk.injEq] at hadj
        rw [← hadj.2]

/-- Witness of C11 on the statement `Number z = x * y;` after `Number x = 3, y = 5;`. -/
theorem recording_append_only_witness :
    Instr.binary BinOp.mul 0 1 ≠ (Instr.clear : Instr ℚ) ∧
    twoVars.step ratFns (Instr.binary BinOp.mul 0 1) = some threeVars ∧
    (twoVars.tape <+: threeVars.tape ∧
    (∀ k (h : k < twoVars.tape.length), threeVars.tape[k]? = some twoVars.tape[k]) ∧
    (∀ i adjoints s'', threeVars.adjoints i = some (adjoints, s'') →
      s''.tape = threeVars.tape)) :=
  ⟨by simp, twoVars_step_mul,
    recording_append_only ratFns twoVars threeVars (Instr.binary BinOp.mul 0 1) (by simp)
      twoVars_step_mul⟩

end C11

section C12

variable {D : Type} [LinearOrderedField D]

/-- C12 (as amended). Batch associativity: for `Np >= 1` and `Nb >= 1` such that
the end of the last batch before clipping, `((Np - 1) / Nb + 1) * Nb`, is at most
`INT_MAX = 2147483647`, with a generator that obeys the `skipTo`/`nextG`
contract, `dupireBarrierPricer` returns, over exact arithmetic, the sum over the
paths `i` of `[0, Np)` of the payoff of path `i`, divided by `Np`; hence the
price is the same for every such batch size. -/
theorem pricer_batch_associativity (F : DoubleFns D) (interp2D : Interp2D D Unit) (S0 : D)
    (spots times vols : List D) (maturity strike barrier : D) (Np Nb : Int) (Nt : Nat)
    (epsilon : D) (random : RNG D) (fuel : Nat) (hNp : 1 ≤ Np) (hNb : 1 ≤ Nb)
    (hov : ((Np - 1) / Nb + 1) * Nb ≤ 2147483647) (hfuel : Np.toNat ≤ fuel) :
    dupireBarrierPricer F interp2D S0 spots times vols maturity strike barrier Np Nb Nt epsilon
        random fuel
      = some ((∑ i in Finset.range Np.toNat,
          pathPayoff F interp2D S0 spots times vols maturity strike barrier Nt epsilon
            (random.draw Nt (i : Int))) / ((Np : Int) : D)) ∧
    ∀ (Nb' : Int) (fuel' : Nat), 1 ≤ Nb' → ((Np - 1) / Nb' + 1) * Nb' ≤ 2147483647 →
      Np.toNat ≤ fuel' →
      dupireBarrierPricer F interp2D S0 spots times vols maturity strike barrier Np Nb' Nt
          epsilon random fuel'
        = dupireBarrierPricer F interp2D S0 spots times vols maturity strike barrier Np Nb Nt
          epsilon random fuel := by
  refine ⟨pricer_value F interp2D S0 spots times vols maturity strike barrier Np Nb Nt epsilon
    random fuel hNp hNb hov hfuel, fun Nb' fuel' hNb' hov' hfuel' => ?_⟩
  rw [pricer_value F interp2D S0 spots times vols maturity strike barrier Np Nb Nt epsilon
      random fuel hNp hNb hov hfuel,
    pricer_value F interp2D S0 spots times vols maturity strike barrier Np Nb' Nt epsilon
      random fuel' hNp hNb' hov' hfuel']

/-- Witness of C12: three paths in batches of two and in batches of one. -/
theorem pricer_batch_associativity_witness :
    (1 : Int) ≤ 3 ∧ (1 : Int) ≤ 2 ∧ (((3 : Int) - 1) / 2 + 1) * 2 ≤ 2147483647 ∧
    (3 : Int).toNat ≤ 3 ∧
    (dupireBarrierPricer ratFns flatVol 100 [100] [1] [1 / 5] 1 110 150 3 2 1 1 exampleRNG 3
      = some ((∑ i in Finset.range (3 : Int).toNat,
          pathPayoff ratFns flatVol 100 [100] [1] [1 / 5] 1 110 150 1 1
            (exampleRNG.draw 1 (i : Int))) / ((3 : Int) : ℚ)) ∧
    ∀ (Nb' : Int) (fuel' : Nat), 1 ≤ Nb' → (((3 : Int) - 1) / Nb' + 1) * Nb' ≤ 2147483647 →
      (3 : Int).toNat ≤ fuel' →
      dupireBarrierPricer ratFns flatVol 100 [100] [1] [1 / 5] 1 110 150 3 Nb' 1 1 exampleRNG
          fuel'
        = dupireBarrierPricer ratFns flatVol 100 [100] [1] [1 / 5] 1 110 150 3 2 1 1
          exampleRNG 3) :=
  ⟨by decide, by decide, by decide, by decide,
    pricer_batch_associativity ratFns flatVol 100 [100] [1] [1 / 5] 1 110 150 3 2 1 1
      exampleRNG 3 (by decide) (by decide) (by decide) (by decide)⟩

/-- C12 (as stated) fails at `Np = 2147483647`, `Nb = 1073741824`: the second
pass of the loop computes `firstPath + Nb = 2147483648`, which is not an `int`.
In two's complement `lastPath` is -2147483648, `firstPath` then takes the values
0, 1073741824, -2147483648, -1073741824, 0, ... without reaching `Np`, and
`dupireBarrierPricer` returns no price, however long the loop runs. -/
theorem pricer_batch_overflow_counterexample :
    (1 : Int) ≤ 2147483647 ∧ (1 : Int) ≤ 1073741824 ∧
    (2147483647 : Int) ≤ 2147483647 ∧ (1073741824 : Int) ≤ 2147483647 ∧
    wrapInt32 (1073741824 + 1073741824) = -2147483648 ∧
    ∀ fuel : Nat,
      dupireBarrierPricer ratFns flatVol 100 [100] [1] [1 / 5] 1 110 150 2147483647 1073741824
        1 1 exampleRNG fuel = none := by
  refine ⟨by decide, by decide, by decide, by decide, by decide, fun fuel => ?_⟩
  unfold dupireBarrierPricer
  simp only [batchLoop_overflow, Option.map_none']

end C12

section C13

variable {D : Type} [LinearOrderedField D]

/-- C13 (as amended). Serial = parallel for prices: for `Np >= 1` and `Nb >= 1`
such that `((Np - 1) / Nb + 1) * Nb` is at most `INT_MAX = 2147483647`, with the
same inputs and generator, `dupireBarrierPricerMT` computes
`numBatches = (Np - 1) / Nb + 1` batches, they are
`[b * Nb, min(b * Nb + Nb, Np))` and exactly the batches of the loop of
`dupireBarrierPricer`, and over exact arithmetic both return the same price. -/
theorem pricerMT_eq_pricer (F : DoubleFns D) (interp2D : Interp2D D Unit) (S0 : D)
    (spots times vols : List D) (maturity strike barrier : D) (Np Nb : Int) (Nt : Nat)
    (epsilon : D) (random : RNG D) (fuel : Nat) (hNp : 1 ≤ Np) (hNb : 1 ≤ Nb)
    (hov : ((Np - 1) / Nb + 1) * Nb ≤ 2147483647) (hfuel : Np.toNat ≤ fuel) :
    (∃ n : Nat, numBatches Np Nb = some n ∧ (n : Int) = (Np - 1) / Nb + 1 ∧
      (∀ b : Nat, b < n →
        batchBounds Np Nb b = ((b : Int) * Nb, min ((b : Int) * Nb + Nb) Np)) ∧
      batchLoop Np Nb
          (fun firstPath lastPath (trace : List (Int × Int)) =>
            some (trace ++ [(firstPath, lastPath)])) fuel 0 []
        = some ((List.range n).map (batchBounds Np Nb))) ∧
    (∃ price,
      dupireBarrierPricerMT F interp2D S0 spots times vols maturity strike barrier Np Nb Nt
          epsilon random = some price ∧
      dupireBarrierPricer F interp2D S0 spots times vols maturity strike barrier Np Nb Nt
          epsilon random fuel = some price) := by
  have hr : Np ≤ 2147483647 := le_trans (noOverflow_range Np Nb hNb) hov
  obtain ⟨n, hn, _, hnNp, _, _, hq⟩ := numBatches_spec Np Nb hNp hNb hr
  have hov' : (n : Int) * Nb ≤ 2147483647 := by
    rw [hq]
    exact hov
  refine ⟨⟨n, hn, hq, fun b hb => batchBounds_eq Np Nb n (by omega) hov' b hb, ?_⟩, _,
    pricerMT_value F interp2D S0 spots times vols maturity strike barrier Np Nb Nt epsilon
      random hNp hNb hov,
    pricer_value F interp2D S0 spots times vols maturity strike barrier Np Nb Nt epsilon random
      fuel hNp hNb hov hfuel⟩
  rw [batchLoop_eq_foldlM Np Nb hNp hNb hov _ n fuel hn (by omega), trace_fold,
    batchBounds_range Np Nb n (by omega) hov']
  simp

/-- Witness of C13: three paths in batches of two. -/
theorem pricerMT_eq_pricer_witness :
    (1 : Int) ≤ 3 ∧ (1 : Int) ≤ 2 ∧ (((3 : Int) - 1) / 2 + 1) * 2 ≤ 2147483647 ∧
    (3 : Int).toNat ≤ 3 ∧
    ((∃ n : Nat, numBatches 3 2 = some n ∧ (n : Int) = (3 - 1) / 2 + 1 ∧
      (∀ b : Nat, b < n → batchBounds 3 2 b = ((b : Int) * 2, min ((b : Int) * 2 + 2) 3)) ∧
      batchLoop 3 2
          (fun firstPath lastPath (trace : List (Int × Int)) =>
            some (trace ++ [(firstPath, lastPath)])) 3 0 []
        = some ((List.range n).map (batchBounds 3 2))) ∧
    (∃ price,
      dupireBarrierPricerMT ratFns flatVol 100 [100] [1] [1 / 5] 1 110 150 3 2 1 1 exampleRNG
        = some price ∧
      dupireBarrierPricer ratFns flatVol 100 [100] [1] [1 / 5] 1 110 150 3 2 1 1 exampleRNG 3
        = some price)) :=
  ⟨by decide, by decide, by decide, by decide,
    pricerMT_eq_pricer ratFns flatVol 100 [100] [1] [1 / 5] 1 110 150 3 2 1 1 exampleRNG 3
      (by decide) (by decide) (by decide) (by decide)⟩

set_option maxRecDepth 100000 in
/-- C13 (as stated) fails twice. In double arithmetic, with zero volatility,
`S0 = 100.1`, strike 100, one step and 10 paths in batches of 1, the serial
driver adds `batchPrice * 1 / 10` ten times and returns
`7205759403792383 * 2^-56`, while the parallel driver sums the ten numbers
`1 * batchPrice` and divides by 10, which gives `7205759403792384 * 2^-56`. And
at `Np = 2147483647`, `Nb = 1073741824` the parallel driver takes two batches,
the second with `lastPath = -2147483648` where the formula has 2147483647, and
returns a price, while the loop of the serial driver never ends. -/
theorem pricerMT_eq_pricer_counterexample :
    (dupireBarrierPricer f64Fns zeroVol64 100.1 [] [] [] 1 100 1000 10 1 1 1 zeroRNG64 10
        = some (F64.fin false 7205759403792383 (-56)) ∧
      dupireBarrierPricerMT f64Fns zeroVol64 100.1 [] [] [] 1 100 1000 10 1 1 1 zeroRNG64
        = some (F64.fin false 7205759403792384 (-56))) ∧
    (numBatches 2147483647 1073741824 = some 2 ∧
      batchBounds 2147483647 1073741824 1 = (1073741824, -2147483648) ∧
      min ((1 : Int) * 1073741824 + 1073741824) 2147483647 = 2147483647 ∧
      (∃ price,
        dupireBarrierPricerMT ratFns flatVol 100 [100] [1] [1 / 5] 1 110 150 2147483647
          1073741824 1 1 exampleRNG = some price) ∧
      ∀ fuel : Nat,
        dupireBarrierPricer ratFns flatVol 100 [100] [1] [1 / 5] 1 110 150 2147483647
          1073741824 1 1 exampleRNG fuel = none) := by
  refine ⟨⟨by decide, by decide⟩, by decide, by decide, by decide, ?_, fun fuel => ?_⟩
  · have hn : numBatches 2147483647 1073741824 = some 2 := by decide
    unfold dupireBarrierPricerMT
    rw [hn]
    exact ⟨_, rfl⟩
  · unfold dupireBarrierPricer
    simp only [batchLoop_overflow, Option.map_none']

end C13

section C14

variable {D : Type} [LinearOrderedField D]

/-- C14 (as amended). Serial = parallel for risks, over exact arithmetic: for
`Np >= 1` and `Nb >= 1` such that `((Np - 1) / Nb + 1) * Nb` is at most
`INT_MAX = 2147483647`, with the same inputs and generator and each batch
recorded on its own freshly cleared tape, `dupireBarrierRisksMT` outputs the
same price, the same delta and the same grid of vegas, cell by cell, as
`dupireBarrierRisks`; both runs complete. -/
theorem risksMT_eq_risks (F : DoubleFns D) (interpN : Interp2D (Number D) (Tape D)) (S0 : D)
    (spots times vols : List D) (maturity strike barrier : D) (Np Nb : Int) (Nt : Nat)
    (epsilon : D) (random : RNG D) (fuel : Nat) (hNp : 1 ≤ Np) (hNb : 1 ≤ Nb)
    (hov : ((Np - 1) / Nb + 1) * Nb ≤ 2147483647) (hfuel : Np.toNat ≤ fuel)
    (hrec : InterpRecords interpN) (hshape : vols.length = spots.length * times.length) :
    ∃ r : Risks D,
      dupireBarrierRisks F interpN S0 spots times vols maturity strike barrier Np Nb Nt epsilon
        random fuel = some r ∧
      dupireBarrierRisksMT F interpN S0 spots times vols maturity strike barrier Np Nb Nt
        epsilon random = some r ∧
      r.vegas.length = spots.length * times.length := by
  have hr : Np ≤ 2147483647 := le_trans (noOverflow_range Np Nb hNb) hov
  obtain ⟨n, hn, _, hnNp, _, _, hq⟩ := numBatches_spec Np Nb hNp hNb hr
  have hov' : (n : Int) * Nb ≤ 2147483647 := by
    rw [hq]
    exact hov
  obtain ⟨R, hR, h0, hv, hlen, hrg, _⟩ := records_exist F interpN hrec S0 spots times vols
    maturity strike barrier Np Nb Nt epsilon random hshape
  refine ⟨_, risks_value F interpN S0 spots times vols maturity strike barrier Np Nb Nt epsilon
    random fuel hNp hNb hov n hn (by omega) R hR h0 hv hlen hrg,
    risksMT_value F interpN S0 spots times vols maturity strike barrier Np Nb Nt epsilon
    random (by omega) n hov' hn R hR h0 hv hlen, ?_⟩
  simp

/-- Witness of C14: one cell, three paths in batches of two, on the surface
that is flat at its first entry. -/
theorem risksMT_eq_risks_witness :
    (1 : Int) ≤ 3 ∧ (1 : Int) ≤ 2 ∧ (((3 : Int) - 1) / 2 + 1) * 2 ≤ 2147483647 ∧
    (3 : Int).toNat ≤ 3 ∧ InterpRecords flatVolN ∧
    [(1 / 5 : ℚ)].length = [(100 : ℚ)].length * [(1 : ℚ)].length ∧
    ∃ r : Risks ℚ,
      dupireBarrierRisks ratFns flatVolN 100 [100] [1] [1 / 5] 1 110 150 3 2 1 1 exampleRNG 3
        = some r ∧
      dupireBarrierRisksMT ratFns flatVolN 100 [100] [1] [1 / 5] 1 110 150 3 2 1 1 exampleRNG
        = some r ∧
      r.vegas.length = [(100 : ℚ)].length * [(1 : ℚ)].length :=
  ⟨by decide, by decide, by decide, by decide, flatVolN_records, rfl,
    risksMT_eq_risks ratFns flatVolN 100 [100] [1] [1 / 5] 1 110 150 3 2 1 1 exampleRNG 3
      (by decide) (by decide) (by decide) (by decide) flatVolN_records rfl⟩

set_option maxRecDepth 100000 in
set_option maxHeartbeats 4000000 in
/-- C14 (as stated) fails twice. In double arithmetic, with zero volatility,
`S0 = 100.1`, strike 100, one step and 5 paths in batches of 1, the serial
driver adds `batchPrice * (1 / 5)` five times and outputs the price
`7205759403792385 * 2^-56`, while the parallel driver sums the five numbers
`batchPrice * 1` and divides by 5, which gives `7205759403792384 * 2^-56`. And
at `Np = 2147483647`, `Nb = 1073741824` the loop of the serial driver never
ends (`firstPath + Nb` leaves the range of `int` in its second pass), so the
serial driver has no output. -/
theorem risksMT_eq_risks_counterexample :
    ((dupireBarrierRisks f64Fns zeroVolN64 100.1 [] [] [] 1 100 1000 5 1 1 1 zeroRNG64 5).map
          Risks.price
        = some (F64.fin false 7205759403792385 (-56)) ∧
      (dupireBarrierRisksMT f64Fns zeroVolN64 100.1 [] [] [] 1 100 1000 5 1 1 1 zeroRNG64).map
          Risks.price
        = some (F64.fin false 7205759403792384 (-56))) ∧
    ((1 : Int) ≤ 2147483647 ∧ (1 : Int) ≤ 1073741824 ∧
      ∀ fuel : Nat,
        dupireBarrierRisks ratFns flatVolN 100 [100] [1] [1 / 5] 1 110 150 2147483647
          1073741824 1 1 exampleRNG fuel = none) := by
  refine ⟨⟨by decide, by decide⟩, by decide, by decide, fun fuel => ?_⟩
  unfold dupireBarrierRisks
  simp only [batchLoop_overflow, Option.map_none']

end C14

section C15

variable {D : Type} [Zero D] [One D] [OfNat D 2] [Neg D] [OfScientific D] [NatCast D] [IntCast D]
  [Add D] [Sub D] [Mul D] [Div D] [LT D] [DecidableRel (fun (a b : D) => a < b)]

/-- C15 (as amended). The risk run prices like the value-only run. In any
arithmetic, given that `interp2D` on Numbers returns a value equal to `interp2D`
on the doubles, the comparisons that select the barrier and payoff branches have
the same outcome on Numbers as on their values, the step loop on Numbers ends
with the values the step loop on doubles ends with, and `dupireBarrierMCBatch`
on Numbers returns a Number whose value is the result of `dupireBarrierMCBatch`
on doubles. Over exact arithmetic, of which the law `a * b / c = a * (b / c)` is
what is used, the price output of `dupireBarrierRisks` is the return value of
`dupireBarrierPricer`, for all `Np` and `Nb`; and both return when `Np >= 1`,
`Nb >= 1` and the batch bounds stay in the range of `int`. -/
theorem risks_price_eq_pricer (F : DoubleFns D) (interpN : Interp2D (Number D) (Tape D))
    (interpD : Interp2D D Unit) (S0 : D) (spots times vols : List D)
    (maturity strike barrier : D) (Np Nb : Int) (Nt : Nat) (epsilon : D) (random : RNG D)
    (fuel : Nat) (hrec : InterpRecords interpN) (hval : InterpValue interpN interpD)
    (hshape : vols.length = spots.length * times.length) :
    (∀ (nBarrier nEpsilon nStrike spot : Number D) (tape : Tape D),
      (numberScalar F).gt spot ((numberScalar F).add nBarrier nEpsilon tape).1
        = (doubleScalar F).gt spot.value
            ((doubleScalar F).add nBarrier.value nEpsilon.value ()).1 ∧
      (numberScalar F).lt spot ((numberScalar F).sub nBarrier nEpsilon tape).1
        = (doubleScalar F).lt spot.value
            ((doubleScalar F).sub nBarrier.value nEpsilon.value ()).1 ∧
      (numberScalar F).gt spot nStrike = (doubleScalar F).gt spot.value nStrike.value) ∧
    (∀ (nSpots nTimes nVols : List (Number D)) (nBarrier nEpsilon dt sdt : Number D)
      (gs : List D) (spot time notionalAlive : Number D) (tape : Tape D),
      (finalSpot (stepLoop (numberScalar F) interpN nSpots nTimes nVols nBarrier nEpsilon dt
          sdt gs spot time notionalAlive tape)).value
        = finalSpot (stepLoop (doubleScalar F) interpD (nSpots.map Number.value)
            (nTimes.map Number.value) (nVols.map Number.value) nBarrier.value nEpsilon.value
            dt.value sdt.value gs spot.value time.value notionalAlive.value ())) ∧
    (∀ (nS0 : Number D) (nSpots nTimes nVols : List (Number D))
      (nMaturity nStrike nBarrier : Number D) (firstPath lastPath : Int) (nEpsilon : Number D)
      (rng : RNG D) (tape : Tape D),
      (batchValue (dupireBarrierMCBatch (numberScalar F) interpN nS0 nSpots nTimes nVols
          nMaturity nStrike nBarrier firstPath lastPath Nt nEpsilon rng tape)).value
        = batchValue (dupireBarrierMCBatch (doubleScalar F) interpD nS0.value
            (nSpots.map Number.value) (nTimes.map Number.value) (nVols.map Number.value)
            nMaturity.value nStrike.value nBarrier.value firstPath lastPath Nt nEpsilon.value
            rng ())) ∧
    ((∀ a b c : D, a * b / c = a * (b / c)) →
      (dupireBarrierRisks F interpN S0 spots times vols maturity strike barrier Np Nb Nt
          epsilon random fuel).map Risks.price
        = dupireBarrierPricer F interpD S0 spots times vols maturity strike barrier Np Nb Nt
          epsilon random fuel ∧
      (1 ≤ Np → 1 ≤ Nb → ((Np - 1) / Nb + 1) * Nb ≤ 2147483647 → Np.toNat ≤ fuel →
        ∃ r : Risks D,
          dupireBarrierRisks F interpN S0 spots times vols maturity strike barrier Np Nb Nt
            epsilon random fuel = some r ∧
          dupireBarrierPricer F interpD S0 spots times vols maturity strike barrier Np Nb Nt
            epsilon random fuel = some r.price)) := by
  refine ⟨fun _ _ _ _ _ => ⟨rfl, rfl, rfl⟩, ?_, ?_, fun hassoc => ?_⟩
  · intro nSpots nTimes nVols nBarrier nEpsilon dt sdt gs spot time notionalAlive tape
    exact (stepLoop_value F interpN interpD nSpots nTimes nVols
      (fun spot time tape => hval nSpots nTimes nVols spot time tape) nBarrier nEpsilon dt sdt
      gs spot time notionalAlive tape).1
  · intro nS0 nSpots nTimes nVols nMaturity nStrike nBarrier firstPath lastPath nEpsilon rng
      tape
    exact batch_value F interpN interpD hval nS0 nSpots nTimes nVols nMaturity nStrike nBarrier
      firstPath lastPath Nt nEpsilon rng tape
  · have hmap := risks_price_map hassoc F interpN interpD hrec hval S0 spots times vols
      maturity strike barrier Np Nb Nt epsilon random fuel hshape
    refine ⟨hmap, fun hNp hNb hov hfuel => ?_⟩
    obtain ⟨price, hprice⟩ := pricer_returns F interpD S0 spots times vols maturity strike
      barrier Np Nb Nt epsilon random fuel hNp hNb hov hfuel
    rw [hprice] at hmap ⊢
    cases hrisks : dupireBarrierRisks F interpN S0 spots times vols maturity strike barrier Np
        Nb Nt epsilon random fuel with
    | none =>
      rw [hrisks] at hmap
      cases hmap
    | some r =>
      rw [hrisks] at hmap
      refine ⟨r, rfl, ?_⟩
      simpa using hmap.symm

/-- Witness of C15 over the rationals: one cell, three paths in batches of two,
on the surface that is flat at its first entry. -/
theorem risks_price_eq_pricer_witness :
    InterpRecords flatVolN ∧ InterpValue flatVolN flatVol ∧
    [(1 / 5 : ℚ)].length = [(100 : ℚ)].length * [(1 : ℚ)].length ∧
    (∀ a b c : ℚ, a * b / c = a * (b / c)) ∧
    (1 : Int) ≤ 3 ∧ (1 : Int) ≤ 2 ∧ (((3 : Int) - 1) / 2 + 1) * 2 ≤ 2147483647 ∧
    (3 : Int).toNat ≤ 3 ∧
    ∃ r : Risks ℚ,
      dupireBarrierRisks ratFns flatVolN 100 [100] [1] [1 / 5] 1 110 150 3 2 1 1 exampleRNG 3
        = some r ∧
      dupireBarrierPricer ratFns flatVol 100 [100] [1] [1 / 5] 1 110 150 3 2 1 1 exampleRNG 3
        = some r.price :=
  ⟨flatVolN_records, flatVolN_value, rfl, fun a b c => mul_div_assoc a b c, by decide,
    by decide, by decide, by decide,
    ((risks_price_eq_pricer ratFns flatVolN flatVol 100 [100] [1] [1 / 5] 1 110 150 3 2 1 1
      exampleRNG 3 flatVolN_records flatVolN_value rfl).2.2.2
        (fun a b c => mul_div_assoc a b c)).2 (by decide) (by decide) (by decide) (by decide)⟩

set_option maxRecDepth 100000 in
set_option maxHeartbeats 4000000 in
/-- C15 (as stated) fails in double arithmetic: with zero volatility,
`S0 = 100.1`, strike 100, one step and 5 paths in batches of 1, the batch price
is `x = 7205759403792384 * 2^-56` in both runs; `dupireBarrierRisks` adds
`x * (1 / 5)` five times and outputs the price `7205759403792385 * 2^-56`, while
`dupireBarrierPricer` adds `x * 1 / 5` five times and returns
`7205759403792384 * 2^-56`. -/
theorem risks_price_eq_pricer_counterexample :
    InterpValue zeroVolN64 zeroVol64 ∧
    (100.1 : F64) - 100 = F64.fin false 7205759403792384 (-56) ∧
    F64.fin false 7205759403792384 (-56) * 1 / 5
      ≠ F64.fin false 7205759403792384 (-56) * (1 / 5) ∧
    (dupireBarrierRisks f64Fns zeroVolN64 100.1 [] [] [] 1 100 1000 5 1 1 1 zeroRNG64 5).map
        Risks.price
      = some (F64.fin false 7205759403792385 (-56)) ∧
    dupireBarrierPricer f64Fns zeroVol64 100.1 [] [] [] 1 100 1000 5 1 1 1 zeroRNG64 5
      = some (F64.fin false 7205759403792384 (-56)) :=
  ⟨fun _ _ _ _ _ _ => rfl, by decide, by decide, by decide, by decide⟩

end C15

section C16

/-- C16. The code misses the claim in `xDupireBarrierRisks`: with `paths = 0` the
error value of line 144 is built and not returned, and the entry point goes on
to call `dupireBarrierRisks` with `Np = 0`. -/
theorem xDupireBarrierRisks_missing_return :
    (0 : ℚ) ≤ 0 ∧
    xDupireBarrierRisks (D := ℚ) ⟨1, 1⟩ ⟨1, 1⟩ ⟨1, 1⟩ 0 1 1 0
      = Outcome.call Driver.risks 0 1 1 ∧
    xDupireBarrierPricer (D := ℚ) ⟨1, 1⟩ ⟨1, 1⟩ ⟨1, 1⟩ 0 1 1 0 = Outcome.error := by
  refine ⟨le_refl _, ?_, ?_⟩
  · have hg : gridSize ⟨1, 1⟩ ⟨1, 1⟩ = volsSize ⟨1, 1⟩ := by decide
    simp [xDupireBarrierRisks, toInt, hg]
    norm_num
  · simp [xDupireBarrierPricer]

end C16

section C17

variable {D : Type} [LinearOrderedField D] [FloorRing D]

end C17

section C18

variable {D : Type} [LinearOrderedField D] [FloorRing D]

/-- C18 (as amended). When the product of the four dimensions of `spots` and
`times` and the number of `vols` entries are both representable as `int` (at
most `INT_MAX = 2147483647`), both entry points return their error value,
without calling a driver, whenever the former differs from the latter; and
whenever one of them calls a driver the product equals the `vols` size. -/
theorem shape_mismatch_rejected (spots times vols : FP12)
    (paths batchSize steps parallel : D)
    (hg1 : -2147483648 ≤ spots.rows * spots.columns * times.rows * times.columns)
    (hg2 : spots.rows * spots.columns * times.rows * times.columns ≤ 2147483647)
    (hv1 : -2147483648 ≤ vols.rows * vols.columns)
    (hv2 : vols.rows * vols.columns ≤ 2147483647) :
    (spots.rows * spots.columns * times.rows * times.columns ≠ vols.rows * vols.columns →
      xDupireBarrierPricer spots times vols paths batchSize steps parallel = Outcome.error ∧
      xDupireBarrierRisks spots times vols paths batchSize steps parallel = Outcome.error) ∧
    (∀ driver Np Nb Nt,
      (xDupireBarrierPricer spots times vols paths batchSize steps parallel
          = Outcome.call driver Np Nb Nt ∨
        xDupireBarrierRisks spots times vols paths batchSize steps parallel
          = Outcome.call driver Np Nb Nt) →
      spots.rows * spots.columns * times.rows * times.columns = vols.rows * vols.columns) := by
  have hreject : spots.rows * spots.columns * times.rows * times.columns
        ≠ vols.rows * vols.columns →
      xDupireBarrierPricer spots times vols paths batchSize steps parallel = Outcome.error ∧
      xDupireBarrierRisks spots times vols paths batchSize steps parallel = Outcome.error := by
    intro hshape
    have hguard : gridSize spots times ≠ volsSize vols :=
      (guard_exact spots times vols hg1 hg2 hv1 hv2).2 hshape
    constructor
    · unfold xDupireBarrierPricer
      split_ifs <;> rfl
    · unfold xDupireBarrierRisks
      simp only
      rw [if_pos hguard]
  refine ⟨hreject, fun driver Np Nb Nt hcall => ?_⟩
  by_contra hshape
  obtain ⟨h1, h2⟩ := hreject hshape
  rcases hcall with h | h
  · rw [h1] at h; cases h
  · rw [h2] at h; cases h

/-- Witness of C18: a 5-point spot axis and a 4-point time axis against a 5 x 3
grid. -/
theorem shape_mismatch_rejected_witness :
    (-2147483648 ≤ (⟨1, 5⟩ : FP12).rows * (⟨1, 5⟩ : FP12).columns * (⟨1, 4⟩ : FP12).rows
        * (⟨1, 4⟩ : FP12).columns) ∧
    ((⟨1, 5⟩ : FP12).rows * (⟨1, 5⟩ : FP12).columns * (⟨1, 4⟩ : FP12).rows
        * (⟨1, 4⟩ : FP12).columns ≤ 2147483647) ∧
    (-2147483648 ≤ (⟨5, 3⟩ : FP12).rows * (⟨5, 3⟩ : FP12).columns) ∧
    ((⟨5, 3⟩ : FP12).rows * (⟨5, 3⟩ : FP12).columns ≤ 2147483647) ∧
    (⟨1, 5⟩ : FP12).rows * (⟨1, 5⟩ : FP12).columns * (⟨1, 4⟩ : FP12).rows
        * (⟨1, 4⟩ : FP12).columns ≠ (⟨5, 3⟩ : FP12).rows * (⟨5, 3⟩ : FP12).columns ∧
    xDupireBarrierPricer (D := ℚ) ⟨1, 5⟩ ⟨1, 4⟩ ⟨5, 3⟩ 3 2 4 0 = Outcome.error ∧
    xDupireBarrierRisks (D := ℚ) ⟨1, 5⟩ ⟨1, 4⟩ ⟨5, 3⟩ 3 2 4 0 = Outcome.error :=
  ⟨by decide, by decide, by decide, by decide, by decide,
    (shape_mismatch_rejected (D := ℚ) ⟨1, 5⟩ ⟨1, 4⟩ ⟨5, 3⟩ 3 2 4 0 (by decide) (by decide)
      (by decide) (by decide)).1 (by decide)⟩

/-- C18 (as stated) fails: with `spots` of 65537 x 1, `times` of 65537 x 1 and
`vols` of 131073 x 1 entries the product 65537 * 1 * 65537 * 1 = 4295098369
differs from 131073, but the guard takes it in `int`, where it is 131073, and
both entry points call their driver. -/
theorem shape_mismatch_counterexample :
    (⟨65537, 1⟩ : FP12).rows * (⟨65537, 1⟩ : FP12).columns * (⟨65537, 1⟩ : FP12).rows
        * (⟨65537, 1⟩ : FP12).columns ≠ (⟨131073, 1⟩ : FP12).rows * (⟨131073, 1⟩ : FP12).columns ∧
    gridSize ⟨65537, 1⟩ ⟨65537, 1⟩ = 131073 ∧ volsSize ⟨131073, 1⟩ = 131073 ∧
    xDupireBarrierPricer (D := ℚ) ⟨65537, 1⟩ ⟨65537, 1⟩ ⟨131073, 1⟩ 1 1 1 0
      = Outcome.call Driver.pricer 1 1 1 ∧
    xDupireBarrierRisks (D := ℚ) ⟨65537, 1⟩ ⟨65537, 1⟩ ⟨131073, 1⟩ 1 1 1 0
      = Outcome.call Driver.risks 1 1 1 := by
  have hg : gridSize ⟨65537, 1⟩ ⟨65537, 1⟩ = volsSize ⟨131073, 1⟩ := by decide
  refine ⟨by decide, by decide, by decide, ?_, ?_⟩
  · simp [xDupireBarrierPricer, toInt, hg]
    norm_num
  · simp [xDupireBarrierRisks, toInt, hg]
    norm_num

end C18

section C19

variable {D : Type} [Zero D] [One D] [OfNat D 2] [Neg D] [OfScientific D] [NatCast D] [IntCast D]
  [Add D] [Sub D] [Mul D] [Div D] [LT D] [DecidableRel (fun (a b : D) => a < b)]
variable {E : Type} [LinearOrderedField E]

end C19

section C20

variable {α : Type} [LinearOrderedField α]

/-- C20 (as amended). With `epsilon = 0` exactly, barrier monitoring sets
`notionalAlive` to 0 and stops the path for every `spot > barrier`, and leaves
`notionalAlive` unchanged for every `spot < barrier`; at `spot = barrier` the
smoothing branch is taken, its factor `1 - 0 / (2 * 0)` is not a number, and
`notionalAlive` becomes not a number. -/
theorem monitor_zero_epsilon (F : DoubleFns (Dbl α)) (barrier spot : α)
    (notionalAlive : Dbl α) :
    (barrier < spot →
      monitoredNotional (monitor (doubleScalar F) (Dbl.fin barrier) (Dbl.fin 0) (Dbl.fin spot)
        notionalAlive ()) = Dbl.fin 0 ∧
      monitoredStop (monitor (doubleScalar F) (Dbl.fin barrier) (Dbl.fin 0) (Dbl.fin spot)
        notionalAlive ()) = true) ∧
    (spot < barrier →
      monitoredNotional (monitor (doubleScalar F) (Dbl.fin barrier) (Dbl.fin 0) (Dbl.fin spot)
        notionalAlive ()) = notionalAlive ∧
      monitoredStop (monitor (doubleScalar F) (Dbl.fin barrier) (Dbl.fin 0) (Dbl.fin spot)
        notionalAlive ()) = false) ∧
    (spot = barrier →
      monitoredNotional (monitor (doubleScalar F) (Dbl.fin barrier) (Dbl.fin 0) (Dbl.fin spot)
        notionalAlive ()) = Dbl.nan ∧
      monitoredStop (monitor (doubleScalar F) (Dbl.fin barrier) (Dbl.fin 0) (Dbl.fin spot)
        notionalAlive ()) = false) := by
  refine ⟨fun h => ?_, fun h => ?_, fun h => ?_⟩
  · unfold monitor
    simp [h, monitoredNotional, monitoredStop]
  · have h1 : ¬ barrier < spot := not_lt.2 (le_of_lt h)
    unfold monitor
    simp [h, h1, monitoredNotional, monitoredStop]
  · subst h
    rw [monitor_at_barrier]
    exact ⟨rfl, rfl⟩

/-- C20 (as stated) fails at `spot = barrier`: with `epsilon = 0`,
`spot = barrier = 100` and `notionalAlive = 1` the smoothing branch divides 0 by
0 and `notionalAlive` is no longer 1. -/
theorem monitor_zero_epsilon_counterexample :
    monitoredNotional (monitor (doubleScalar ratFns.lift) (Dbl.fin (100 : ℚ)) (Dbl.fin 0)
      (Dbl.fin 100) (Dbl.fin 1) ()) ≠ Dbl.fin 1 := by
  rw [monitor_at_barrier]
  simp [monitoredNotional]

end C20

section C21

variable {D : Type} [LinearOrderedField D]

/-- C21. Black-Scholes smoke test. With library functions that agree with `exp`,
`sqrt`, `log`, the normal distribution function and the normal density to seven
decimals at the arguments of the run (the hypotheses enclose the values of the
real functions), `differentiateBlackScholes` on the empty tape, which records
`blackScholes` on the sources `spot = 100`, `rate = 0.02`, `yield = 0.05`,
`vol = 0.2`, `strike = 110`, `mat = 2` and runs `calculateAdjoints` on the
result, returns, in exact arithmetic, the value `5.03705` and the adjoints
`0.309` at `spot.idx`, `51.772` at `rate.idx`, `-61.846` at `yield.idx`,
`46.980` at `vol.idx`, `-0.235` at `strike.idx` and `1.321` at `mat.idx`, each
to within `5e-3`. -/
theorem blackScholes_smoke_test (F : DoubleFns D)
    (hexp1 : 0.9607894 ≤ F.exp (-0.04) ∧ F.exp (-0.04) ≤ 0.9607895)
    (hexp2 : 0.9417645 ≤ F.exp (-0.06) ∧ F.exp (-0.06) ≤ 0.9417646)
    (hsqrt : 1.4142135 ≤ F.sqrt 2 ∧ F.sqrt 2 ≤ 1.4142136)
    (hlog : ∀ x : D, 0.8561495 ≤ x → x ≤ 0.8561497 →
      -0.1553104 ≤ F.log x ∧ F.log x ≤ -0.1553099)
    (hcdf1 : ∀ x : D, -0.407684 ≤ x → x ≤ -0.407682 →
      0.3417527 ≤ F.normalCdf x ∧ F.normalCdf x ≤ 0.3417537)
    (hcdf2 : ∀ x : D, -0.690527 ≤ x → x ≤ -0.690524 →
      0.2449313 ≤ F.normalCdf x ∧ F.normalCdf x ≤ 0.2449325)
    (hdens1 : ∀ x : D, -0.407684 ≤ x → x ≤ -0.407682 →
      0.367129 ≤ F.normalDens x ∧ F.normalDens x ≤ 0.3671296)
    (hdens2 : ∀ x : D, -0.690527 ≤ x → x ≤ -0.690524 →
      0.3143171 ≤ F.normalDens x ∧ F.normalDens x ≤ 0.3143181) :
    ∃ out : Printed D, differentiateBlackScholes F [] = some out ∧
      |out.value - 5.03705| ≤ 0.005 ∧
      |out.toSpot - 0.309| ≤ 0.005 ∧
      |out.toRate - 51.772| ≤ 0.005 ∧
      |out.toYield - (-61.846)| ≤ 0.005 ∧
      |out.toVol - 46.980| ≤ 0.005 ∧
      |out.toStrike - (-0.235)| ≤ 0.005 ∧
      |out.toMat - 1.321| ≤ 0.005 := by
  have a1 : ((0 - 0.02) * 2 : D) = -0.04 := by norm_num
  have a2 : ((0.02 - 0.05) * 2 : D) = -0.06 := by norm_num
  have he1 : 0.9607894 ≤ F.exp ((0 - 0.02) * 2) ∧ F.exp ((0 - 0.02) * 2) ≤ 0.9607895 := by
    rw [a1]
    exact hexp1
  have he2 : 0.9417645 ≤ F.exp ((0.02 - 0.05) * 2) ∧ F.exp ((0.02 - 0.05) * 2) ≤ 0.9417646 := by
    rw [a2]
    exact hexp2
  -- the argument of `log`
  have hfwd := mul_bounds (const_bounds 100) he2 94.17645 94.17646 (by norm_num)
  have hq := div_bounds hfwd (const_bounds 110) 0.8561495 0.8561497 (by norm_num) (by norm_num)
  have hl := hlog _ hq.1 hq.2
  -- the arguments of `normalCdf`
  have hstd := mul_bounds (const_bounds 0.2) hsqrt 0.2828427 0.28284272 (by norm_num)
  have hd := div_bounds hl hstd (-0.54910521) (-0.549103402) (by norm_num) (by norm_num)
  have hh := mul_bounds (const_bounds 0.5) hstd 0.14142135 0.14142136 (by norm_num)
  have hd1 := add_bounds hd hh (-0.407684) (-0.407682) (by norm_num)
  have hd2 := sub_bounds hd hh (-0.690527) (-0.690524) (by norm_num)
  exact ⟨_, differentiateBlackScholes_closedForm F _ _ _ _ _ _ _ _ rfl rfl rfl rfl rfl rfl rfl rfl,
    closedForm_bounds _ _ _ _ _ _ _ _ he1 he2 hsqrt hl (hcdf1 _ hd1.1 hd1.2) (hcdf2 _ hd2.1 hd2.2)
      (hdens1 _ hd1.1 hd1.2) (hdens2 _ hd2.1 hd2.2)⟩

/-- Witness of C21: the stand-ins `smokeFns` lie in the enclosures. -/
theorem blackScholes_smoke_test_witness :
    ∃ out : Printed ℚ, differentiateBlackScholes smokeFns [] = some out ∧
      |out.value - 5.03705| ≤ 0.005 ∧
      |out.toSpot - 0.309| ≤ 0.005 ∧
      |out.toRate - 51.772| ≤ 0.005 ∧
      |out.toYield - (-61.846)| ≤ 0.005 ∧
      |out.toVol - 46.980| ≤ 0.005 ∧
      |out.toStrike - (-0.235)| ≤ 0.005 ∧
      |out.toMat - 1.321| ≤ 0.005 :=
  blackScholes_smoke_test smokeFns (by norm_num [smokeFns]) (by norm_num [smokeFns])
    (by norm_num [smokeFns]) (fun _ _ _ => by norm_num [smokeFns])
    (fun x _ h => by
      have h' : ¬ x < -0.5 := by linarith
      simp only [smokeFns, if_neg h']
      norm_num)
    (fun x _ h => by
      have h' : x < -0.5 := by linarith
      simp only [smokeFns, if_pos h']
      norm_num)
    (fun x _ h => by
      have h' : ¬ x < -0.5 := by linarith
      simp only [smokeFns, if_neg h']
      norm_num)
    (fun x _ h => by
      have h' : x < -0.5 := by linarith
      simp only [smokeFns, if_pos h']
      norm_num)

end C21

section C22

/-- C22. The code misses the claim: the tape is one global vector, shared by the
threads of the parallel loop. In a schedule of two threads in which the
`tape.clear()` of the second takes effect while the first is recording, the next
operation of the first thread is recorded at position 0 with arguments 0 and 1:
the tape is no longer well formed, the Number `nMaturity` of the first thread
points outside the tape, and `calculateAdjoints` returns a vector of length 1
with the seed where the derivative to `nS0` is read. Run alone, the same
statements leave a well-formed tape of three records and the adjoints
`(2, 100, 1)`. -/
theorem shared_tape_race :
    (∃ s, Threads.init.run ratFns raceSchedule = some s ∧
      s.vars false = [⟨100, 0⟩, ⟨2, 1⟩, ⟨200, 0⟩] ∧
      s.tape.length = 1 ∧ ¬ WellFormed s.tape ∧
      calculateAdjoints s.tape ⟨200, 0⟩ = some [1]) ∧
    (∃ s0, State.init.run ratFns bodyStart = some s0 ∧
      s0.vars = [⟨100, 0⟩, ⟨2, 1⟩, ⟨200, 2⟩] ∧
      s0.tape.length = 3 ∧ WellFormed s0.tape ∧
      calculateAdjoints s0.tape ⟨200, 2⟩ = some [2, 100, 1]) := by
  constructor
  · obtain ⟨s, hs, htape⟩ := Option.map_eq_some'.1 raceSchedule_tape
    have hvars := raceSchedule_vars
    rw [hs] at hvars
    simp only [Option.map_some', Option.some.injEq] at hvars
    refine ⟨s, hs, hvars, ?_, ?_, ?_⟩
    · rw [htape]
      rfl
    · rw [htape]
      decide
    · rw [htape]
      simp [calculateAdjoints, backward]
  · refine ⟨_, bodyStart_run, rfl, rfl, by decide, ?_⟩
    simp [calculateAdjoints, backward, propagate]

end C22

section C23

variable {α : Type}

/-- C23. For every well-formed tape and output index `N` on it, the vector
returned by `calculateAdjoints`, whose backward loop runs `j = N` down to 1, is
the vector of the specified recurrence over every `k <= N` in descending order,
`k = 0` included; both are defined. -/
theorem calculateAdjoints_eq_specAdjoints [Semiring α] (tape : Tape α) (result : Number α)
    (hwf : WellFormed tape) (hN : result.idx < tape.length) :
    calculateAdjoints tape result = specAdjoints tape result.idx ∧
    ∃ a, specAdjoints tape result.idx = some a ∧ a.length = tape.length := by
  have heq : calculateAdjoints tape result = specAdjoints tape result.idx := by
    unfold calculateAdjoints specAdjoints
    simp only [List.length_replicate, hN, if_true]
    exact backward_eq_specSweep tape hwf result.idx _ hN
  obtain ⟨a, ha, hlen, _⟩ := calculateAdjoints_induct tape result hwf hN (fun _ _ => True)
    (fun _ _ _ => trivial) (fun _ _ _ _ _ _ _ _ => trivial)
  exact ⟨heq, a, heq ▸ ha, hlen⟩

/-- Witness of C23 on `exampleTape` with output `z` at position 2. -/
theorem calculateAdjoints_eq_specAdjoints_witness :
    WellFormed exampleTape ∧ (⟨15, 2⟩ : Number ℚ).idx < exampleTape.length ∧
    (calculateAdjoints exampleTape ⟨15, 2⟩ = specAdjoints exampleTape (⟨15, 2⟩ : Number ℚ).idx ∧
    ∃ a, specAdjoints exampleTape (⟨15, 2⟩ : Number ℚ).idx = some a ∧
      a.length = exampleTape.length) :=
  ⟨exampleTape_wf, by decide,
    calculateAdjoints_eq_specAdjoints exampleTape ⟨15, 2⟩ exampleTape_wf (by decide)⟩

end C23

section C24

variable {D : Type} [Zero D] [One D] [OfNat D 2] [Neg D] [OfScientific D] [NatCast D] [IntCast D]
  [Add D] [Sub D] [Mul D] [Div D] [LT D] [DecidableRel (fun (a b : D) => a < b)]

/-- C24 (as amended). For `Np >= 1` and `Nb >= 1` such that the end of the last
batch before clipping, `((Np - 1) / Nb + 1) * Nb`, is at most
`INT_MAX = 2147483647`, the batch loop of `dupireBarrierPricer` ends after
exactly `ceil(Np / Nb)` calls of `dupireBarrierMCBatch`; call `k` (from 0) has
`firstPath = k * Nb` and `lastPath = min((k + 1) * Nb, Np)`; every batch is
non-empty with `lastPath <= Np`, each batch starts where the one before ends,
every path of `[0, Np)` is in exactly one batch, and the weights
`(lastPath - firstPath) / Np` sum to 1. The calls are counted by the function
the loop body calls: `counted` appends the arguments of each call it receives. -/
theorem pricer_batches (F : DoubleFns D) (interp2D : Interp2D D Unit) (S0 : D)
    (spots times vols : List D) (maturity strike barrier : D) (Np Nb : Int) (Nt : Nat)
    (epsilon : D) (random : RNG D) (hNp : 1 ≤ Np) (hNb : 1 ≤ Nb)
    (hov : ((Np - 1) / Nb + 1) * Nb ≤ 2147483647) :
    ∃ n : Nat, (n : Int) = ⌈(Np : ℚ) / (Nb : ℚ)⌉ ∧
      (∀ fuel : Nat, n ≤ fuel → ∃ (price : D) (rng : RNG D),
        batchLoop Np Nb
            (pricerBodyWith
              (counted fun firstPath lastPath random st =>
                dupireBarrierMCBatch (doubleScalar F) interp2D S0 spots times vols maturity
                  strike barrier firstPath lastPath Nt epsilon random st) Np)
            fuel 0 (((0 : D), random.init Nt), [])
          = some ((price, rng),
              (List.range n).map fun (k : Nat) => ((k : Int) * Nb, min (((k : Int) + 1) * Nb) Np)) ∧
        dupireBarrierPricer F interp2D S0 spots times vols maturity strike barrier Np Nb Nt
          epsilon random fuel = some price) ∧
      (∀ k : Nat, k < n →
        (k : Int) * Nb < min (((k : Int) + 1) * Nb) Np ∧ min (((k : Int) + 1) * Nb) Np ≤ Np) ∧
      (∀ k : Nat, k + 1 < n → min (((k : Int) + 1) * Nb) Np = ((k + 1 : Nat) : Int) * Nb) ∧
      min ((n : Int) * Nb) Np = Np ∧
      (∀ i : Int, 0 ≤ i → i < Np →
        ∃! k : Nat, k < n ∧ (k : Int) * Nb ≤ i ∧ i < min (((k : Int) + 1) * Nb) Np) ∧
      ∑ k in Finset.range n,
        ((min (((k : Int) + 1) * Nb) Np - (k : Int) * Nb : Int) : ℚ) / ((Np : Int) : ℚ) = 1 := by
  have hr : Np ≤ 2147483647 := le_trans (noOverflow_range Np Nb hNb) hov
  obtain ⟨n, hn, h1, hnNp, hNpn, hlt, _⟩ := numBatches_spec Np Nb hNp hNb hr
  have hb : ∀ k : Nat, specBounds Np Nb k = ((k : Int) * Nb, min (((k : Int) + 1) * Nb) Np) := by
    intro k
    simp only [specBounds]
    congr 2
    ring
  refine ⟨n, numBatches_ceil Np Nb n hNb h1 hlt, fun fuel hfuel => ?_, fun k hk => ?_,
    fun k hk => ?_, min_eq_right hNpn, fun i h0 hi => ?_, ?_⟩
  · obtain ⟨r, hfold⟩ := foldlM_returns
      (fun acc b => pricerBody F interp2D S0 spots times vols maturity strike barrier Np Nt
        epsilon (specBounds Np Nb b).1 (specBounds Np Nb b).2 acc)
      (fun acc b => ⟨_, rfl⟩) (List.range n) (0, random.init Nt)
    have hfold' : (List.range n).foldlM
        (fun acc b =>
          (pricerBodyWith
            (fun firstPath lastPath random st =>
              dupireBarrierMCBatch (doubleScalar F) interp2D S0 spots times vols maturity strike
                barrier firstPath lastPath Nt epsilon random st)
            Np (specBounds Np Nb b).1 (specBounds Np Nb b).2 (acc, ())).map Prod.fst)
        ((0 : D), random.init Nt) = some r := hfold
    refine ⟨r.1, r.2, ?_, ?_⟩
    · rw [batchLoop_eq_foldlM Np Nb hNp hNb hov _ n fuel hn hfuel, counted_fold, hfold']
      have hbf : specBounds Np Nb
          = fun (k : Nat) => ((k : Int) * Nb, min (((k : Int) + 1) * Nb) Np) := funext hb
      simp only [Option.map_some', List.nil_append, hbf]
    · unfold dupireBarrierPricer
      simp only
      rw [batchLoop_eq_foldlM Np Nb hNp hNb hov _ n fuel hn hfuel, hfold]
      rfl
  · have hkn : (k : Int) * Nb < Np := (hlt k).1 hk
    refine ⟨?_, min_le_right _ _⟩
    rw [lt_min_iff]
    exact ⟨by linarith, hkn⟩
  · have hkn : ((k + 1 : Nat) : Int) * Nb < Np := (hlt (k + 1)).1 hk
    push_cast at hkn ⊢
    exact min_eq_left (le_of_lt hkn)
  · have h := batch_cover Np Nb n hNb hlt i h0 hi
    simp only [hb] at h
    exact h
  · have h := weights_sum (D := ℚ) Np Nb hNp n hNpn hlt
    simp only [hb] at h
    exact h

/-- Witness of C24: three paths in batches of two. -/
theorem pricer_batches_witness :
    (1 : Int) ≤ 3 ∧ (1 : Int) ≤ 2 ∧ (((3 : Int) - 1) / 2 + 1) * 2 ≤ 2147483647 ∧
    ∃ n : Nat, (n : Int) = ⌈((3 : Int) : ℚ) / ((2 : Int) : ℚ)⌉ ∧
      (∀ fuel : Nat, n ≤ fuel → ∃ (price : ℚ) (rng : RNG ℚ),
        batchLoop 3 2
            (pricerBodyWith
              (counted fun firstPath lastPath random st =>
                dupireBarrierMCBatch (doubleScalar ratFns) flatVol 100 [100] [1] [1 / 5] 1 110
                  150 firstPath lastPath 1 1 random st) 3)
            fuel 0 (((0 : ℚ), exampleRNG.init 1), [])
          = some ((price, rng),
              (List.range n).map fun (k : Nat) => ((k : Int) * 2, min (((k : Int) + 1) * 2) 3)) ∧
        dupireBarrierPricer ratFns flatVol 100 [100] [1] [1 / 5] 1 110 150 3 2 1 1 exampleRNG
          fuel = some price) ∧
      (∀ k : Nat, k < n →
        (k : Int) * 2 < min (((k : Int) + 1) * 2) 3 ∧ min (((k : Int) + 1) * 2) 3 ≤ 3) ∧
      (∀ k : Nat, k + 1 < n → min (((k : Int) + 1) * 2) 3 = ((k + 1 : Nat) : Int) * 2) ∧
      min ((n : Int) * 2) 3 = 3 ∧
      (∀ i : Int, 0 ≤ i → i < 3 →
        ∃! k : Nat, k < n ∧ (k : Int) * 2 ≤ i ∧ i < min (((k : Int) + 1) * 2) 3) ∧
      ∑ k in Finset.range n,
        ((min (((k : Int) + 1) * 2) 3 - (k : Int) * 2 : Int) : ℚ) / ((3 : Int) : ℚ) = 1 :=
  ⟨by decide, by decide, by decide,
    pricer_batches ratFns flatVol 100 [100] [1] [1 / 5] 1 110 150 3 2 1 1 exampleRNG
      (by decide) (by decide) (by decide)⟩

/-- C24 (as stated) fails at `Np = 2147483647`, `Nb = 1073741824`: the second
pass of the loop computes `firstPath + Nb = 2147483648`, which is not an `int`.
In two's complement `lastPath` is -2147483648, below `firstPath`, and
`firstPath` then takes the values 0, 1073741824, -2147483648, -1073741824, 0,
... without reaching `Np`: the loop does not end after `ceil(Np / Nb) = 2`
calls, nor after any number of them. -/
theorem pricer_batches_counterexample :
    (1 : Int) ≤ 2147483647 ∧ (1 : Int) ≤ 1073741824 ∧
    ⌈((2147483647 : Int) : ℚ) / ((1073741824 : Int) : ℚ)⌉ = 2 ∧
    min (wrapInt32 (1073741824 + 1073741824)) 2147483647 = -2147483648 ∧
    ∀ fuel : Nat,
      batchLoop 2147483647 1073741824
          (pricerBodyWith
            (counted fun firstPath lastPath random st =>
              dupireBarrierMCBatch (doubleScalar ratFns) flatVol 100 [100] [1] [1 / 5] 1 110
                150 firstPath lastPath 1 1 random st) 2147483647)
          fuel 0 (((0 : ℚ), exampleRNG.init 1), [])
        = none ∧
      dupireBarrierPricer ratFns flatVol 100 [100] [1] [1 / 5] 1 110 150 2147483647 1073741824
        1 1 exampleRNG fuel = none := by
  refine ⟨by decide, by decide, ?_, by decide, fun fuel => ⟨batchLoop_overflow _ fuel _, ?_⟩⟩
  · rw [Int.ceil_eq_iff]
    norm_num
  · unfold dupireBarrierPricer
    simp only [batchLoop_overflow, Option.map_none']

end C24

section C25

variable {D : Type} [Zero D] [One D] [OfNat D 2] [Neg D] [OfScientific D] [NatCast D] [IntCast D]
  [Add D] [Sub D] [Mul D] [Div D] [LT D] [DecidableRel (fun (a b : D) => a < b)]

/-- C25 (as amended). In `dupireBarrierMCBatch`, in any arithmetic, a step that
leaves `spot > barrier + epsilon` sets `notionalAlive` to 0 and ends the step
loop; a path on which this holds after one of its first steps is simulated no
further and ends with `notionalAlive = 0`; it adds `0 * (spot - strike)` to the
batch sum when `spot > strike` and nothing otherwise, which is exactly 0 whenever
`0 * (spot - strike)` is 0, as it is in doubles when `spot - strike` is finite. -/
theorem knocked_out_path (F : DoubleFns D) (interp2D : Interp2D D Unit) (S0 : D)
    (spots times vols : List D) (strike barrier epsilon dt sdt : D) (p rest : List D)
    (result : D) (hp : p ≠ [])
    (hko : barrier + epsilon < finalSpot (stepLoop (doubleScalar F) interp2D spots times vols
      barrier epsilon dt sdt p S0 0 1 ())) :
    (∀ (g : D) (gs : List D) (spot time notionalAlive : D),
      barrier + epsilon < steppedSpot (simulateStep (doubleScalar F) interp2D spots times vols
        dt sdt g spot time ()) →
      stepLoop (doubleScalar F) interp2D spots times vols barrier epsilon dt sdt (g :: gs) spot
          time notionalAlive ()
        = ((steppedSpot (simulateStep (doubleScalar F) interp2D spots times vols dt sdt g spot
              time ()),
            steppedTime (simulateStep (doubleScalar F) interp2D spots times vols dt sdt g spot
              time ()), 0), ())) ∧
    stepLoop (doubleScalar F) interp2D spots times vols barrier epsilon dt sdt (p ++ rest) S0 0
        1 ()
      = stepLoop (doubleScalar F) interp2D spots times vols barrier epsilon dt sdt p S0 0 1
        () ∧
    finalNotional (stepLoop (doubleScalar F) interp2D spots times vols barrier epsilon dt sdt
      (p ++ rest) S0 0 1 ()) = 0 ∧
    simulatePath (doubleScalar F) interp2D S0 spots times vols strike barrier epsilon dt sdt
        (p ++ rest) result ()
      = (if strike < finalSpot (stepLoop (doubleScalar F) interp2D spots times vols barrier
            epsilon dt sdt p S0 0 1 ())
          then result + 0 * (finalSpot (stepLoop (doubleScalar F) interp2D spots times vols
            barrier epsilon dt sdt p S0 0 1 ()) - strike)
          else result, ()) ∧
    (0 * (finalSpot (stepLoop (doubleScalar F) interp2D spots times vols barrier epsilon dt sdt
        p S0 0 1 ()) - strike) = 0 →
      simulatePath (doubleScalar F) interp2D S0 spots times vols strike barrier epsilon dt sdt
          (p ++ rest) result ()
        = (if strike < finalSpot (stepLoop (doubleScalar F) interp2D spots times vols barrier
              epsilon dt sdt p S0 0 1 ())
            then result + 0 else result, ())) := by
  obtain ⟨hsame, hzero⟩ := stepLoop_knocked_out F interp2D spots times vols barrier epsilon dt
    sdt p S0 0 1 hp hko
  have hna : finalNotional (stepLoop (doubleScalar F) interp2D spots times vols barrier epsilon
      dt sdt (p ++ rest) S0 0 1 ()) = 0 := by
    rw [hsame rest]
    exact hzero
  have hpath : simulatePath (doubleScalar F) interp2D S0 spots times vols strike barrier
        epsilon dt sdt (p ++ rest) result ()
      = (if strike < finalSpot (stepLoop (doubleScalar F) interp2D spots times vols barrier
            epsilon dt sdt p S0 0 1 ())
          then result + 0 * (finalSpot (stepLoop (doubleScalar F) interp2D spots times vols
            barrier epsilon dt sdt p S0 0 1 ()) - strike)
          else result, ()) := by
    unfold finalNotional at hzero
    unfold simulatePath finalSpot
    simp only [doubleScalar_ofDouble, doubleScalar_gt, doubleScalar_sub, doubleScalar_mul,
      doubleScalar_addAssign, hsame rest, hzero, decide_eq_true_eq]
    split_ifs <;> rfl
  refine ⟨fun g gs spot time notionalAlive hup => ?_, hsame rest, hna, hpath, fun h0 => ?_⟩
  · rw [stepLoop_cons_double, if_pos ((monitoredStop_iff F _ _ _ _).2 hup),
      monitor_above F barrier epsilon _ notionalAlive hup]
    rfl
  · rw [hpath, h0]

set_option maxRecDepth 100000 in
/-- Witness of C25 in double arithmetic: zero volatility and `S0 = 200` above
`barrier + epsilon = 151`; the path is knocked out by its first step, its second
step is not simulated, and with strike 110 it adds `0 * 90 = 0` to the batch sum
7. -/
theorem knocked_out_path_witness :
    ([0] : List F64) ≠ [] ∧
    (150 : F64) + 1 < finalSpot (stepLoop (doubleScalar f64Fns) zeroVol64 [] [] [] 150 1 1 1
      [0] 200 0 1 ()) ∧
    (0 : F64) * (finalSpot (stepLoop (doubleScalar f64Fns) zeroVol64 [] [] [] 150 1 1 1 [0] 200
      0 1 ()) - 110) = 0 ∧
    (110 : F64) < finalSpot (stepLoop (doubleScalar f64Fns) zeroVol64 [] [] [] 150 1 1 1 [0]
      200 0 1 ()) ∧
    (7 : F64) + 0 = 7 ∧
    stepLoop (doubleScalar f64Fns) zeroVol64 [] [] [] 150 1 1 1 ([0] ++ [0]) 200 0 1 ()
      = stepLoop (doubleScalar f64Fns) zeroVol64 [] [] [] 150 1 1 1 [0] 200 0 1 () ∧
    finalNotional (stepLoop (doubleScalar f64Fns) zeroVol64 [] [] [] 150 1 1 1 ([0] ++ [0]) 200
      0 1 ()) = 0 ∧
    simulatePath (doubleScalar f64Fns) zeroVol64 200 [] [] [] 110 150 1 1 1 ([0] ++ [0]) 7 ()
      = (if (110 : F64) < finalSpot (stepLoop (doubleScalar f64Fns) zeroVol64 [] [] [] 150 1 1
            1 [0] 200 0 1 ())
          then 7 + 0 else 7, ()) :=
  have h := knocked_out_path f64Fns zeroVol64 200 [] [] [] 110 150 1 1 1 [0] [0] 7 (by simp)
    (by decide)
  ⟨by simp, by decide, by decide, by decide, by decide, h.2.1, h.2.2.1,
    h.2.2.2.2 (by decide)⟩

set_option maxRecDepth 100000 in
set_option exponentiation.threshold 2000 in
/-- C25 (as stated) fails in double arithmetic: with zero volatility,
`S0 = 2^1023` (the double `4503599627370496 * 2^971`, about `8.99e307`), strike
`-2^1023`, barrier 150 and `epsilon = 1` the path is knocked out by its first
step (`S0 > 151`), `spot > strike`, and `spot - strike = 2^1024` overflows to
`+inf`; the path adds `0 * inf`, which is not a number, and the batch sum 0
becomes not a number. -/
theorem knocked_out_path_counterexample :
    ([0] : List F64) ≠ [] ∧
    (150 : F64) + 1 < finalSpot (stepLoop (doubleScalar f64Fns) zeroVol64 [] [] [] 150 1 1 1
      [0] (F64.fin false 4503599627370496 971) 0 1 ()) ∧
    finalNotional (stepLoop (doubleScalar f64Fns) zeroVol64 [] [] [] 150 1 1 1 [0]
      (F64.fin false 4503599627370496 971) 0 1 ()) = 0 ∧
    F64.fin false 4503599627370496 971 - F64.fin true 4503599627370496 971 = F64.inf false ∧
    (0 : F64) * F64.inf false = F64.nan ∧
    simulatePath (doubleScalar f64Fns) zeroVol64 (F64.fin false 4503599627370496 971) [] [] []
        (F64.fin true 4503599627370496 971) 150 1 1 1 [0] 0 ()
      = (F64.nan, ()) :=
  ⟨by simp, by decide, by decide, by decide, by decide, by decide⟩

end C25

section C26

variable {D : Type} [LinearOrderedField D]

/-- C26 (as amended). Over exact arithmetic, for `epsilon > 0`, barrier
monitoring takes its smoothing branch exactly when
`barrier - epsilon <= spot <= barrier + epsilon` and multiplies `notionalAlive`
by `1 - (spot - barrier + epsilon) / (2 * epsilon)`; this factor lies in `[0, 1]`
there, is 1 at `spot = barrier - epsilon` and 0 at `spot = barrier + epsilon`;
hence `notionalAlive` stays in `[0, 1]` and never increases, at each step and
along the step loop, for every sequence of spots. -/
theorem smoothing_factor_bounds (F : DoubleFns D) (interp2D : Interp2D D Unit)
    (spots times vols : List D) (barrier epsilon dt sdt : D) (heps : 0 < epsilon) :
    (∀ spot notionalAlive : D,
      monitor (doubleScalar F) barrier epsilon spot notionalAlive ()
        = if barrier + epsilon < spot then ((0, true), ())
          else if spot < barrier - epsilon then ((notionalAlive, false), ())
          else ((notionalAlive * smoothingFactor barrier epsilon spot, false), ())) ∧
    (∀ spot : D, barrier - epsilon ≤ spot → spot ≤ barrier + epsilon →
      0 ≤ smoothingFactor barrier epsilon spot ∧ smoothingFactor barrier epsilon spot ≤ 1) ∧
    smoothingFactor barrier epsilon (barrier - epsilon) = 1 ∧
    smoothingFactor barrier epsilon (barrier + epsilon) = 0 ∧
    (∀ spot notionalAlive : D, 0 ≤ notionalAlive → notionalAlive ≤ 1 →
      0 ≤ monitoredNotional (monitor (doubleScalar F) barrier epsilon spot notionalAlive ()) ∧
      monitoredNotional (monitor (doubleScalar F) barrier epsilon spot notionalAlive ())
        ≤ notionalAlive) ∧
    (∀ (gs : List D) (spot time notionalAlive : D), 0 ≤ notionalAlive → notionalAlive ≤ 1 →
      0 ≤ finalNotional (stepLoop (doubleScalar F) interp2D spots times vols barrier epsilon dt
        sdt gs spot time notionalAlive ()) ∧
      finalNotional (stepLoop (doubleScalar F) interp2D spots times vols barrier epsilon dt
        sdt gs spot time notionalAlive ()) ≤ notionalAlive) := by
  have h2 : (2 : D) * epsilon ≠ 0 := by
    have : (0 : D) < 2 * epsilon := by linarith
    exact ne_of_gt this
  refine ⟨fun spot notionalAlive => monitor_double F barrier epsilon spot notionalAlive,
    fun spot hlo hhi => smoothingFactor_mem barrier epsilon spot heps hlo hhi, ?_, ?_,
    fun spot notionalAlive h0 _ => monitor_notional F barrier epsilon spot notionalAlive heps h0,
    fun gs spot time notionalAlive h0 _ =>
      stepLoop_notional F interp2D spots times vols barrier epsilon dt sdt heps gs spot time
        notionalAlive h0⟩
  · unfold smoothingFactor
    have e : barrier - epsilon - barrier + epsilon = 0 := by ring
    rw [e, zero_div, sub_zero]
  · unfold smoothingFactor
    have e : barrier + epsilon - barrier + epsilon = 2 * epsilon := by ring
    rw [e, div_self h2, sub_self]

/-- Witness of C26: `barrier = 150`, `epsilon = 1`; at `spot = 150` the factor
is one half. -/
theorem smoothing_factor_bounds_witness :
    (0 : ℚ) < 1 ∧
    (∀ spot : ℚ, 150 - 1 ≤ spot → spot ≤ 150 + 1 →
      0 ≤ smoothingFactor 150 1 spot ∧ smoothingFactor 150 1 spot ≤ 1) ∧
    smoothingFactor (150 : ℚ) 1 (150 - 1) = 1 ∧
    smoothingFactor (150 : ℚ) 1 (150 + 1) = 0 ∧
    smoothingFactor (150 : ℚ) 1 150 = 1 / 2 :=
  ⟨by norm_num,
    (smoothing_factor_bounds ratFns zeroVol [] [] [] 150 1 (1 / 2) (1 / 2) (by norm_num)).2.1,
    (smoothing_factor_bounds ratFns zeroVol [] [] [] 150 1 (1 / 2) (1 / 2) (by norm_num)).2.2.1,
    (smoothing_factor_bounds ratFns zeroVol [] [] [] 150 1 (1 / 2) (1 / 2)
      (by norm_num)).2.2.2.1,
    by norm_num [smoothingFactor]⟩

set_option maxRecDepth 100000 in
/-- C26 (as stated) fails in double arithmetic: with `barrier = 100.3`,
`epsilon = 0.7` and `spot = 101`, which is `barrier + epsilon` as doubles add
them, neither `spot > barrier + epsilon` nor `spot < barrier - epsilon` holds and
the smoothing branch is taken; `spot - barrier + epsilon` comes out above
`2 * epsilon`, the factor is `-5066549580791808 * 2^-101` (about `-2e-15`), and
`notionalAlive = 1` becomes negative. -/
theorem smoothing_factor_counterexample :
    (0 : F64) < 0.7 ∧ (100.3 : F64) + 0.7 = 101 ∧
    ¬ ((100.3 : F64) + 0.7 < 101) ∧ ¬ ((101 : F64) < 100.3 - 0.7) ∧
    smoothingFactor (100.3 : F64) 0.7 101 = F64.fin true 5066549580791808 (-101) ∧
    monitor (doubleScalar f64Fns) 100.3 0.7 101 1 ()
      = ((F64.fin true 5066549580791808 (-101), false), ()) ∧
    monitoredNotional (monitor (doubleScalar f64Fns) 100.3 0.7 101 1 ()) < 0 :=
  ⟨by decide, by decide, by decide, by decide, by decide, by decide, by decide⟩

end C26

section C27

variable {α : Type}

/-- C27. On a well-formed tape, for a result with `idx < tape.size()`, every
indexed access of `calculateAdjoints` (`adjoints[N]`, `tape[j]`,
`adjoints[tape[j].idx1]`, `adjoints[tape[j].idx2]`) is within bounds: the call
returns its vector. And `idx1`, `der1` are read only where `numArg > 0`, `idx2`,
`der2` only where `numArg > 1`: the call returns the same on every tape that
differs in the other fields only. -/
theorem calculateAdjoints_in_bounds [Semiring α] (tape : Tape α) (result : Number α)
    (hwf : WellFormed tape) (hN : result.idx < tape.length) :
    (∃ a, calculateAdjoints tape result = some a ∧ a.length = tape.length) ∧
    ∀ tape' : Tape α, tape'.length = tape.length →
      (∀ k (h : k < tape.length) (h' : k < tape'.length),
        (tape'[k]).numArg = (tape[k]).numArg ∧
        (0 < (tape[k]).numArg →
          (tape'[k]).idx1 = (tape[k]).idx1 ∧ (tape'[k]).der1 = (tape[k]).der1) ∧
        (1 < (tape[k]).numArg →
          (tape'[k]).idx2 = (tape[k]).idx2 ∧ (tape'[k]).der2 = (tape[k]).der2)) →
      calculateAdjoints tape' result = calculateAdjoints tape result := by
  obtain ⟨a, ha, hlen, _⟩ := calculateAdjoints_induct tape result hwf hN (fun _ _ => True)
    (fun _ _ _ => trivial) (fun _ _ _ _ _ _ _ _ => trivial)
  refine ⟨⟨a, ha, hlen⟩, fun tape' hlen' hsame => ?_⟩
  unfold calculateAdjoints
  simp only [hlen']
  split_ifs
  · exact backward_congr tape tape'
      (fun j a => propagate_congr tape tape' j a hlen' hsame) _ _
  · rfl

/-- Witness of C27 on `exampleTape` with output `z` at position 2. -/
theorem calculateAdjoints_in_bounds_witness :
    WellFormed exampleTape ∧ (⟨15, 2⟩ : Number ℚ).idx < exampleTape.length ∧
    ∃ a, calculateAdjoints exampleTape ⟨15, 2⟩ = some a ∧ a.length = exampleTape.length :=
  ⟨exampleTape_wf, by decide,
    (calculateAdjoints_in_bounds exampleTape ⟨15, 2⟩ exampleTape_wf (by decide)).1⟩

end C27

end AAD
